import Mathlib

/-!
Verification of the H.264 RTP repacketizer
(`src/plugins/homekit/src/types/camera/h264-packetizer.ts`).

Buffers are modelled as `List Nat` (byte values); JavaScript numbers are
modelled as `Nat` where the source only ever produces non-negative values
and as `Int` where sign matters (`extraPackets`, sequence-number
arithmetic, the STAP-A size budget).  JavaScript `%` on integers is
truncated remainder, modelled by `Int.tmod`.  Out-of-range indexing,
which yields `undefined` in JavaScript and behaves as `0` under `&`,
is modelled with `List.getD _ _ 0`.

RTP header serialization is external to the repacketizer (the werift
library); an emitted serialized packet is modelled as the record of the
header fields the repacketizer sets (sequence number, marker, timestamp)
together with the payload it installs before calling `serialize`.
The source's mutate-serialize-restore dance on the borrowed template
packet is the identity on the template in a functional model.
-/

namespace H264

/-- `Math.ceil(a / b)` for non-negative integer `a` and positive `b`. -/
def jsCeilDiv (a b : Nat) : Nat := (a + b - 1) / b

/-- `Buffer.readUInt16BE(pos)`: big-endian 16-bit read.  The source only
reads positions that are in range (a STAP-A length field); out-of-range
bytes default to 0. -/
def readUInt16BE (data : List Nat) (pos : Nat) : Nat :=
  data.getD pos 0 * 256 + data.getD (pos + 1) 0

/-- `Buffer.writeUInt16BE(n)`: the two big-endian bytes of `n`.  Node
rejects values `≥ 2^16`; every call site in scope writes a NAL length
that is bounded by the packet-size budget, and theorems that depend on
reading the value back carry an explicit `< 2^16` hypothesis. -/
def writeUInt16BE (n : Nat) : List Nat := [n / 256 % 256, n % 256]

/-- Loop of `depacketizeStapA`.  `pos` scans the buffer; `lastPos`
(`none` = JS `undefined`) remembers the start of the NAL unit whose
slice is pushed at the next loop entry; the final push takes the rest of
the buffer.  `pos` advances by at least 2 per iteration, so fuel
`data.length` is never exhausted. -/
def depacketizeStapALoop (data : List Nat) :
    Nat → Nat → Option Nat → List (List Nat)
  | 0, _, lastPos => [data.drop (lastPos.getD 0)]
  | fuel + 1, pos, lastPos =>
    if pos < data.length then
      let pushed : List (List Nat) :=
        match lastPos with
        | some lp => [(data.drop lp).take (pos - lp)]
        | none => []
      let naluSize := readUInt16BE data pos
      pushed ++ depacketizeStapALoop data fuel (pos + 2 + naluSize) (some (pos + 2))
    else
      [data.drop (lastPos.getD 0)]

/-- `depacketizeStapA`: split a STAP-A payload into its NAL units. -/
def depacketizeStapA (data : List Nat) : List (List Nat) :=
  depacketizeStapALoop data (data.length + 1) 1 none

/-- Fragment loop of `packetizeFuA`.  `fuHeader` is the two-byte header
prefixed to the current chunk; it is replaced by `fuHeaderEnd` when the
chunk reaches the end of `data` exactly, and by `fuHeaderMiddle` for
every subsequent iteration.  The source's `while (offset < data.length)`
loop advances `offset` by at least 1 whenever `packageSize ≥ 1` (always
the case for `fuaMax ≥ 1`), so fuel `data.length` suffices; the source
would not terminate when `packageSize = 0` and `numLargerPackets = 0`. -/
def fuaLoop (data fuHeaderMiddle fuHeaderEnd : List Nat) (packageSize : Nat) :
    Nat → Nat → Nat → List Nat → List (List Nat)
  | 0, _, _, _ => []
  | fuel + 1, offset, numLarger, fuHeader =>
    if offset < data.length then
      let size := if 0 < numLarger then packageSize + 1 else packageSize
      let numLarger' := if 0 < numLarger then numLarger - 1 else numLarger
      let payload := (data.drop offset).take size
      let offset' := offset + size
      let fuHeader' := if offset' = data.length then fuHeaderEnd else fuHeader
      (fuHeader' ++ payload) ::
        fuaLoop data fuHeaderMiddle fuHeaderEnd packageSize fuel offset' numLarger' fuHeaderMiddle
    else []

/-- `packetizeFuA(data, noStart, noEnd)`: fragment one whole NAL unit
(or re-fragment an FU-A payload) into FU-A fragments of at most
`fuaMax` payload bytes each. -/
def packetizeFuA (fuaMax : Nat) (data0 : List Nat)
    (noStart0 : Bool := false) (noEnd0 : Bool := false) : List (List Nat) :=
  let initialNalType := data0.getD 0 0 &&& 0x1f
  -- FU-A input: reconstitute the original NAL header, strip the two FU
  -- bytes, and carry the start/end information into noStart/noEnd.
  let step :=
    if initialNalType = 28 then
      let fnri := data0.getD 0 0 &&& 0xE0
      let originalNalType := data0.getD 1 0 &&& 0x1f
      let isFuStart := data0.getD 1 0 &&& 0x80 ≠ 0
      let isFuEnd := data0.getD 1 0 &&& 0x40 ≠ 0
      let data := (fnri ||| originalNalType) :: data0.drop 2
      if isFuStart then (data, noStart0, true)
      else if isFuEnd then (data, true, noEnd0)
      else (data, true, true)
    else (data0, noStart0, noEnd0)
  let data := step.1
  let noStart := step.2.1
  let noEnd := step.2.2
  let payloadSize := data.length - 1
  let numPackets := jsCeilDiv payloadSize fuaMax
  let numLargerPackets := payloadSize % numPackets
  let packageSize := payloadSize / numPackets
  let fnri := data.getD 0 0 &&& 0xE0
  let nal := data.getD 0 0 &&& 0x1F
  let fuIndicator := fnri ||| 28
  let fuHeaderMiddle := [fuIndicator, nal]
  let fuHeaderStart := if noStart then fuHeaderMiddle else [fuIndicator, nal ||| 0x80]
  let fuHeaderEnd := if noEnd then fuHeaderMiddle else [fuIndicator, nal ||| 0x40]
  fuaLoop data fuHeaderMiddle fuHeaderEnd packageSize data.length 1 numLargerPackets fuHeaderStart

/-- Aggregation loop of `packetizeOneStapA`: consume NAL units from the
front of the queue while the budget and the 9-NAL cap allow, building
the STAP-A header and the length-prefixed body.  Returns
`(stapHeader, counter, body, remaining queue)`. -/
def stapALoop : List (List Nat) → Int → Nat → Nat →
    Nat × Nat × List Nat × List (List Nat)
  | [], _, counter, hdr => (hdr, counter, [], [])
  | nalu :: rest, availableSize, counter, hdr =>
    if (nalu.length : Int) + 2 ≤ availableSize ∧ counter < 9 then
      let hdr1 := hdr ||| (nalu.getD 0 0 &&& 0x80)
      let nri := nalu.getD 0 0 &&& 0x60
      let hdr2 := if hdr1 &&& 0x60 < nri then hdr1 &&& 0x9F ||| nri else hdr1
      let r := stapALoop rest (availableSize - (2 + nalu.length)) (counter + 1) hdr2
      (r.1, r.2.1, writeUInt16BE nalu.length ++ nalu ++ r.2.2.1, r.2.2.2)
    else
      (hdr, counter, [], nalu :: rest)

/-- `packetizeOneStapA(datas)`: build one STAP-A packet, consuming NALs
from the front of the queue; returns the packet and the un-consumed
remainder of the queue (the source mutates `datas` by `shift`).
Calling it on an empty queue throws in the source; every call site
guards on a non-empty queue, and the empty case here returns junk. -/
def packetizeOneStapA (maxPacketSize : Nat) :
    List (List Nat) → List Nat × List (List Nat)
  | [] => ([], [])
  | d0 :: rest =>
    let stapHeader := 24 ||| (d0.getD 0 0 &&& 0xE0)
    let r := stapALoop (d0 :: rest) ((maxPacketSize : Int) - 3) 0 stapHeader
    if r.2.1 = 0 then
      -- degenerate case: a single NAL plus framing exceeds the budget;
      -- pop and return the raw NAL (the source logs a warning here)
      (d0, rest)
    else
      (r.1 :: r.2.2.1, r.2.2.2)

/-- `packetizeStapA(datas)`: drain the queue into STAP-A packets.  Each
round consumes at least one NAL, so fuel `datas.length` is exact. -/
def packetizeStapAGo (maxPacketSize : Nat) : Nat → List (List Nat) → List (List Nat)
  | _, [] => []
  | 0, _ :: _ => []
  | fuel + 1, d0 :: rest =>
    let r := packetizeOneStapA maxPacketSize (d0 :: rest)
    r.1 :: packetizeStapAGo maxPacketSize fuel r.2

def packetizeStapA (maxPacketSize : Nat) (datas : List (List Nat)) : List (List Nat) :=
  packetizeStapAGo maxPacketSize datas.length datas

/-- The RTP header fields the repacketizer reads or writes. -/
structure RtpHeader where
  sequenceNumber : Int
  timestamp : Nat
  marker : Bool
  deriving DecidableEq, Repr

/-- An input RTP packet (header plus payload). -/
structure RtpPacket where
  header : RtpHeader
  payload : List Nat
  deriving DecidableEq, Repr

/-- An emitted serialized RTP packet: the header fields and payload
that `rtp.serialize()` is invoked with in `createPacket`. -/
structure SerializedPacket where
  sequenceNumber : Int
  timestamp : Nat
  marker : Bool
  payload : List Nat
  deriving DecidableEq, Repr

/-- `{sps, pps}` codec information; `none` models a missing (`undefined`)
buffer, which suppresses SPS/PPS synthesis. -/
structure CodecInfo where
  sps : Option (List Nat)
  pps : Option (List Nat)
  deriving DecidableEq, Repr

/-- The `H264Repacketizer` instance state. -/
structure H264Repacketizer where
  maxPacketSize : Nat
  codecInfo : CodecInfo
  extraPackets : Int
  fuaMax : Nat
  pendingStapA : Option (List RtpPacket)
  pendingFuA : Option (List RtpPacket)
  seenSps : Bool
  deriving DecidableEq, Repr

namespace H264Repacketizer

/-- The constructor: `fuaMax = maxPacketSize - FU_A_HEADER_SIZE`. -/
def new (maxPacketSize : Nat) (codecInfo : CodecInfo) : H264Repacketizer :=
  { maxPacketSize := maxPacketSize
    codecInfo := codecInfo
    extraPackets := 0
    fuaMax := maxPacketSize - 2
    pendingStapA := none
    pendingFuA := none
    seenSps := false }

end H264Repacketizer

/-- `createPacket(rtp, data, marker)`: serialize the template packet with
the rewritten sequence number `(seq + extraPackets + 0x10000) % 0x10000`
(JavaScript `%` is truncated remainder), the given marker and payload.
The template's fields are restored afterwards, so the state and template
are unchanged. -/
def createPacket (z : H264Repacketizer) (rtp : RtpPacket) (data : List Nat)
    (marker : Bool) : SerializedPacket :=
  { sequenceNumber := (rtp.header.sequenceNumber + z.extraPackets + 0x10000).tmod 0x10000
    timestamp := rtp.header.timestamp
    marker := marker
    payload := data }

/-- `nalus.forEach((packetized, index) => ...)` in `createRtpPackets`:
increment `extraPackets` before every chunk except the first, set the
marker only on the last chunk when `hadMarker`. -/
def createRtpPacketsGo (pkt : RtpPacket) (hadMarker : Bool) :
    H264Repacketizer → Bool → List (List Nat) →
    H264Repacketizer × List SerializedPacket
  | z, _, [] => (z, [])
  | z, isFirst, nalu :: rest =>
    let z1 := if isFirst then z else { z with extraPackets := z.extraPackets + 1 }
    let marker := hadMarker && rest.isEmpty
    let s := createPacket z1 pkt nalu marker
    let r := createRtpPacketsGo pkt hadMarker z1 false rest
    (r.1, s :: r.2)

def createRtpPackets (z : H264Repacketizer) (pkt : RtpPacket)
    (nalus : List (List Nat)) (hadMarker : Bool) :
    H264Repacketizer × List SerializedPacket :=
  createRtpPacketsGo pkt hadMarker z true nalus

/-- `flushPendingStapA`: aggregate the buffered codec NAL payloads;
expect exactly one STAP-A (else log and drop without touching
`extraPackets`); emit it with the first buffered packet's marker;
account `extraPackets -= pending.length - 1`.  A stored empty pending
list would crash the source and never occurs; it is modelled as a
no-emission reset. -/
def flushPendingStapA (z : H264Repacketizer) :
    H264Repacketizer × List SerializedPacket :=
  match z.pendingStapA with
  | none => (z, [])
  | some [] => ({ z with pendingStapA := none }, [])
  | some (first :: rest) =>
    let pending := first :: rest
    let hadMarker := first.header.marker
    let aggregates := packetizeStapA z.maxPacketSize (pending.map (·.payload))
    if aggregates.length = 1 then
      let out := [createPacket z first (aggregates.headD []) hadMarker]
      ({ z with
          extraPackets := z.extraPackets - ((pending.length : Int) - 1)
          pendingStapA := none }, out)
    else
      ({ z with pendingStapA := none }, [])

/-- Sequence numbers of consecutive pending FU-A fragments must be
contiguous modulo 2^16 (`(last + 1) % 0x10000` with JavaScript `%`). -/
def seqContiguous : List RtpPacket → Bool
  | [] => true
  | [_] => true
  | p :: q :: rest =>
    (q.header.sequenceNumber = (p.header.sequenceNumber + 1).tmod 0x10000 : Bool)
      && seqContiguous (q :: rest)

/-- `flushPendingFuA`: validate the pending group (one original NAL
type, contiguous sequence numbers; on failure discard without emission
and without touching `extraPackets`), defragment, re-fragment via
`packetizeFuA`, emit with the last fragment's marker, and account
`extraPackets -= pending.length - 1`.  A stored empty pending list
would crash the source and never occurs. -/
def flushPendingFuA (z : H264Repacketizer) :
    H264Repacketizer × List SerializedPacket :=
  match z.pendingFuA with
  | none => (z, [])
  | some [] => ({ z with pendingFuA := none }, [])
  | some (first :: rest) =>
    let pending := first :: rest
    let last := rest.getLastD first
    let hasFuStart := first.payload.getD 1 0 &&& 0x80 ≠ 0
    let hasFuEnd := last.payload.getD 1 0 &&& 0x40 ≠ 0
    let originalNalType := first.payload.getD 1 0 &&& 0x1f
    if pending.all (fun p => p.payload.getD 1 0 &&& 0x1f = originalNalType)
        && seqContiguous pending then
      let fnri := first.payload.getD 0 0 &&& 0xE0
      let defragmented :=
        (fnri ||| originalNalType) :: pending.flatMap (fun p => p.payload.drop 2)
      let fragments := packetizeFuA z.fuaMax defragmented (!hasFuStart) (!hasFuEnd)
      let hadMarker := last.header.marker
      let r := createRtpPackets z first fragments hadMarker
      ({ r.1 with
          extraPackets := r.1.extraPackets - ((pending.length : Int) - 1)
          pendingFuA := none }, r.2)
    else
      ({ z with pendingFuA := none }, [])

/-- `maybeSendSpsPps`: when both `sps` and `pps` are present, aggregate
them into exactly one STAP-A (else log and return), emit it against the
template packet, and `extraPackets++`. -/
def maybeSendSpsPps (z : H264Repacketizer) (packet : RtpPacket) :
    H264Repacketizer × List SerializedPacket :=
  match z.codecInfo.sps, z.codecInfo.pps with
  | some sps, some pps =>
    let aggregates := packetizeStapA z.maxPacketSize [sps, pps]
    if aggregates.length = 1 then
      let r := createRtpPackets z packet aggregates packet.header.marker
      ({ r.1 with extraPackets := r.1.extraPackets + 1 }, r.2)
    else
      (z, [])
  | _, _ => (z, [])

/-- The buffering tail of the FU-A input branch of `repacketize`: fat
packets are refragmented directly, other fragments are appended to the
pending FU-A group, and an FU end bit flushes the group. -/
def repacketizeFuATail (z4 : H264Repacketizer) (packet : RtpPacket) :
    H264Repacketizer × List SerializedPacket :=
  let data := packet.payload
  -- (the source's `false && payload fits` fast path is dead code)
  let s5 :=
    match z4.pendingFuA with
    | none =>
      if 2 * z4.maxPacketSize ≤ data.length then
        -- fat fua packet: repacketize directly
        let fragments := packetizeFuA z4.fuaMax data
        createRtpPackets z4 packet fragments packet.header.marker
      else
        ({ z4 with pendingFuA := some [] }, [])
    | some _ => (z4, [])
  let z5 := s5.1
  match z5.pendingFuA with
  | some pend =>
    let z6 := { z5 with pendingFuA := some (pend ++ [packet]) }
    let isFuEnd := packet.payload.getD 1 0 &&& 0x40 ≠ 0
    let s7 := if isFuEnd then flushPendingFuA z6 else (z6, [])
    (s7.1, s5.2 ++ s7.2)
  | none => (z5, s5.2)

/-- The dispatch phase of `repacketize(packet)`: everything after the
two timestamp-mismatch entry flushes. -/
def repacketizeDispatch (z2 : H264Repacketizer) (packet : RtpPacket) :
    H264Repacketizer × List SerializedPacket :=
  let nalType := packet.payload.getD 0 0 &&& 0x1F
  if nalType = 28 then
    -- fua may share a timestamp as stapa, but don't aggregate with stapa
    let s3 := flushPendingStapA z2
    let z3 := s3.1
    let data := packet.payload
    let originalNalType := data.getD 1 0 &&& 0x1f
    let isFuStart := data.getD 1 0 &&& 0x80 ≠ 0
    let s4 :=
      if originalNalType = 5 ∧ isFuStart ∧ ¬z3.seenSps then
        maybeSendSpsPps z3 packet
      else (z3, [])
    let r := repacketizeFuATail s4.1 packet
    (r.1, s3.2 ++ s4.2 ++ r.2)
  else if nalType = 24 then
    let s3 := flushPendingFuA z2
    let z3 := s3.1
    -- break the aggregated packet up; the filter callback records any
    -- SPS before dropping SEI NALs
    let nals := depacketizeStapA packet.payload
    let z4 := { z3 with
      seenSps := z3.seenSps || nals.any (fun p => p.getD 0 0 &&& 0x1F = 7) }
    let depacketized := nals.filter (fun p => p.getD 0 0 &&& 0x1F ≠ 6)
    let aggregates := packetizeStapA z4.maxPacketSize depacketized
    let s5 := createRtpPackets z4 packet aggregates packet.header.marker
    (s5.1, s3.2 ++ s5.2)
  else if 1 ≤ nalType ∧ nalType < 24 then
    let s3 := flushPendingFuA z2
    let z3 := s3.1
    if nalType = 7 ∨ nalType = 8 then
      -- codec information is buffered for aggregation
      let z4 := { z3 with
        seenSps := z3.seenSps || nalType = 7
        pendingStapA := some ((z3.pendingStapA.getD []) ++ [packet]) }
      (z4, s3.2)
    else
      let s4 := flushPendingStapA z3
      let z4 := s4.1
      if nalType = 6 then
        -- SEI nal causes homekit to fail
        ({ z4 with extraPackets := z4.extraPackets - 1 }, s3.2 ++ s4.2)
      else
        let s5 :=
          if nalType = 5 ∧ ¬z4.seenSps then maybeSendSpsPps z4 packet else (z4, [])
        let z5 := s5.1
        if z5.maxPacketSize < packet.payload.length then
          let fragments := packetizeFuA z5.fuaMax packet.payload
          let s6 := createRtpPackets z5 packet fragments packet.header.marker
          (s6.1, s3.2 ++ s4.2 ++ s5.2 ++ s6.2)
        else
          -- can send this packet as is
          (z5, s3.2 ++ s4.2 ++ s5.2 ++
            [createPacket z5 packet packet.payload packet.header.marker])
  else
    -- unknown nal unit type: drop
    ({ z2 with extraPackets := z2.extraPackets - 1 }, [])

/-- Entry flush: fragmented packets must share a timestamp. -/
def flushFuAIfStale (z0 : H264Repacketizer) (packet : RtpPacket) :
    H264Repacketizer × List SerializedPacket :=
  match z0.pendingFuA with
  | some (p0 :: _) =>
    if p0.header.timestamp ≠ packet.header.timestamp then flushPendingFuA z0 else (z0, [])
  | _ => (z0, [])

/-- Entry flush: stapa packets must share the same timestamp. -/
def flushStapAIfStale (z1 : H264Repacketizer) (packet : RtpPacket) :
    H264Repacketizer × List SerializedPacket :=
  match z1.pendingStapA with
  | some (p0 :: _) =>
    if p0.header.timestamp ≠ packet.header.timestamp then flushPendingStapA z1 else (z1, [])
  | _ => (z1, [])

/-- `repacketize(packet)`: flush pending groups whose timestamp does not
match the incoming packet, then dispatch on the NAL type. -/
def repacketize (z0 : H264Repacketizer) (packet : RtpPacket) :
    H264Repacketizer × List SerializedPacket :=
  let s1 := flushFuAIfStale z0 packet
  let s2 := flushStapAIfStale s1.1 packet
  let r := repacketizeDispatch s2.1 packet
  (r.1, s1.2 ++ s2.2 ++ r.2)

/-- Feed a sequence of input packets through `repacketize`, collecting
all emissions. -/
def repacketizeAll (z : H264Repacketizer) :
    List RtpPacket → H264Repacketizer × List SerializedPacket
  | [] => (z, [])
  | p :: rest =>
    let r1 := repacketize z p
    let r2 := repacketizeAll r1.1 rest
    (r2.1, r1.2 ++ r2.2)

/-! Specification-side definitions, used only to state the claims. -/

/-- The NAL type carried in the first byte of a payload. -/
def nalTypeOf (p : List Nat) : Nat := p.getD 0 0 &&& 0x1F

/-- The STAP-A admission test of the claims: every NAL fits the
remaining budget, which shrinks by `2 + |nal|` per NAL. -/
def stapAdmits : Int → List (List Nat) → Bool
  | _, [] => true
  | avail, n :: rest =>
    ((n.length : Int) + 2 ≤ avail : Bool) && stapAdmits (avail - (2 + n.length)) rest

/-- The length-prefixed body of a STAP-A packet holding `datas`. -/
def encodeStapA (datas : List (List Nat)) : List Nat :=
  datas.flatMap fun n => writeUInt16BE n.length ++ n

/-- A payload "contains a NAL with type 6" in the sense of the SEI
elision claim: as a single NAL, inside a STAP-A aggregate, or as the
original NAL type of an FU-A fragment. -/
def mentionsSei (p : List Nat) : Bool :=
  (nalTypeOf p == 6) ||
    ((nalTypeOf p == 24) && (depacketizeStapA p).any (fun n => nalTypeOf n == 6)) ||
    ((nalTypeOf p == 28) && (p.getD 1 0 &&& 0x1F == 6))

/-- All packets currently buffered in either pending group. -/
def pendingPackets (z : H264Repacketizer) : List RtpPacket :=
  z.pendingFuA.getD [] ++ z.pendingStapA.getD []

/-- Logical FU-A defragmentation, as described by the round-trip claim:
rebuild the NAL header from the first fragment's FU indicator and FU
header, then append every fragment stripped of its two FU bytes. -/
def defragmentFuA (frags : List (List Nat)) : List Nat :=
  ((frags.headD []).getD 0 0 &&& 0xE0 ||| (frags.headD []).getD 1 0 &&& 0x1F) ::
    frags.flatMap fun f => f.drop 2

/-- The FU start bit of a fragment. -/
def fuStart (f : List Nat) : Bool := f.getD 1 0 &&& 0x80 != 0

/-- The FU end bit of a fragment. -/
def fuEnd (f : List Nat) : Bool := f.getD 1 0 &&& 0x40 != 0

/-- Expected two-byte FU headers of a fragment list of a given length:
the first fragment carries `cur` (the start header), middles `mid`,
and the last `endH`; a single fragment carries `endH` alone. -/
def fuaHeadersSpec (mid endH : List Nat) : Nat → List Nat → List (List Nat)
  | 0, _ => []
  | 1, _ => [endH]
  | c + 2, cur => cur :: fuaHeadersSpec mid endH (c + 1) mid

end H264

namespace H264

/-- The body of `packetizeFuA` after the FU-A input rewrite: the chunk
parameters, headers, and loop exactly as in the source. -/
def fuaCore (f : Nat) (data : List Nat) (ns ne : Bool) : List (List Nat) :=
  let payloadSize := data.length - 1
  let numPackets := jsCeilDiv payloadSize f
  let numLargerPackets := payloadSize % numPackets
  let packageSize := payloadSize / numPackets
  let fnri := data.getD 0 0 &&& 0xE0
  let nal := data.getD 0 0 &&& 0x1F
  let fuIndicator := fnri ||| 28
  let fuHeaderMiddle := [fuIndicator, nal]
  let fuHeaderStart := if ns then fuHeaderMiddle else [fuIndicator, nal ||| 0x80]
  let fuHeaderEnd := if ne then fuHeaderMiddle else [fuIndicator, nal ||| 0x40]
  fuaLoop data fuHeaderMiddle fuHeaderEnd packageSize data.length 1 numLargerPackets fuHeaderStart

/-- Whether `maybeSendSpsPps` would emit: both codec buffers present and
their aggregation yields exactly one STAP-A. -/
def spsPpsAggregatable (z : H264Repacketizer) : Bool :=
  match z.codecInfo.sps, z.codecInfo.pps with
  | some s, some p => (packetizeStapA z.maxPacketSize [s, p]).length == 1
  | _, _ => false

/-- Whether the single-NAL IDR path triggers SPS/PPS synthesis. -/
def spsSynthesisFires (z : H264Repacketizer) (t : Nat) : Bool :=
  t == 5 && !z.seenSps && spsPpsAggregatable z

/-- The NAL type that `packetizeFuA` stamps into every FU header: the
original type carried in an FU-A buffer's second byte, or the buffer's
own NAL type otherwise. -/
def fuaSourceType (data : List Nat) : Nat :=
  if data.getD 0 0 &&& 0x1f = 28 then data.getD 1 0 &&& 31 else data.getD 0 0 &&& 31

/-- A NAL buffer that can never make an emitted packet mention SEI:
type in `[1, 24)`, not 6, and short enough for STAP-A length framing. -/
def okNal (n : List Nat) : Bool :=
  (1 ≤ nalTypeOf n : Bool) && (nalTypeOf n < 24 : Bool) &&
    (nalTypeOf n != 6) && (n.length < 65536 : Bool)

/-- Codec information whose SPS/PPS buffers (when present) are safe. -/
def seiSafeCodec (ci : CodecInfo) : Bool :=
  ci.sps.all okNal && ci.pps.all okNal

/-- An input packet that cannot smuggle an SEI NAL into the output. -/
def seiSafeInput (q : RtpPacket) : Bool :=
  if nalTypeOf q.payload = 28 then
    (q.payload.getD 1 0 &&& 31 != 6) && (q.payload.getD 1 0 &&& 31 != 28)
  else if nalTypeOf q.payload = 24 then
    (depacketizeStapA q.payload).all (fun n => (nalTypeOf n == 6) || okNal n)
  else if nalTypeOf q.payload = 7 ∨ nalTypeOf q.payload = 8 then
    (q.payload.length < 65536 : Bool)
  else true

/-- Invariant: every buffered pending packet is harmless. -/
def PendOk (z : H264Repacketizer) : Prop :=
  (∀ q ∈ z.pendingStapA.getD [], okNal q.payload = true) ∧
  (∀ q ∈ z.pendingFuA.getD [],
    q.payload.getD 1 0 &&& 31 ≠ 6 ∧ q.payload.getD 1 0 &&& 31 ≠ 28)

/-! Bitwise helper lemmas. -/

theorem land_lor_right (a b c : Nat) : (a ||| b) &&& c = a &&& c ||| b &&& c := by
  apply Nat.eq_of_testBit_eq
  intro i
  simp [Nat.testBit_land, Nat.testBit_lor, Bool.and_or_distrib_right]

theorem land_31_31 (x : Nat) : (x &&& 31) &&& 31 = x &&& 31 := by
  rw [Nat.land_assoc, (by decide : (31 : Nat) &&& 31 = 31)]

theorem land_hi_31 (x : Nat) : (x &&& 0xE0) &&& 31 = 0 := by
  rw [Nat.land_assoc, (by decide : (0xE0 : Nat) &&& 31 = 0), Nat.and_zero]

theorem fu_indicator_type (x : Nat) : ((x &&& 0xE0) ||| 28) &&& 31 = 28 := by
  rw [land_lor_right, land_hi_31, Nat.zero_or, (by decide : (28 : Nat) &&& 31 = 28)]

theorem lor_hi_land31 (y c : Nat) (hc : c &&& 31 = 0) :
    ((y &&& 31) ||| c) &&& 31 = y &&& 31 := by
  rw [land_lor_right, land_31_31, hc, Nat.or_zero]

theorem startbit_of_lor (y : Nat) : ((y &&& 31) ||| 0x80) &&& 0x80 = 0x80 := by
  rw [land_lor_right, Nat.land_assoc, (by decide : (31 : Nat) &&& 0x80 = 0),
    Nat.and_zero, Nat.zero_or, (by decide : (0x80 : Nat) &&& 0x80 = 0x80)]

theorem mid_no_startbit (y : Nat) : (y &&& 31) &&& 0x80 = 0 := by
  rw [Nat.land_assoc, (by decide : (31 : Nat) &&& 0x80 = 0), Nat.and_zero]

theorem mid_no_endbit (y : Nat) : (y &&& 31) &&& 0x40 = 0 := by
  rw [Nat.land_assoc, (by decide : (31 : Nat) &&& 0x40 = 0), Nat.and_zero]

theorem endbit_of_lor (y : Nat) : ((y &&& 31) ||| 0x40) &&& 0x40 = 0x40 := by
  rw [land_lor_right, mid_no_endbit, Nat.zero_or, (by decide : (0x40 : Nat) &&& 0x40 = 0x40)]

theorem endbit_no_startbit (y : Nat) : ((y &&& 31) ||| 0x40) &&& 0x80 = 0 := by
  rw [land_lor_right, mid_no_startbit, Nat.zero_or, (by decide : (0x40 : Nat) &&& 0x80 = 0)]

theorem startbit_no_endbit (y : Nat) : ((y &&& 31) ||| 0x80) &&& 0x40 = 0 := by
  rw [land_lor_right, mid_no_endbit, Nat.zero_or, (by decide : (0x80 : Nat) &&& 0x40 = 0)]

theorem stap_header_type (x : Nat) : (24 ||| (x &&& 0xE0)) &&& 31 = 24 := by
  rw [land_lor_right, land_hi_31, Nat.or_zero, (by decide : (24 : Nat) &&& 31 = 24)]

theorem stap_header_keep_f (h x : Nat) : (h ||| (x &&& 0x80)) &&& 31 = h &&& 31 := by
  rw [land_lor_right, Nat.land_assoc, (by decide : (0x80 : Nat) &&& 31 = 0),
    Nat.and_zero, Nat.or_zero]

theorem stap_header_keep_nri (h x : Nat) :
    ((h &&& 0x9F) ||| (x &&& 0x60)) &&& 31 = h &&& 31 := by
  rw [land_lor_right, Nat.land_assoc, Nat.land_assoc,
    (by decide : (0x9F : Nat) &&& 31 = 31), (by decide : (0x60 : Nat) &&& 31 = 0),
    Nat.and_zero, Nat.or_zero]

theorem land31_lt (x : Nat) : x &&& 31 < 32 := by
  have h := Nat.and_pow_two_sub_one_eq_mod x 5
  norm_num at h
  rw [h]
  exact Nat.mod_lt _ (by norm_num)

theorem land255_eq_self (x : Nat) (hx : x < 256) : x &&& 255 = x := by
  have h := Nat.and_pow_two_sub_one_eq_mod x 8
  norm_num at h
  rw [h]
  exact Nat.mod_eq_of_lt hx

theorem land_lor_left (a b c : Nat) : a &&& (b ||| c) = a &&& b ||| a &&& c := by
  apply Nat.eq_of_testBit_eq
  intro i
  simp [Nat.testBit_land, Nat.testBit_lor, Bool.and_or_distrib_left]

/-- Splitting a byte into its high and low parts:
`(x &&& 0xE0) ||| (x &&& 0x1F) = x &&& 0xFF`. -/
theorem land_hi_lor_lo (x : Nat) : (x &&& 0xE0) ||| (x &&& 0x1F) = x &&& 0xFF := by
  rw [← land_lor_left, (by decide : (0xE0 : Nat) ||| 0x1F = 0xFF)]

end H264

namespace H264

/-- When the loop cursor has reached the end of the buffer, `fuaLoop`
produces nothing. -/
theorem fuaLoop_stop (data mid endH : List Nat) (pkg : Nat) (fuel offset nl : Nat)
    (cur : List Nat) (h : data.length ≤ offset) :
    fuaLoop data mid endH pkg fuel offset nl cur = [] := by
  cases fuel with
  | zero => rfl
  | succ f => simp [fuaLoop, Nat.not_lt.mpr h]

theorem fuaLoop_step_zero (data mid endH : List Nat) (pkg f offset : Nat)
    (cur : List Nat) (h : offset < data.length) :
    fuaLoop data mid endH pkg (f + 1) offset 0 cur =
      ((if offset + pkg = data.length then endH else cur) ++ (data.drop offset).take pkg) ::
        fuaLoop data mid endH pkg f (offset + pkg) 0 mid := by
  simp [fuaLoop, h]

theorem fuaLoop_step_succ (data mid endH : List Nat) (pkg f offset k : Nat)
    (cur : List Nat) (h : offset < data.length) :
    fuaLoop data mid endH pkg (f + 1) offset (k + 1) cur =
      ((if offset + (pkg + 1) = data.length then endH else cur) ++
          (data.drop offset).take (pkg + 1)) ::
        fuaLoop data mid endH pkg f (offset + (pkg + 1)) k mid := by
  simp [fuaLoop, h]

theorem chunks_pos (pkg k m : Nat) (hpkg : 1 ≤ pkg) (h : 1 ≤ k + m) :
    1 ≤ k * (pkg + 1) + m * pkg := by
  rcases Nat.eq_zero_or_pos k with rfl | hk
  · have h1 : 1 ≤ m := by omega
    have h2 : 1 ≤ m * pkg := by simpa using Nat.mul_le_mul h1 hpkg
    simp only [Nat.zero_mul, Nat.zero_add]
    exact h2
  · have h2 : 1 ≤ k * (pkg + 1) := by
      simpa using Nat.mul_le_mul hk (by omega : 1 ≤ pkg + 1)
    exact le_trans h2 (Nat.le_add_right _ _)

/-- Full characterization of `fuaLoop` when the remaining bytes split
exactly into `nl` chunks of `pkg + 1` bytes followed by `m` chunks of
`pkg` bytes: the produced fragments carry the expected FU headers, their
chunks concatenate back to the remaining bytes, and their chunk sizes
are `pkg + 1` (`nl` times) then `pkg` (`m` times). -/
theorem fuaLoop_spec (data mid endH : List Nat) (pkg : Nat) (hpkg : 1 ≤ pkg)
    (hmid : mid.length = 2) (hendH : endH.length = 2) :
    ∀ count nl m offset fuel (cur : List Nat), cur.length = 2 →
      nl + m = count → count ≤ fuel →
      offset + (nl * (pkg + 1) + m * pkg) = data.length →
      (fuaLoop data mid endH pkg fuel offset nl cur).map (fun f => f.take 2) =
          fuaHeadersSpec mid endH count cur ∧
      ((fuaLoop data mid endH pkg fuel offset nl cur).map (fun f => f.drop 2)).flatten =
          data.drop offset ∧
      (fuaLoop data mid endH pkg fuel offset nl cur).map (fun f => (f.drop 2).length) =
          List.replicate nl (pkg + 1) ++ List.replicate m pkg := by
  intro count
  induction count with
  | zero =>
    intro nl m offset fuel cur hcur hnm hfuel hlen
    have hnl : nl = 0 := by omega
    have hm : m = 0 := by omega
    subst hnl hm
    have hoff : offset = data.length := by simpa using hlen
    rw [fuaLoop_stop data mid endH pkg fuel offset 0 cur (le_of_eq hoff.symm)]
    subst hoff
    simp [fuaHeadersSpec, List.drop_length]
  | succ c ih =>
    intro nl m offset fuel cur hcur hnm hfuel hlen
    obtain ⟨f, rfl⟩ : ∃ f, fuel = f + 1 := ⟨fuel - 1, by omega⟩
    rcases Nat.eq_zero_or_pos nl with hnl | hnl
    · -- all remaining chunks have size pkg
      subst hnl
      have hm : m = c + 1 := by omega
      subst hm
      obtain ⟨R, hR⟩ : ∃ R, c * pkg = R := ⟨_, rfl⟩
      have hrem : offset + (pkg + R) = data.length := by
        have h1 : (c + 1) * pkg = pkg + R := by rw [Nat.succ_mul, ← hR]; omega
        simpa [h1] using hlen
      have hlt : offset < data.length := by omega
      rw [fuaLoop_step_zero data mid endH pkg f offset cur hlt]
      have hchunklen : ((data.drop offset).take pkg).length = pkg := by
        rw [List.length_take, List.length_drop]
        omega
      rcases Nat.eq_zero_or_pos c with hc | hc
      · -- single final fragment
        subst hc
        have hRz : R = 0 := by omega
        have heq : offset + pkg = data.length := by omega
        rw [if_pos heq, fuaLoop_stop data mid endH pkg f (offset + pkg) 0 mid (by omega)]
        refine ⟨?_, ?_, ?_⟩
        · rw [show fuaHeadersSpec mid endH 1 cur = [endH] from rfl]
          simp only [List.map_cons, List.map_nil]
          rw [← hendH, List.take_left]
        · simp only [List.map_cons, List.map_nil, List.flatten]
          rw [← hendH, List.drop_left]
          simp only [List.append_nil, List.flatten_nil]
          have hdl : (data.drop offset).length = data.length - offset :=
            List.length_drop _ _
          exact List.take_of_length_le (by omega)
        · simp only [List.map_cons, List.map_nil]
          rw [← hendH, List.drop_left, hchunklen]
          rfl
      · -- more fragments follow
        obtain ⟨c', rfl⟩ : ∃ c', c = c' + 1 := ⟨c - 1, by omega⟩
        have hRpos : 1 ≤ R := by
          rw [← hR]
          calc 1 ≤ 1 * pkg := by omega
          _ ≤ (c' + 1) * pkg := Nat.mul_le_mul (by omega) (le_refl _)
        have hne : ¬(offset + pkg = data.length) := by omega
        rw [if_neg hne]
        have hih := ih 0 (c' + 1) (offset + pkg) f mid hmid (by omega) (by omega)
          (by simp only [Nat.zero_mul, Nat.zero_add]; rw [hR]; omega)
        obtain ⟨ih1, ih2, ih3⟩ := hih
        refine ⟨?_, ?_, ?_⟩
        · simp only [List.map_cons, ih1]
          rw [show fuaHeadersSpec mid endH (c' + 1 + 1) cur =
            cur :: fuaHeadersSpec mid endH (c' + 1) mid from rfl]
          rw [← hcur, List.take_left]
        · simp only [List.map_cons, List.flatten_cons, ih2]
          rw [← hcur, List.drop_left]
          rw [← List.drop_drop, List.take_append_drop]
        · simp only [List.map_cons, ih3]
          rw [← hcur, List.drop_left, hchunklen]
          simp [List.replicate_succ]
    · -- current chunk has size pkg + 1
      obtain ⟨k, rfl⟩ : ∃ k, nl = k + 1 := ⟨nl - 1, by omega⟩
      obtain ⟨R, hR⟩ : ∃ R, k * (pkg + 1) + m * pkg = R := ⟨_, rfl⟩
      have hrem : offset + ((pkg + 1) + R) = data.length := by
        have h1 : (k + 1) * (pkg + 1) + m * pkg = (pkg + 1) + R := by
          rw [Nat.succ_mul, ← hR]; omega
        omega
      have hlt : offset < data.length := by omega
      rw [fuaLoop_step_succ data mid endH pkg f offset k cur hlt]
      have hchunklen : ((data.drop offset).take (pkg + 1)).length = pkg + 1 := by
        rw [List.length_take, List.length_drop]
        omega
      rcases Nat.eq_zero_or_pos c with hc | hc
      · -- single final fragment
        subst hc
        have hk : k = 0 := by omega
        have hm : m = 0 := by omega
        subst hk hm
        have hRz : R = 0 := by rw [← hR]; ring
        have heq : offset + (pkg + 1) = data.length := by omega
        rw [if_pos heq, fuaLoop_stop data mid endH pkg f (offset + (pkg + 1)) 0 mid (by omega)]
        refine ⟨?_, ?_, ?_⟩
        · rw [show fuaHeadersSpec mid endH 1 cur = [endH] from rfl]
          simp only [List.map_cons, List.map_nil]
          rw [← hendH, List.take_left]
        · simp only [List.map_cons, List.map_nil, List.flatten]
          rw [← hendH, List.drop_left]
          simp only [List.append_nil, List.flatten_nil]
          have hdl : (data.drop offset).length = data.length - offset :=
            List.length_drop _ _
          exact List.take_of_length_le (by omega)
        · simp only [List.map_cons, List.map_nil]
          rw [← hendH, List.drop_left, hchunklen]
          rfl
      · -- more fragments follow
        have hRpos : 1 ≤ R := by rw [← hR]; exact chunks_pos pkg k m hpkg (by omega)
        have hne : ¬(offset + (pkg + 1) = data.length) := by omega
        rw [if_neg hne]
        have hih := ih k m (offset + (pkg + 1)) f mid hmid (by omega) (by omega)
          (by rw [hR]; omega)
        obtain ⟨ih1, ih2, ih3⟩ := hih
        obtain ⟨c', rfl⟩ : ∃ c', c = c' + 1 := ⟨c - 1, by omega⟩
        refine ⟨?_, ?_, ?_⟩
        · simp only [List.map_cons, ih1]
          rw [show fuaHeadersSpec mid endH (c' + 1 + 1) cur =
            cur :: fuaHeadersSpec mid endH (c' + 1) mid from rfl]
          rw [← hcur, List.take_left]
        · simp only [List.map_cons, List.flatten_cons, ih2]
          rw [← hcur, List.drop_left]
          rw [← List.drop_drop, List.take_append_drop]
        · simp only [List.map_cons, ih3]
          rw [← hcur, List.drop_left, hchunklen]
          simp [List.replicate_succ]

end H264

namespace H264

/-! Arithmetic facts about the FU-A chunk sizing. -/

theorem jsCeilDiv_le_mul (p f : Nat) (hf : 1 ≤ f) : p ≤ jsCeilDiv p f * f := by
  unfold jsCeilDiv
  obtain ⟨q, hq⟩ : ∃ q, (p + f - 1) / f = q := ⟨_, rfl⟩
  obtain ⟨A, hA⟩ : ∃ A, f * q = A := ⟨_, rfl⟩
  have hdm := Nat.div_add_mod (p + f - 1) f
  have hm : (p + f - 1) % f < f := Nat.mod_lt _ (by omega)
  rw [hq, hA] at hdm
  rw [hq, Nat.mul_comm, hA]
  omega

theorem jsCeilDiv_pos (p f : Nat) (hp : 1 ≤ p) (hf : 1 ≤ f) : 1 ≤ jsCeilDiv p f := by
  unfold jsCeilDiv
  exact Nat.one_le_div_iff hf |>.mpr (by omega)

theorem jsCeilDiv_le_self (p f : Nat) (hp : 1 ≤ p) (hf : 1 ≤ f) : jsCeilDiv p f ≤ p := by
  unfold jsCeilDiv
  have h1 : p + f - 1 ≤ f * p + (f - 1) := by
    obtain ⟨B, hB⟩ : ∃ B, f * p = B := ⟨_, rfl⟩
    have : p ≤ f * p := Nat.le_mul_of_pos_left p hf
    omega
  calc (p + f - 1) / f ≤ (f * p + (f - 1)) / f := Nat.div_le_div_right h1
  _ ≤ p := by
    rw [Nat.mul_add_div hf]
    have : (f - 1) / f = 0 := Nat.div_eq_of_lt (by omega)
    omega

theorem div_le_of_le_mul_self (p n f : Nat) (hn : 1 ≤ n) (h : p ≤ n * f) : p / n ≤ f := by
  calc p / n ≤ (n * f) / n := Nat.div_le_div_right h
  _ = f := Nat.mul_div_cancel_left f hn

theorem div_pos_of_le (p n : Nat) (hn : 1 ≤ n) (h : n ≤ p) : 1 ≤ p / n :=
  Nat.one_le_div_iff hn |>.mpr h

theorem div_succ_le_of_mod_ne (p n f : Nat) (hn : 1 ≤ n) (hle : p ≤ n * f)
    (hmod : p % n ≠ 0) : p / n + 1 ≤ f := by
  by_contra hcon
  have hfle : f ≤ p / n := by omega
  obtain ⟨C, hC⟩ : ∃ C, n * (p / n) = C := ⟨_, rfl⟩
  obtain ⟨D, hD⟩ : ∃ D, n * f = D := ⟨_, rfl⟩
  have h1 : D ≤ C := by
    rw [← hC, ← hD]
    exact Nat.mul_le_mul_left n hfle
  have hdm := Nat.div_add_mod p n
  have h2 : p % n < n := Nat.mod_lt _ (by omega)
  rw [hC] at hdm
  omega

/-- The exact chunk decomposition used by `packetizeFuA`:
`(p % n) · (p/n + 1) + (n − p % n) · (p/n) = p`. -/
theorem chunk_decomposition (p n : Nat) (hn : 1 ≤ n) :
    (p % n) * (p / n + 1) + (n - p % n) * (p / n) = p := by
  obtain ⟨B, hB⟩ : ∃ B, (p % n) * (p / n) = B := ⟨_, rfl⟩
  obtain ⟨C, hC⟩ : ∃ C, n * (p / n) = C := ⟨_, rfl⟩
  have h1 : (p % n) * (p / n + 1) = B + p % n := by rw [Nat.mul_succ, hB]
  have h2 : (n - p % n) * (p / n) = C - B := by rw [Nat.sub_mul, hB, hC]
  have h3 : B ≤ C := by
    rw [← hB, ← hC]
    exact Nat.mul_le_mul_right _ (le_of_lt (Nat.mod_lt _ (by omega)))
  have hdm := Nat.div_add_mod p n
  rw [hC] at hdm
  rw [h1, h2]
  omega


theorem packetizeFuA_eq_core (f : Nat) (data : List Nat) (ns ne : Bool)
    (hty : data.getD 0 0 &&& 0x1f ≠ 28) :
    packetizeFuA f data ns ne = fuaCore f data ns ne := by
  simp only [packetizeFuA, fuaCore, if_neg hty]

theorem packetizeFuA_eq_core_fua (f : Nat) (data : List Nat) (ns ne : Bool)
    (hty : data.getD 0 0 &&& 0x1f = 28) :
    packetizeFuA f data ns ne =
      fuaCore f ((data.getD 0 0 &&& 0xE0 ||| data.getD 1 0 &&& 0x1f) :: data.drop 2)
        (if data.getD 1 0 &&& 0x80 ≠ 0 then ns else true)
        (if data.getD 1 0 &&& 0x80 ≠ 0 then true
          else if data.getD 1 0 &&& 0x40 ≠ 0 then ne else true) := by
  have hty2 : (data[0]?).getD 0 &&& 31 = 28 := by
    rw [← List.getD_eq_getElem?_getD]
    exact hty
  by_cases h80 : (data[1]?).getD 0 &&& 0x80 = 0
  · by_cases h40 : (data[1]?).getD 0 &&& 0x40 = 0
    · simp [packetizeFuA, fuaCore, List.getD, hty2, h80, h40]
    · simp [packetizeFuA, fuaCore, List.getD, hty2, h80, h40]
  · simp [packetizeFuA, fuaCore, List.getD, hty2, h80]

/-- Characterization of `fuaCore` for a buffer with at least one payload
byte and a positive fragment capacity: headers follow
`fuaHeadersSpec`, the chunks concatenate back to the payload, and the
chunk sizes are the source's larger/smaller split. -/
theorem fuaCore_spec (f : Nat) (hf : 1 ≤ f) (data : List Nat)
    (hlen : 2 ≤ data.length) (ns ne : Bool) :
    (fuaCore f data ns ne).map (fun x => x.take 2) =
        fuaHeadersSpec
          [data.getD 0 0 &&& 0xE0 ||| 28, data.getD 0 0 &&& 0x1F]
          (if ne then [data.getD 0 0 &&& 0xE0 ||| 28, data.getD 0 0 &&& 0x1F]
            else [data.getD 0 0 &&& 0xE0 ||| 28, data.getD 0 0 &&& 0x1F ||| 0x40])
          (jsCeilDiv (data.length - 1) f)
          (if ns then [data.getD 0 0 &&& 0xE0 ||| 28, data.getD 0 0 &&& 0x1F]
            else [data.getD 0 0 &&& 0xE0 ||| 28, data.getD 0 0 &&& 0x1F ||| 0x80]) ∧
      ((fuaCore f data ns ne).map (fun x => x.drop 2)).flatten = data.drop 1 ∧
      (fuaCore f data ns ne).map (fun x => (x.drop 2).length) =
        List.replicate ((data.length - 1) % jsCeilDiv (data.length - 1) f)
            ((data.length - 1) / jsCeilDiv (data.length - 1) f + 1) ++
          List.replicate
            (jsCeilDiv (data.length - 1) f - (data.length - 1) % jsCeilDiv (data.length - 1) f)
            ((data.length - 1) / jsCeilDiv (data.length - 1) f) := by
  have hp : 1 ≤ data.length - 1 := by omega
  have hn : 1 ≤ jsCeilDiv (data.length - 1) f := jsCeilDiv_pos _ _ hp hf
  have hnp : jsCeilDiv (data.length - 1) f ≤ data.length - 1 := jsCeilDiv_le_self _ _ hp hf
  have hpkg : 1 ≤ (data.length - 1) / jsCeilDiv (data.length - 1) f :=
    div_pos_of_le _ _ hn hnp
  have hmod : (data.length - 1) % jsCeilDiv (data.length - 1) f <
      jsCeilDiv (data.length - 1) f := Nat.mod_lt _ (by omega)
  have hdec := chunk_decomposition (data.length - 1) (jsCeilDiv (data.length - 1) f) hn
  have h := fuaLoop_spec data
    [data.getD 0 0 &&& 0xE0 ||| 28, data.getD 0 0 &&& 0x1F]
    (if ne then [data.getD 0 0 &&& 0xE0 ||| 28, data.getD 0 0 &&& 0x1F]
      else [data.getD 0 0 &&& 0xE0 ||| 28, data.getD 0 0 &&& 0x1F ||| 0x40])
    ((data.length - 1) / jsCeilDiv (data.length - 1) f) hpkg
    (by rfl)
    (by cases ne <;> rfl)
    (jsCeilDiv (data.length - 1) f)
    ((data.length - 1) % jsCeilDiv (data.length - 1) f)
    (jsCeilDiv (data.length - 1) f - (data.length - 1) % jsCeilDiv (data.length - 1) f)
    1 data.length
    (if ns then [data.getD 0 0 &&& 0xE0 ||| 28, data.getD 0 0 &&& 0x1F]
      else [data.getD 0 0 &&& 0xE0 ||| 28, data.getD 0 0 &&& 0x1F ||| 0x80])
    (by cases ns <;> rfl)
    (by omega)
    (by omega)
    (by rw [hdec]; omega)
  simpa only [fuaCore] using h

theorem fuaHeadersSpec_length (mid endH : List Nat) :
    ∀ c cur, (fuaHeadersSpec mid endH c cur).length = c := by
  intro c
  induction c using Nat.strong_induction_on with
  | _ c ih =>
    intro cur
    match c with
    | 0 => rfl
    | 1 => rfl
    | c + 2 =>
      have := ih (c + 1) (by omega) mid
      simp only [fuaHeadersSpec, List.length_cons, this]

theorem fuaHeadersSpec_closed (mid endH : List Nat) :
    ∀ c cur, 1 ≤ c →
      fuaHeadersSpec mid endH (c + 1) cur = cur :: (List.replicate (c - 1) mid ++ [endH]) := by
  intro c
  induction c with
  | zero => intro cur h; omega
  | succ c ih =>
    intro cur _
    rcases Nat.eq_zero_or_pos c with rfl | hc
    · rfl
    · show cur :: fuaHeadersSpec mid endH (c + 1) mid = _
      rw [ih mid hc]
      have : c + 1 - 1 = (c - 1) + 1 := by omega
      rw [this, List.replicate_succ]
      rfl

theorem fuaCore_short (f : Nat) (data : List Nat) (ns ne : Bool)
    (h : data.length ≤ 1) : fuaCore f data ns ne = [] := by
  simp only [fuaCore]
  exact fuaLoop_stop _ _ _ _ _ _ _ _ (by omega)

theorem packetizeFuA_short (f : Nat) (data : List Nat) (ns ne : Bool)
    (h : data.length ≤ 1) : packetizeFuA f data ns ne = [] := by
  by_cases hty : data.getD 0 0 &&& 0x1f = 28
  · rw [packetizeFuA_eq_core_fua f data ns ne hty]
    apply fuaCore_short
    simp only [List.length_cons, List.length_drop]
    omega
  · rw [packetizeFuA_eq_core f data ns ne hty]
    exact fuaCore_short f data ns ne h

/-- C10: a buffer holding only a NAL header byte fragments into no
packets at all, and flushing a pending FU-A group whose fragments carry
no payload beyond the two FU bytes emits nothing while still
decrementing `extraPackets` by the group size minus one. -/
theorem c10_zero_payload_fua (f b : Nat) (ns ne : Bool) (z : H264Repacketizer)
    (first : RtpPacket) (rest : List RtpPacket)
    (hpend : z.pendingFuA = some (first :: rest))
    (hall2 : ∀ p ∈ first :: rest, p.payload.length = 2)
    (htype : ∀ p ∈ first :: rest,
      p.payload.getD 1 0 &&& 0x1f = first.payload.getD 1 0 &&& 0x1f)
    (hseq : seqContiguous (first :: rest) = true) :
    packetizeFuA f [b] ns ne = [] ∧
    flushPendingFuA z =
      ({ z with
          extraPackets := z.extraPackets - (((first :: rest).length : Int) - 1)
          pendingFuA := none }, []) := by
  constructor
  · exact packetizeFuA_short f [b] ns ne (by simp)
  · simp only [flushPendingFuA, hpend]
    have hcond : ((first :: rest).all
        (fun p => p.payload.getD 1 0 &&& 0x1f = first.payload.getD 1 0 &&& 0x1f)
          && seqContiguous (first :: rest)) = true := by
      rw [Bool.and_eq_true]
      refine ⟨List.all_eq_true.mpr ?_, hseq⟩
      intro p hp
      exact decide_eq_true (htype p hp)
    rw [if_pos hcond]
    have hdrop : (first :: rest).flatMap (fun p => p.payload.drop 2) = [] := by
      rw [List.flatMap_eq_nil_iff]
      intro p hp
      exact List.drop_eq_nil_of_le (le_of_eq (hall2 p hp))
    rw [hdrop]
    rw [packetizeFuA_short _ _ _ _ (by simp)]
    rfl

/-- C6: fragment count and chunk sizes of `packetizeFuA` on a whole NAL
unit: exactly `ceil(payloadSize / fuaMax)` fragments whose payload sizes
(after the two FU bytes) are `chunk + 1` for the first
`payloadSize % numPackets` fragments and `chunk` for the rest. -/
theorem c6_fua_chunk_sizes (f : Nat) (hf : 1 ≤ f) (data : List Nat) (ns ne : Bool)
    (hty : data.getD 0 0 &&& 0x1F ≠ 28) (hlen : 2 ≤ data.length) :
    (packetizeFuA f data ns ne).length = jsCeilDiv (data.length - 1) f ∧
    (packetizeFuA f data ns ne).map (fun x => (x.drop 2).length) =
      List.replicate ((data.length - 1) % jsCeilDiv (data.length - 1) f)
          ((data.length - 1) / jsCeilDiv (data.length - 1) f + 1) ++
        List.replicate
          (jsCeilDiv (data.length - 1) f - (data.length - 1) % jsCeilDiv (data.length - 1) f)
          ((data.length - 1) / jsCeilDiv (data.length - 1) f) := by
  rw [packetizeFuA_eq_core f data ns ne hty]
  obtain ⟨h1, _, h3⟩ := fuaCore_spec f hf data hlen ns ne
  constructor
  · have hl : ((fuaCore f data ns ne).map (fun x => x.take 2)).length =
        jsCeilDiv (data.length - 1) f := by
      rw [h1, fuaHeadersSpec_length]
    simpa using hl
  · exact h3

theorem ind_keep_hi (x : Nat) : ((x &&& 0xE0) ||| 28) &&& 0xE0 = x &&& 0xE0 := by
  rw [land_lor_right, Nat.land_assoc, (by decide : (0xE0 : Nat) &&& 0xE0 = 0xE0),
    (by decide : (28 : Nat) &&& 0xE0 = 0), Nat.or_zero]

theorem getD_take_two (l : List Nat) (i d : Nat) (h : i < 2) :
    (l.take 2).getD i d = l.getD i d := by
  simp [List.getD_eq_getElem?_getD, List.getElem?_take, h]


/-- C5 (amended): FU-A round trip.  `packetizeFuA(data, false, false)`
on a whole NAL unit defragments back to `data`; the end bit is set on
exactly the last fragment; the start bit is set on exactly the first
fragment when two or more fragments are produced, while a single
fragment carries only the end bit. -/
theorem c5_fua_round_trip (f : Nat) (hf : 1 ≤ f) (data : List Nat)
    (hty : data.getD 0 0 &&& 0x1F ≠ 28) (hlen : 2 ≤ data.length)
    (hbyte : data.getD 0 0 < 256) :
    packetizeFuA f data false false ≠ [] ∧
    defragmentFuA (packetizeFuA f data false false) = data ∧
    (packetizeFuA f data false false).map fuStart =
      (if (packetizeFuA f data false false).length = 1 then [false]
        else true :: List.replicate ((packetizeFuA f data false false).length - 1) false) ∧
    (packetizeFuA f data false false).map fuEnd =
      List.replicate ((packetizeFuA f data false false).length - 1) false ++ [true] := by
  rw [packetizeFuA_eq_core f data false false hty]
  obtain ⟨h1, h2, _⟩ := fuaCore_spec f hf data hlen false false
  simp only [Bool.false_eq_true, if_false] at h1
  have hLlen : (fuaCore f data false false).length = jsCeilDiv (data.length - 1) f := by
    have hh : ((fuaCore f data false false).map (fun y => y.take 2)).length =
        jsCeilDiv (data.length - 1) f := by rw [h1, fuaHeadersSpec_length]
    simpa using hh
  have hnpos : 1 ≤ jsCeilDiv (data.length - 1) f := jsCeilDiv_pos _ _ (by omega) hf
  have hLne : fuaCore f data false false ≠ [] := by
    intro hcon
    rw [hcon] at hLlen
    simp at hLlen
    omega
  have hmapS : (fuaCore f data false false).map fuStart =
      ((fuaCore f data false false).map (fun y => y.take 2)).map fuStart := by
    rw [List.map_map]
    apply List.map_congr_left
    intro a _
    simp only [Function.comp_apply, fuStart, getD_take_two a 1 0 (by omega)]
  have hmapE : (fuaCore f data false false).map fuEnd =
      ((fuaCore f data false false).map (fun y => y.take 2)).map fuEnd := by
    rw [List.map_map]
    apply List.map_congr_left
    intro a _
    simp only [Function.comp_apply, fuEnd, getD_take_two a 1 0 (by omega)]
  have hstart_true : fuStart [data.getD 0 0 &&& 0xE0 ||| 28,
      data.getD 0 0 &&& 0x1F ||| 0x80] = true := by
    have hg : ([data.getD 0 0 &&& 0xE0 ||| 28, data.getD 0 0 &&& 0x1F ||| 0x80] :
        List Nat).getD 1 0 = data.getD 0 0 &&& 0x1F ||| 0x80 := rfl
    simp only [fuStart, hg, startbit_of_lor]
    decide
  have hstart_mid : fuStart [data.getD 0 0 &&& 0xE0 ||| 28, data.getD 0 0 &&& 0x1F] = false := by
    have hg : ([data.getD 0 0 &&& 0xE0 ||| 28, data.getD 0 0 &&& 0x1F] :
        List Nat).getD 1 0 = data.getD 0 0 &&& 0x1F := rfl
    simp only [fuStart, hg, mid_no_startbit]
    decide
  have hstart_end : fuStart [data.getD 0 0 &&& 0xE0 ||| 28,
      data.getD 0 0 &&& 0x1F ||| 0x40] = false := by
    have hg : ([data.getD 0 0 &&& 0xE0 ||| 28, data.getD 0 0 &&& 0x1F ||| 0x40] :
        List Nat).getD 1 0 = data.getD 0 0 &&& 0x1F ||| 0x40 := rfl
    simp only [fuEnd, fuStart, hg, endbit_no_startbit]
    decide
  have hend_true : fuEnd [data.getD 0 0 &&& 0xE0 ||| 28,
      data.getD 0 0 &&& 0x1F ||| 0x40] = true := by
    have hg : ([data.getD 0 0 &&& 0xE0 ||| 28, data.getD 0 0 &&& 0x1F ||| 0x40] :
        List Nat).getD 1 0 = data.getD 0 0 &&& 0x1F ||| 0x40 := rfl
    simp only [fuEnd, hg, endbit_of_lor]
    decide
  have hend_mid : fuEnd [data.getD 0 0 &&& 0xE0 ||| 28, data.getD 0 0 &&& 0x1F] = false := by
    have hg : ([data.getD 0 0 &&& 0xE0 ||| 28, data.getD 0 0 &&& 0x1F] :
        List Nat).getD 1 0 = data.getD 0 0 &&& 0x1F := rfl
    simp only [fuEnd, hg, mid_no_endbit]
    decide
  have hend_start : fuEnd [data.getD 0 0 &&& 0xE0 ||| 28,
      data.getD 0 0 &&& 0x1F ||| 0x80] = false := by
    have hg : ([data.getD 0 0 &&& 0xE0 ||| 28, data.getD 0 0 &&& 0x1F ||| 0x80] :
        List Nat).getD 1 0 = data.getD 0 0 &&& 0x1F ||| 0x80 := rfl
    simp only [fuEnd, hg, startbit_no_endbit]
    decide
  refine ⟨hLne, ?_, ?_, ?_⟩
  · -- round trip
    obtain ⟨l0, lt, hcons⟩ := List.exists_cons_of_ne_nil hLne
    have hheadD : (fuaCore f data false false).headD [] = l0 := by rw [hcons]; rfl
    have hhead2 : l0.take 2 = (fuaHeadersSpec
        [data.getD 0 0 &&& 0xE0 ||| 28, data.getD 0 0 &&& 0x1F]
        [data.getD 0 0 &&& 0xE0 ||| 28, data.getD 0 0 &&& 0x1F ||| 0x40]
        (jsCeilDiv (data.length - 1) f)
        [data.getD 0 0 &&& 0xE0 ||| 28, data.getD 0 0 &&& 0x1F ||| 0x80]).headD [] := by
      rw [← h1, hcons]
      rfl
    have hb0 : l0.getD 0 0 = data.getD 0 0 &&& 0xE0 ||| 28 ∧
        l0.getD 1 0 &&& 0x1F = data.getD 0 0 &&& 0x1F := by
      rcases Nat.lt_or_ge (jsCeilDiv (data.length - 1) f) 2 with hn2 | hn2
      · have h1n : jsCeilDiv (data.length - 1) f = 1 := by omega
        rw [h1n] at hhead2
        have e2 : l0.take 2 =
            [data.getD 0 0 &&& 0xE0 ||| 28, data.getD 0 0 &&& 0x1F ||| 0x40] := hhead2
        constructor
        · rw [← getD_take_two l0 0 0 (by omega), e2]
          rfl
        · rw [← getD_take_two l0 1 0 (by omega), e2]
          have hg : ([data.getD 0 0 &&& 0xE0 ||| 28, data.getD 0 0 &&& 0x1F ||| 0x40] :
              List Nat).getD 1 0 = data.getD 0 0 &&& 0x1F ||| 0x40 := rfl
          rw [hg, lor_hi_land31 _ _ (by decide)]
      · obtain ⟨c, hc⟩ : ∃ c, jsCeilDiv (data.length - 1) f = c + 1 :=
          ⟨jsCeilDiv (data.length - 1) f - 1, by omega⟩
        rw [hc, fuaHeadersSpec_closed _ _ c _ (by omega)] at hhead2
        have e2 : l0.take 2 =
            [data.getD 0 0 &&& 0xE0 ||| 28, data.getD 0 0 &&& 0x1F ||| 0x80] := hhead2
        constructor
        · rw [← getD_take_two l0 0 0 (by omega), e2]
          rfl
        · rw [← getD_take_two l0 1 0 (by omega), e2]
          have hg : ([data.getD 0 0 &&& 0xE0 ||| 28, data.getD 0 0 &&& 0x1F ||| 0x80] :
              List Nat).getD 1 0 = data.getD 0 0 &&& 0x1F ||| 0x80 := rfl
          rw [hg, lor_hi_land31 _ _ (by decide)]
    simp only [defragmentFuA, hheadD]
    have hflat : (fuaCore f data false false).flatMap (fun y => y.drop 2) = data.drop 1 := h2
    rw [hflat, hb0.1, hb0.2, ind_keep_hi, land_hi_lor_lo, land255_eq_self _ hbyte]
    cases data with
    | nil => simp at hlen
    | cons a t => rfl
  · -- start bits
    rw [hmapS, h1, hLlen]
    rcases Nat.lt_or_ge (jsCeilDiv (data.length - 1) f) 2 with hn2 | hn2
    · have h1n : jsCeilDiv (data.length - 1) f = 1 := by omega
      rw [if_pos h1n, h1n]
      simp only [fuaHeadersSpec, List.map_cons, List.map_nil, hstart_end]
    · obtain ⟨c, hc⟩ : ∃ c, jsCeilDiv (data.length - 1) f = c + 1 :=
          ⟨jsCeilDiv (data.length - 1) f - 1, by omega⟩
      rw [hc, fuaHeadersSpec_closed _ _ c _ (by omega)]
      rw [if_neg (by omega)]
      simp only [List.map_cons, List.map_append, List.map_replicate, List.map_nil,
        hstart_true, hstart_mid, hstart_end]
      congr 1
      rw [show c + 1 - 1 = (c - 1) + 1 from by omega, List.replicate_succ']
  · -- end bits
    rw [hmapE, h1, hLlen]
    rcases Nat.lt_or_ge (jsCeilDiv (data.length - 1) f) 2 with hn2 | hn2
    · have h1n : jsCeilDiv (data.length - 1) f = 1 := by omega
      rw [h1n]
      simp only [fuaHeadersSpec, List.map_cons, List.map_nil, hend_true]
      rfl
    · obtain ⟨c, hc⟩ : ∃ c, jsCeilDiv (data.length - 1) f = c + 1 :=
          ⟨jsCeilDiv (data.length - 1) f - 1, by omega⟩
      rw [hc, fuaHeadersSpec_closed _ _ c _ (by omega)]
      simp only [List.map_cons, List.map_append, List.map_replicate, List.map_nil,
        hend_true, hend_mid, hend_start]
      rw [show c + 1 - 1 = (c - 1) + 1 from by omega, List.replicate_succ]
      rfl

/-! Structural lemmas about the STAP-A aggregation loop. -/

/-- The loop consumes a prefix of the queue: there is an `m` with
`counter' = counter + m`, body = encoded consumed prefix, and the
remainder is the corresponding suffix. -/
theorem stapALoop_shape : ∀ (l : List (List Nat)) (avail : Int) (c hdr : Nat),
    ∃ m, m ≤ l.length ∧
      (stapALoop l avail c hdr).2.1 = c + m ∧
      (stapALoop l avail c hdr).2.2.1 = encodeStapA (l.take m) ∧
      (stapALoop l avail c hdr).2.2.2 = l.drop m := by
  intro l
  induction l with
  | nil =>
    intro avail c hdr
    exact ⟨0, by simp [stapALoop, encodeStapA]⟩
  | cons nalu rest ih =>
    intro avail c hdr
    by_cases hcond : (nalu.length : Int) + 2 ≤ avail ∧ c < 9
    · obtain ⟨m, hm, h1, h2, h3⟩ := ih (avail - (2 + nalu.length)) (c + 1)
        (if (hdr ||| (nalu.getD 0 0 &&& 0x80)) &&& 0x60 < nalu.getD 0 0 &&& 0x60 then
          (hdr ||| (nalu.getD 0 0 &&& 0x80)) &&& 0x9F ||| (nalu.getD 0 0 &&& 0x60)
        else hdr ||| (nalu.getD 0 0 &&& 0x80))
      refine ⟨m + 1, by simpa using hm, ?_, ?_, ?_⟩
      · simp only [stapALoop, if_pos hcond, h1]
        omega
      · simp only [stapALoop, if_pos hcond, h2]
        simp [encodeStapA]
      · simp only [stapALoop, if_pos hcond, h3]
        rfl
    · exact ⟨0, by simp [stapALoop, if_neg hcond, encodeStapA]⟩

/-- The counter bound propagated by the loop: `counter' ≥ counter`, and
the body length is bounded by the budget when it is non-negative. -/
theorem stapALoop_body_le : ∀ (l : List (List Nat)) (avail : Int) (c hdr : Nat),
    ((stapALoop l avail c hdr).2.2.1.length : Int) ≤ max avail 0 := by
  intro l
  induction l with
  | nil => intro avail c hdr; simp [stapALoop]
  | cons nalu rest ih =>
    intro avail c hdr
    by_cases hcond : (nalu.length : Int) + 2 ≤ avail ∧ c < 9
    · simp only [stapALoop, if_pos hcond]
      have hrec := ih (avail - (2 + nalu.length)) (c + 1)
        (if (hdr ||| (nalu.getD 0 0 &&& 0x80)) &&& 0x60 < nalu.getD 0 0 &&& 0x60 then
          (hdr ||| (nalu.getD 0 0 &&& 0x80)) &&& 0x9F ||| (nalu.getD 0 0 &&& 0x60)
        else hdr ||| (nalu.getD 0 0 &&& 0x80))
      simp only [List.length_append, writeUInt16BE, List.length_cons, List.length_nil]
      have h2 : (0 : Int) ≤ avail - (2 + nalu.length) + 2 + nalu.length := by omega
      omega
    · simp [stapALoop, if_neg hcond]

/-- The low five bits of the STAP-A header byte survive the loop. -/
theorem stapALoop_hdr_type : ∀ (l : List (List Nat)) (avail : Int) (c hdr : Nat),
    (stapALoop l avail c hdr).1 &&& 31 = hdr &&& 31 := by
  intro l
  induction l with
  | nil => intro avail c hdr; simp [stapALoop]
  | cons nalu rest ih =>
    intro avail c hdr
    by_cases hcond : (nalu.length : Int) + 2 ≤ avail ∧ c < 9
    · simp only [stapALoop, if_pos hcond]
      rw [ih]
      by_cases hnri : (hdr ||| (nalu.getD 0 0 &&& 0x80)) &&& 0x60 < nalu.getD 0 0 &&& 0x60
      · rw [if_pos hnri, stap_header_keep_nri, stap_header_keep_f]
      · rw [if_neg hnri, stap_header_keep_f]
    · simp [stapALoop, if_neg hcond]

theorem writeUInt16BE_val (n : Nat) (h : n < 65536) :
    n / 256 % 256 * 256 + n % 256 = n := by
  have h1 : n / 256 < 256 := by
    rw [Nat.div_lt_iff_lt_mul (by omega)]
    omega
  rw [Nat.mod_eq_of_lt h1]
  have := Nat.div_add_mod n 256
  omega

theorem getD_drop (data : List Nat) (pos i : Nat) :
    (data.drop pos).getD i 0 = data.getD (pos + i) 0 := by
  simp [List.getD_eq_getElem?_getD, List.getElem?_drop]

/-- When the loop has consumed everything (counter within the cap and
every NAL admitted), the whole queue is encoded and nothing remains. -/
theorem stapALoop_all : ∀ (l : List (List Nat)) (avail : Int) (c hdr : Nat),
    stapAdmits avail l = true → c + l.length ≤ 9 →
    (stapALoop l avail c hdr).2.1 = c + l.length ∧
    (stapALoop l avail c hdr).2.2.1 = encodeStapA l ∧
    (stapALoop l avail c hdr).2.2.2 = [] := by
  intro l
  induction l with
  | nil => intro avail c hdr _ _; simp [stapALoop, encodeStapA]
  | cons nalu rest ih =>
    intro avail c hdr hadm hcap
    simp only [stapAdmits, Bool.and_eq_true, decide_eq_true_eq] at hadm
    have hcond : (nalu.length : Int) + 2 ≤ avail ∧ c < 9 := by
      refine ⟨hadm.1, ?_⟩
      simp only [List.length_cons] at hcap
      omega
    obtain ⟨ih1, ih2, ih3⟩ := ih (avail - (2 + nalu.length)) (c + 1)
      (if (hdr ||| (nalu.getD 0 0 &&& 0x80)) &&& 0x60 < nalu.getD 0 0 &&& 0x60 then
        (hdr ||| (nalu.getD 0 0 &&& 0x80)) &&& 0x9F ||| (nalu.getD 0 0 &&& 0x60)
      else hdr ||| (nalu.getD 0 0 &&& 0x80)) hadm.2 (by simp only [List.length_cons] at hcap; omega)
    refine ⟨?_, ?_, ?_⟩
    · simp only [stapALoop, if_pos hcond, ih1, List.length_cons]
      omega
    · simp only [stapALoop, if_pos hcond, ih2]
      simp [encodeStapA]
    · simp only [stapALoop, if_pos hcond, ih3]

/-- C9: `packetizeOneStapA` pops and returns the raw first NAL exactly
when a single NAL plus framing exceeds the budget (the consume counter
stays at 0); otherwise it returns a STAP-A packet whose first byte has
NAL type 24, together with the un-consumed remainder. -/
theorem c9_stapa_degenerate (M : Nat) (d0 : List Nat) (rest : List (List Nat)) :
    (((M : Int) - 3 < (d0.length : Int) + 2) ↔
      (stapALoop (d0 :: rest) ((M : Int) - 3) 0 (24 ||| (d0.getD 0 0 &&& 0xE0))).2.1 = 0) ∧
    (((M : Int) - 3 < (d0.length : Int) + 2) →
      packetizeOneStapA M (d0 :: rest) = (d0, rest)) ∧
    (((d0.length : Int) + 2 ≤ (M : Int) - 3) →
      ∃ hdr body, (packetizeOneStapA M (d0 :: rest)).1 = hdr :: body ∧ hdr &&& 31 = 24) := by
  by_cases hc : ((d0.length : Int) + 2 ≤ (M : Int) - 3)
  · have hcond : (d0.length : Int) + 2 ≤ (M : Int) - 3 ∧ 0 < 9 := ⟨hc, by omega⟩
    have hcnt : (stapALoop (d0 :: rest) ((M : Int) - 3) 0
        (24 ||| (d0.getD 0 0 &&& 0xE0))).2.1 ≠ 0 := by
      obtain ⟨m, _, h1, _, _⟩ := stapALoop_shape rest
        (((M : Int) - 3) - (2 + d0.length)) 1
        (if (24 ||| (d0.getD 0 0 &&& 0xE0) ||| (d0.getD 0 0 &&& 0x80)) &&& 0x60 <
            d0.getD 0 0 &&& 0x60 then
          (24 ||| (d0.getD 0 0 &&& 0xE0) ||| (d0.getD 0 0 &&& 0x80)) &&& 0x9F |||
            (d0.getD 0 0 &&& 0x60)
        else 24 ||| (d0.getD 0 0 &&& 0xE0) ||| (d0.getD 0 0 &&& 0x80))
      simp only [stapALoop, if_pos hcond, h1]
      omega
    refine ⟨⟨fun h => absurd hc (by omega), fun h => absurd h hcnt⟩, fun h => absurd hc (by omega), ?_⟩
    intro _
    refine ⟨(stapALoop (d0 :: rest) ((M : Int) - 3) 0 (24 ||| (d0.getD 0 0 &&& 0xE0))).1,
      (stapALoop (d0 :: rest) ((M : Int) - 3) 0 (24 ||| (d0.getD 0 0 &&& 0xE0))).2.2.1, ?_, ?_⟩
    · simp only [packetizeOneStapA, if_neg hcnt]
    · rw [stapALoop_hdr_type, stap_header_type]
  · have hcond : ¬((d0.length : Int) + 2 ≤ (M : Int) - 3 ∧ 0 < 9) := by
      intro h
      exact hc h.1
    have hcnt : (stapALoop (d0 :: rest) ((M : Int) - 3) 0
        (24 ||| (d0.getD 0 0 &&& 0xE0))).2.1 = 0 := by
      simp only [stapALoop, if_neg hcond]
    refine ⟨⟨fun _ => hcnt, fun _ => by omega⟩, fun _ => ?_, fun h => absurd h hc⟩
    have hcnt2 : (stapALoop (d0 :: rest) ((M : Int) - 3) 0
        (24 ||| ((d0[0]?).getD 0 &&& 0xE0))).2.1 = 0 := by
      rw [← List.getD_eq_getElem?_getD]
      exact hcnt
    simp [packetizeOneStapA, hcnt2]

/-- Invariant-carrying run of the STAP-A depacketizing loop over an
encoded tail: the pending slice is emitted, followed by the encoded NAL
units. -/
theorem depacketizeStapALoop_encode :
    ∀ (nals : List (List Nat)) (data : List Nat) (fuel pos lastPos : Nat),
      (∀ n ∈ nals, n.length < 65536) →
      data.drop pos = encodeStapA nals →
      lastPos ≤ pos → pos ≤ data.length →
      nals.length + 1 ≤ fuel →
      depacketizeStapALoop data fuel pos (some lastPos) =
        (data.drop lastPos).take (pos - lastPos) :: nals := by
  intro nals
  induction nals with
  | nil =>
    intro data fuel pos lastPos hsz henc hlp hpos hfuel
    obtain ⟨f, rfl⟩ : ∃ f, fuel = f + 1 := ⟨fuel - 1, by omega⟩
    have hposlen : pos = data.length := by
      have := List.drop_eq_nil_iff.mp (by rw [henc]; rfl)
      omega
    simp only [depacketizeStapALoop, if_neg (by omega : ¬pos < data.length), Option.getD_some]
    have hfull : (data.drop lastPos).length = pos - lastPos := by
      rw [List.length_drop]
      omega
    rw [List.take_of_length_le (le_of_eq hfull)]
  | cons n1 rest ih =>
    intro data fuel pos lastPos hsz henc hlp hpos hfuel
    obtain ⟨f, rfl⟩ : ∃ f, fuel = f + 1 := ⟨fuel - 1, by omega⟩
    have hencl : (encodeStapA (n1 :: rest)).length =
        2 + n1.length + (encodeStapA rest).length := by
      simp [encodeStapA, writeUInt16BE]
      omega
    have hdroplen : (data.drop pos).length = data.length - pos := List.length_drop _ _
    have hlt : pos < data.length := by
      rw [henc] at hdroplen
      omega
    have hn1 : n1.length < 65536 := hsz n1 (by simp)
    have hread : readUInt16BE data pos = n1.length := by
      unfold readUInt16BE
      have h0 : data.getD pos 0 = n1.length / 256 % 256 := by
        rw [← Nat.add_zero pos, ← getD_drop, henc]
        rfl
      have h1 : data.getD (pos + 1) 0 = n1.length % 256 := by
        rw [← getD_drop, henc]
        rfl
      rw [h0, h1, writeUInt16BE_val _ hn1]
    have hdrop2 : data.drop (pos + 2) = n1 ++ encodeStapA rest := by
      have : data.drop (pos + 2) = (data.drop pos).drop 2 := by
        rw [List.drop_drop]
      rw [this, henc]
      show (writeUInt16BE n1.length ++ (n1 ++ encodeStapA rest)).drop 2 = _
      rw [show (2 : Nat) = (writeUInt16BE n1.length).length from rfl, List.drop_left]
    have hdropnext : data.drop (pos + 2 + n1.length) = encodeStapA rest := by
      have h : data.drop (pos + 2 + n1.length) = (data.drop (pos + 2)).drop n1.length := by
        rw [List.drop_drop]
      rw [h, hdrop2, List.drop_left]
    have hpos' : pos + 2 + n1.length ≤ data.length := by
      rw [henc] at hdroplen
      omega
    simp only [depacketizeStapALoop, if_pos hlt]
    rw [hread]
    rw [ih data f (pos + 2 + n1.length) (pos + 2)
      (fun n hn => hsz n (by simp [hn])) hdropnext (by omega) hpos'
      (by simp only [List.length_cons] at hfuel; omega)]
    have htaken1 : (data.drop (pos + 2)).take (pos + 2 + n1.length - (pos + 2)) = n1 := by
      rw [show pos + 2 + n1.length - (pos + 2) = n1.length from by omega, hdrop2,
        List.take_left]
    rw [htaken1]
    rfl

theorem encodeStapA_cons (d : List Nat) (t : List (List Nat)) :
    encodeStapA (d :: t) = writeUInt16BE d.length ++ d ++ encodeStapA t := by
  simp [encodeStapA]

theorem encodeStapA_length_ge (ds : List (List Nat)) :
    ds.length ≤ (encodeStapA ds).length := by
  induction ds with
  | nil => simp [encodeStapA]
  | cons d t ih =>
    rw [encodeStapA_cons]
    simp only [List.length_append, List.length_cons, writeUInt16BE, List.length_nil]
    omega

/-- Depacketizing a freshly built STAP-A packet (any header byte
followed by the length-prefixed encoding of a non-empty NAL list)
returns exactly those NAL units. -/
theorem depacketize_encode (hdr : Nat) (d0 : List Nat) (ds : List (List Nat))
    (hsz : ∀ n ∈ d0 :: ds, n.length < 65536) :
    depacketizeStapA (hdr :: encodeStapA (d0 :: ds)) = d0 :: ds := by
  unfold depacketizeStapA
  obtain ⟨data, hdata⟩ : ∃ data, hdr :: encodeStapA (d0 :: ds) = data := ⟨_, rfl⟩
  have hencl : (encodeStapA (d0 :: ds)).length =
      2 + d0.length + (encodeStapA ds).length := by
    simp [encodeStapA, writeUInt16BE]
    omega
  have hlen : data.length = 1 + (2 + d0.length + (encodeStapA ds).length) := by
    rw [← hdata]
    simp [hencl]
    omega
  have hd0 : d0.length < 65536 := hsz d0 (by simp)
  obtain ⟨f, hf⟩ : ∃ f, data.length + 1 = f + 1 := ⟨data.length, rfl⟩
  rw [hdata, hf]
  have hlt : 1 < data.length := by omega
  simp only [depacketizeStapALoop, if_pos hlt]
  have hdrop1 : data.drop 1 = encodeStapA (d0 :: ds) := by rw [← hdata]; rfl
  have hread : readUInt16BE data 1 = d0.length := by
    unfold readUInt16BE
    have h0 : data.getD 1 0 = d0.length / 256 % 256 := by
      rw [← Nat.add_zero 1, ← getD_drop, hdrop1]
      rfl
    have h1 : data.getD (1 + 1) 0 = d0.length % 256 := by
      rw [← getD_drop, hdrop1]
      rfl
    rw [h0, h1, writeUInt16BE_val _ hd0]
  rw [hread]
  have hdrop3 : data.drop 3 = d0 ++ encodeStapA ds := by
    have h : data.drop 3 = (data.drop 1).drop 2 := by rw [List.drop_drop]
    rw [h, hdrop1]
    show (writeUInt16BE d0.length ++ (d0 ++ encodeStapA ds)).drop 2 = _
    rw [show (2 : Nat) = (writeUInt16BE d0.length).length from rfl, List.drop_left]
  have hdropnext : data.drop (1 + 2 + d0.length) = encodeStapA ds := by
    have h : data.drop (1 + 2 + d0.length) = (data.drop 3).drop d0.length := by
      rw [List.drop_drop]
    rw [h, hdrop3, List.drop_left]
  have hdsl : ds.length ≤ (encodeStapA ds).length := encodeStapA_length_ge ds
  rw [depacketizeStapALoop_encode ds data f (1 + 2 + d0.length) (1 + 2)
    (fun n hn => hsz n (by simp [hn])) hdropnext (by omega)
    (by omega) (by omega)]
  have htaked0 : (data.drop (1 + 2)).take (1 + 2 + d0.length - (1 + 2)) = d0 := by
    rw [show 1 + 2 + d0.length - (1 + 2) = d0.length from by omega,
      show data.drop (1 + 2) = data.drop 3 from rfl, hdrop3, List.take_left]
  rw [htaked0]
  rfl

/-- C7: STAP-A round trip.  When every NAL passes the admission test,
at most 9 NALs are aggregated, and each NAL length is a representable
16-bit value, `depacketizeStapA (packetizeOneStapA …)` returns exactly
the aggregated NAL units. -/
theorem c7_stapa_round_trip (M : Nat) (d0 : List Nat) (rest : List (List Nat))
    (hk : (d0 :: rest).length ≤ 9)
    (hadm : stapAdmits ((M : Int) - 3) (d0 :: rest) = true)
    (hsz : ∀ n ∈ d0 :: rest, n.length < 65536) :
    depacketizeStapA (packetizeOneStapA M (d0 :: rest)).1 = d0 :: rest := by
  obtain ⟨hcnt, hbody, _⟩ := stapALoop_all (d0 :: rest) ((M : Int) - 3) 0
    (24 ||| (d0.getD 0 0 &&& 0xE0)) hadm (by omega)
  have hne : (stapALoop (d0 :: rest) ((M : Int) - 3) 0
      (24 ||| (d0.getD 0 0 &&& 0xE0))).2.1 ≠ 0 := by
    rw [hcnt]
    simp
  simp only [packetizeOneStapA, if_neg hne]
  rw [hbody]
  exact depacketize_encode _ d0 rest hsz

/-- C2 (amended): the sequence number written by `createPacket` is
`(seq + extraPackets) mod 2^16`, in `[0, 2^16)`, provided the JavaScript
remainder's operand `seq + extraPackets + 2^16` is non-negative — in
particular whenever `extraPackets ≥ -(seq + 2^16)`.  (For more negative
counters the truncated remainder goes negative; see the
counterexample.) -/
theorem c2_sequence_rewrite (z : H264Repacketizer) (rtp : RtpPacket) (data : List Nat)
    (marker : Bool)
    (hext : 0 ≤ rtp.header.sequenceNumber + z.extraPackets + 0x10000) :
    (createPacket z rtp data marker).sequenceNumber =
      (rtp.header.sequenceNumber + z.extraPackets) % 0x10000 ∧
    0 ≤ (createPacket z rtp data marker).sequenceNumber ∧
    (createPacket z rtp data marker).sequenceNumber < 0x10000 := by
  show (rtp.header.sequenceNumber + z.extraPackets + 0x10000).tmod 0x10000 = _ ∧ _ ∧ _
  rw [Int.tmod_eq_emod hext (by norm_num)]
  refine ⟨Int.add_emod_self, ?_, ?_⟩
  · show (0 : Int) ≤ (rtp.header.sequenceNumber + z.extraPackets + 0x10000).tmod 0x10000
    rw [Int.tmod_eq_emod hext (by norm_num)]
    exact Int.emod_nonneg _ (by norm_num)
  · show (rtp.header.sequenceNumber + z.extraPackets + 0x10000).tmod 0x10000 < 0x10000
    rw [Int.tmod_eq_emod hext (by norm_num)]
    exact Int.emod_lt_of_pos _ (by norm_num)

/-- C2 counterexample: with `extraPackets = -131073` and original
sequence number 0, the source writes sequence number `-1`, which is
neither `(0 - 131073) mod 2^16 = 65535` nor in `[0, 2^16)`. -/
theorem c2_counterexample :
    (createPacket
        { maxPacketSize := 1200, codecInfo := ⟨none, none⟩, extraPackets := -131073,
          fuaMax := 1198, pendingStapA := none, pendingFuA := none, seenSps := false }
        ⟨⟨0, 0, false⟩, [1]⟩ [1] false).sequenceNumber = -1 ∧
    ((0 : Int) + (-131073)) % 0x10000 = 65535 ∧
    ¬(0 ≤ (createPacket
        { maxPacketSize := 1200, codecInfo := ⟨none, none⟩, extraPackets := -131073,
          fuaMax := 1198, pendingStapA := none, pendingFuA := none, seenSps := false }
        ⟨⟨0, 0, false⟩, [1]⟩ [1] false).sequenceNumber) := by
  refine ⟨?_, by decide, by decide⟩
  decide

/-! Projections of `createPacket` and `createRtpPackets`. -/

theorem createPacket_marker (z : H264Repacketizer) (rtp : RtpPacket) (data : List Nat)
    (m : Bool) : (createPacket z rtp data m).marker = m := rfl

theorem createPacket_payload (z : H264Repacketizer) (rtp : RtpPacket) (data : List Nat)
    (m : Bool) : (createPacket z rtp data m).payload = data := rfl

theorem createPacket_timestamp (z : H264Repacketizer) (rtp : RtpPacket) (data : List Nat)
    (m : Bool) : (createPacket z rtp data m).timestamp = rtp.header.timestamp := rfl

theorem createRtpPacketsGo_cons (pkt : RtpPacket) (hm : Bool) (z : H264Repacketizer)
    (b : Bool) (n : List Nat) (rest : List (List Nat)) :
    createRtpPacketsGo pkt hm z b (n :: rest) =
      ((createRtpPacketsGo pkt hm
          (if b then z else { z with extraPackets := z.extraPackets + 1 }) false rest).1,
        createPacket (if b then z else { z with extraPackets := z.extraPackets + 1 })
            pkt n (hm && rest.isEmpty) ::
          (createRtpPacketsGo pkt hm
            (if b then z else { z with extraPackets := z.extraPackets + 1 }) false rest).2) := by
  cases b <;> rfl

theorem createRtpPacketsGo_payloads (pkt : RtpPacket) (hm : Bool) :
    ∀ (nalus : List (List Nat)) (z : H264Repacketizer) (b : Bool),
      (createRtpPacketsGo pkt hm z b nalus).2.map (fun s => s.payload) = nalus := by
  intro nalus
  induction nalus with
  | nil => intro z b; rfl
  | cons n rest ih =>
    intro z b
    simp only [createRtpPacketsGo, List.map_cons, ih]
    rfl

theorem createRtpPacketsGo_timestamps (pkt : RtpPacket) (hm : Bool) :
    ∀ (nalus : List (List Nat)) (z : H264Repacketizer) (b : Bool),
      ∀ s ∈ (createRtpPacketsGo pkt hm z b nalus).2, s.timestamp = pkt.header.timestamp := by
  intro nalus
  induction nalus with
  | nil => intro z b s hs; simp [createRtpPacketsGo] at hs
  | cons n rest ih =>
    intro z b s hs
    simp only [createRtpPacketsGo, List.mem_cons] at hs
    rcases hs with rfl | hs
    · rfl
    · exact ih _ _ s hs

theorem createRtpPacketsGo_markers (pkt : RtpPacket) (hm : Bool) :
    ∀ (nalus : List (List Nat)) (z : H264Repacketizer) (b : Bool), nalus ≠ [] →
      (createRtpPacketsGo pkt hm z b nalus).2.map (fun s => s.marker) =
        List.replicate (nalus.length - 1) false ++ [hm] := by
  intro nalus
  induction nalus with
  | nil => intro z b h; exact absurd rfl h
  | cons n rest ih =>
    intro z b _
    cases rest with
    | nil =>
      simp only [createRtpPacketsGo, List.map_cons, List.map_nil]
      show (hm && true) :: [] = List.replicate 0 false ++ [hm]
      simp
    | cons r rt =>
      rw [createRtpPacketsGo_cons]
      simp only [List.map_cons, createPacket_marker]
      rw [ih _ false (by simp)]
      simp [List.replicate_succ]

theorem createRtpPacketsGo_state (pkt : RtpPacket) (hm : Bool) :
    ∀ (nalus : List (List Nat)) (z : H264Repacketizer) (b : Bool),
      (createRtpPacketsGo pkt hm z b nalus).1 =
        { z with extraPackets := z.extraPackets +
            (if b then max ((nalus.length : Int) - 1) 0 else (nalus.length : Int)) } := by
  intro nalus
  induction nalus with
  | nil =>
    intro z b
    show z = _
    cases b <;> (cases z; simp)
  | cons n rest ih =>
    intro z b
    show (createRtpPacketsGo pkt hm
      (if b then z else { z with extraPackets := z.extraPackets + 1 }) false rest).1 = _
    rw [ih _ false]
    cases b <;>
      (cases z
       simp only [Bool.false_eq_true, if_false, if_true, List.length_cons,
         H264Repacketizer.mk.injEq, true_and, and_true]
       push_cast
       omega)

theorem createRtpPackets_payloads (z : H264Repacketizer) (pkt : RtpPacket)
    (nalus : List (List Nat)) (hm : Bool) :
    (createRtpPackets z pkt nalus hm).2.map (fun s => s.payload) = nalus :=
  createRtpPacketsGo_payloads pkt hm nalus z true

theorem createRtpPackets_markers (z : H264Repacketizer) (pkt : RtpPacket)
    (nalus : List (List Nat)) (hm : Bool) (h : nalus ≠ []) :
    (createRtpPackets z pkt nalus hm).2.map (fun s => s.marker) =
      List.replicate (nalus.length - 1) false ++ [hm] :=
  createRtpPacketsGo_markers pkt hm nalus z true h

theorem createRtpPackets_state (z : H264Repacketizer) (pkt : RtpPacket)
    (nalus : List (List Nat)) (hm : Bool) :
    (createRtpPackets z pkt nalus hm).1 =
      { z with extraPackets := z.extraPackets + max ((nalus.length : Int) - 1) 0 } := by
  rw [createRtpPackets, createRtpPacketsGo_state pkt hm nalus z true, if_pos rfl]

/-- Case analysis of `packetizeOneStapA` on a non-empty queue: either
the degenerate raw-NAL fallback (first NAL plus framing over budget), or
a STAP-A of type 24 built from a non-empty consumed prefix, with total
length within `maxPacketSize - 2`. -/
theorem packetizeOneStapA_spec (M : Nat) (hM : 3 ≤ M) (d0 : List Nat)
    (rest : List (List Nat)) :
    (packetizeOneStapA M (d0 :: rest) = (d0, rest) ∧
      (M : Int) - 3 < (d0.length : Int) + 2) ∨
    (∃ hdr m, 1 ≤ m ∧ m ≤ (d0 :: rest).length ∧
      packetizeOneStapA M (d0 :: rest) =
        (hdr :: encodeStapA ((d0 :: rest).take m), (d0 :: rest).drop m) ∧
      hdr &&& 31 = 24 ∧
      ((hdr :: encodeStapA ((d0 :: rest).take m)).length : Int) ≤ (M : Int) - 2) := by
  by_cases hadm : (d0.length : Int) + 2 ≤ (M : Int) - 3
  · right
    have hcond : (d0.length : Int) + 2 ≤ (M : Int) - 3 ∧ 0 < 9 := ⟨hadm, by omega⟩
    obtain ⟨m', hm'le, h1, h2, h3⟩ := stapALoop_shape rest
      (((M : Int) - 3) - (2 + d0.length)) 1
      (if (24 ||| (d0.getD 0 0 &&& 0xE0) ||| (d0.getD 0 0 &&& 0x80)) &&& 0x60 <
          d0.getD 0 0 &&& 0x60 then
        (24 ||| (d0.getD 0 0 &&& 0xE0) ||| (d0.getD 0 0 &&& 0x80)) &&& 0x9F |||
          (d0.getD 0 0 &&& 0x60)
      else 24 ||| (d0.getD 0 0 &&& 0xE0) ||| (d0.getD 0 0 &&& 0x80))
    have hloop1 : (stapALoop (d0 :: rest) ((M : Int) - 3) 0
        (24 ||| (d0.getD 0 0 &&& 0xE0))).2.1 = 1 + m' := by
      simp only [stapALoop, if_pos hcond, h1]
    have hloop2 : (stapALoop (d0 :: rest) ((M : Int) - 3) 0
        (24 ||| (d0.getD 0 0 &&& 0xE0))).2.2.1 =
        encodeStapA ((d0 :: rest).take (m' + 1)) := by
      simp only [stapALoop, if_pos hcond, h2]
      rw [show (d0 :: rest).take (m' + 1) = d0 :: rest.take m' from rfl, encodeStapA_cons]
    have hloop3 : (stapALoop (d0 :: rest) ((M : Int) - 3) 0
        (24 ||| (d0.getD 0 0 &&& 0xE0))).2.2.2 = (d0 :: rest).drop (m' + 1) := by
      simp only [stapALoop, if_pos hcond, h3]
      rfl
    have hcnt : (stapALoop (d0 :: rest) ((M : Int) - 3) 0
        (24 ||| (d0.getD 0 0 &&& 0xE0))).2.1 ≠ 0 := by
      rw [hloop1]
      omega
    refine ⟨(stapALoop (d0 :: rest) ((M : Int) - 3) 0 (24 ||| (d0.getD 0 0 &&& 0xE0))).1,
      m' + 1, by omega, by simp only [List.length_cons]; omega, ?_, ?_, ?_⟩
    · simp only [packetizeOneStapA, if_neg hcnt, hloop2, hloop3]
    · rw [stapALoop_hdr_type, stap_header_type]
    · have hbody := stapALoop_body_le (d0 :: rest) ((M : Int) - 3) 0
        (24 ||| (d0.getD 0 0 &&& 0xE0))
      rw [hloop2] at hbody
      have hmax : max ((M : Int) - 3) 0 = (M : Int) - 3 := by omega
      rw [hmax] at hbody
      simp only [List.length_cons]
      push_cast
      omega
  · left
    have hcond : ¬((d0.length : Int) + 2 ≤ (M : Int) - 3 ∧ 0 < 9) := fun h => hadm h.1
    have hcnt : (stapALoop (d0 :: rest) ((M : Int) - 3) 0
        (24 ||| (d0.getD 0 0 &&& 0xE0))).2.1 = 0 := by
      simp only [stapALoop, if_neg hcond]
    have hcnt2 : (stapALoop (d0 :: rest) ((M : Int) - 3) 0
        (24 ||| ((d0[0]?).getD 0 &&& 0xE0))).2.1 = 0 := by
      rw [← List.getD_eq_getElem?_getD]
      exact hcnt
    constructor
    · simp [packetizeOneStapA, hcnt2]
    · omega

theorem packetizeStapA_ne_nil (M : Nat) (d0 : List Nat) (rest : List (List Nat)) :
    packetizeStapA M (d0 :: rest) ≠ [] := by
  show packetizeStapAGo M (d0 :: rest).length (d0 :: rest) ≠ []
  rw [show (d0 :: rest).length = rest.length + 1 from rfl]
  simp [packetizeStapAGo]

/-- Every aggregate produced by `packetizeStapA` is either a type-24
STAP-A built from a non-empty subset of the queue and bounded by
`maxPacketSize - 2`, or a raw NAL from the queue emitted through the
degenerate fallback because it exceeds the framing budget. -/
theorem packetizeStapAGo_members (M : Nat) (hM : 3 ≤ M) :
    ∀ (fuel : Nat) (datas : List (List Nat)), datas.length ≤ fuel →
      ∀ a ∈ packetizeStapAGo M fuel datas,
        (∃ hdr consumed, a = hdr :: encodeStapA consumed ∧ hdr &&& 31 = 24 ∧
          consumed ≠ [] ∧ (∀ d ∈ consumed, d ∈ datas) ∧
          (a.length : Int) ≤ (M : Int) - 2) ∨
        (a ∈ datas ∧ (M : Int) - 3 < (a.length : Int) + 2) := by
  intro fuel
  induction fuel with
  | zero =>
    intro datas hle a ha
    cases datas with
    | nil => simp [packetizeStapAGo] at ha
    | cons d0 rest => simp at hle
  | succ f ih =>
    intro datas hle a ha
    cases datas with
    | nil => simp [packetizeStapAGo] at ha
    | cons d0 rest =>
      rw [packetizeStapAGo] at ha
      rcases packetizeOneStapA_spec M hM d0 rest with ⟨heq, hov⟩ |
        ⟨hdr, m, hm1, hmle, heq, hhdr, hlen⟩
      · rw [heq] at ha
        simp only [List.mem_cons] at ha
        rcases ha with rfl | ha
        · exact Or.inr ⟨by simp, hov⟩
        · rcases ih rest (by simp only [List.length_cons] at hle; omega) a ha with
            ⟨hdr, consumed, h1, h2, h3, h4, h5⟩ | ⟨h1, h2⟩
          · exact Or.inl ⟨hdr, consumed, h1, h2, h3,
              fun d hd => List.mem_cons_of_mem d0 (h4 d hd), h5⟩
          · exact Or.inr ⟨List.mem_cons_of_mem d0 h1, h2⟩
      · rw [heq] at ha
        simp only [List.mem_cons] at ha
        rcases ha with rfl | ha
        · exact Or.inl ⟨hdr, (d0 :: rest).take m, rfl, hhdr,
            by
              obtain ⟨m2, rfl⟩ : ∃ m2, m = m2 + 1 := ⟨m - 1, by omega⟩
              simp,
            fun d hd => List.take_subset m (d0 :: rest) hd, hlen⟩
        · have hdl : ((d0 :: rest).drop m).length ≤ f := by
            simp only [List.length_drop, List.length_cons] at *
            omega
          rcases ih ((d0 :: rest).drop m) hdl a ha with
            ⟨hdr2, consumed, h1, h2, h3, h4, h5⟩ | ⟨h1, h2⟩
          · exact Or.inl ⟨hdr2, consumed, h1, h2, h3,
              fun d hd => List.drop_subset m (d0 :: rest) (h4 d hd), h5⟩
          · exact Or.inr ⟨List.drop_subset m (d0 :: rest) h1, h2⟩

theorem packetizeStapA_members (M : Nat) (hM : 3 ≤ M) (datas : List (List Nat)) :
    ∀ a ∈ packetizeStapA M datas,
      (∃ hdr consumed, a = hdr :: encodeStapA consumed ∧ hdr &&& 31 = 24 ∧
        consumed ≠ [] ∧ (∀ d ∈ consumed, d ∈ datas) ∧
        (a.length : Int) ≤ (M : Int) - 2) ∨
      (a ∈ datas ∧ (M : Int) - 3 < (a.length : Int) + 2) :=
  packetizeStapAGo_members M hM datas.length datas (le_refl _)



theorem maybeSendSpsPps_spec (z : H264Repacketizer) (pkt : RtpPacket) :
    (maybeSendSpsPps z pkt).1 = { z with extraPackets := z.extraPackets +
        ((maybeSendSpsPps z pkt).2.length : Int) } ∧
    (maybeSendSpsPps z pkt).2.map (fun s => s.marker) =
      List.replicate (maybeSendSpsPps z pkt).2.length pkt.header.marker ∧
    ((maybeSendSpsPps z pkt).2.length = if spsPpsAggregatable z then 1 else 0) := by
  rcases hsp : z.codecInfo.sps with _ | s
  · have hz : maybeSendSpsPps z pkt = (z, []) := by
      rw [maybeSendSpsPps, hsp]
    rw [hz]
    refine ⟨by cases z; simp, rfl, ?_⟩
    simp [spsPpsAggregatable, hsp]
  · rcases hpp : z.codecInfo.pps with _ | p
    · have hz : maybeSendSpsPps z pkt = (z, []) := by
        rw [maybeSendSpsPps, hsp, hpp]
      rw [hz]
      refine ⟨by cases z; simp, rfl, ?_⟩
      simp [spsPpsAggregatable, hsp, hpp]
    · by_cases hagg : (packetizeStapA z.maxPacketSize [s, p]).length = 1
      · obtain ⟨a, hagg1⟩ : ∃ a, packetizeStapA z.maxPacketSize [s, p] = [a] := by
          rcases hl : packetizeStapA z.maxPacketSize [s, p] with _ | ⟨a, rest2⟩
          · rw [hl] at hagg; simp at hagg
          · rw [hl] at hagg
            simp only [List.length_cons] at hagg
            have : rest2 = [] := List.eq_nil_of_length_eq_zero (by omega)
            exact ⟨a, by rw [this]⟩
        have hz : maybeSendSpsPps z pkt =
            ({ (createRtpPackets z pkt [a] pkt.header.marker).1 with
              extraPackets :=
                (createRtpPackets z pkt [a] pkt.header.marker).1.extraPackets + 1 },
              (createRtpPackets z pkt [a] pkt.header.marker).2) := by
          rw [maybeSendSpsPps, hsp, hpp]
          simp only [if_pos hagg, hagg1]
          simp
        have hst := createRtpPackets_state z pkt [a] pkt.header.marker
        have hout : (createRtpPackets z pkt [a] pkt.header.marker).2.length = 1 := by
          have hp := congrArg List.length (createRtpPackets_payloads z pkt [a] pkt.header.marker)
          simpa using hp
        rw [hz]
        refine ⟨?_, ?_, ?_⟩
        · rw [hst, hout]
          cases z
          simp only [H264Repacketizer.mk.injEq, true_and, and_true]
          push_cast
          simp
        · have hm := createRtpPackets_markers z pkt [a] pkt.header.marker (by simp)
          rw [hm, hout]
          rfl
        · rw [hout]
          simp [spsPpsAggregatable, hsp, hpp, hagg]
      · have hz : maybeSendSpsPps z pkt = (z, []) := by
          rw [maybeSendSpsPps, hsp, hpp]
          simp only [if_neg hagg]
        rw [hz]
        refine ⟨by cases z; simp, rfl, ?_⟩
        simp [spsPpsAggregatable, hsp, hpp, hagg]

theorem packetizeFuA_length (f : Nat) (hf : 1 ≤ f) (data : List Nat) (ns ne : Bool)
    (hty : data.getD 0 0 &&& 0x1F ≠ 28) (hlen : 2 ≤ data.length) :
    (packetizeFuA f data ns ne).length = jsCeilDiv (data.length - 1) f := by
  rw [packetizeFuA_eq_core f data ns ne hty]
  obtain ⟨h1, _, _⟩ := fuaCore_spec f hf data hlen ns ne
  have hl : ((fuaCore f data ns ne).map (fun x => x.take 2)).length =
      jsCeilDiv (data.length - 1) f := by rw [h1, fuaHeadersSpec_length]
  simpa using hl

/-- Every fragment produced by the FU-A core is at most `2 + fuaMax`
bytes long. -/
theorem fuaCore_le (f : Nat) (hf : 1 ≤ f) (data : List Nat) (ns ne : Bool) :
    ∀ frag ∈ fuaCore f data ns ne, frag.length ≤ 2 + f := by
  rcases Nat.lt_or_ge data.length 2 with hlen | hlen
  · rw [fuaCore_short f data ns ne (by omega)]
    intro frag h
    simp at h
  · obtain ⟨h1, _, h3⟩ := fuaCore_spec f hf data hlen ns ne
    intro frag hfrag
    have hp : 1 ≤ data.length - 1 := by omega
    have hn : 1 ≤ jsCeilDiv (data.length - 1) f := jsCeilDiv_pos _ _ hp hf
    have hmul := jsCeilDiv_le_mul (data.length - 1) f hf
    have hpkg : (data.length - 1) / jsCeilDiv (data.length - 1) f ≤ f :=
      div_le_of_le_mul_self _ _ _ hn hmul
    have hdmem : (frag.drop 2).length ∈
        List.replicate ((data.length - 1) % jsCeilDiv (data.length - 1) f)
            ((data.length - 1) / jsCeilDiv (data.length - 1) f + 1) ++
          List.replicate
            (jsCeilDiv (data.length - 1) f - (data.length - 1) % jsCeilDiv (data.length - 1) f)
            ((data.length - 1) / jsCeilDiv (data.length - 1) f) := by
      rw [← h3]
      exact List.mem_map_of_mem _ hfrag
    have hdle : (frag.drop 2).length ≤ f := by
      rcases List.mem_append.mp hdmem with hmem | hmem
      · have hval := List.eq_of_mem_replicate hmem
        have hmodne : (data.length - 1) % jsCeilDiv (data.length - 1) f ≠ 0 := by
          intro hz
          rw [hz] at hmem
          simp at hmem
        rw [hval]
        exact div_succ_le_of_mod_ne _ _ _ hn hmul hmodne
      · rw [List.eq_of_mem_replicate hmem]
        exact hpkg
    have htle : (frag.take 2).length ≤ 2 := by
      rw [List.length_take]
      omega
    have := List.take_append_drop 2 frag
    have hfl : frag.length = (frag.take 2).length + (frag.drop 2).length := by
      rw [← List.length_append, this]
    omega

theorem packetizeFuA_le (f : Nat) (hf : 1 ≤ f) (data : List Nat) (ns ne : Bool) :
    ∀ frag ∈ packetizeFuA f data ns ne, frag.length ≤ 2 + f := by
  by_cases hty : data.getD 0 0 &&& 0x1f = 28
  · rw [packetizeFuA_eq_core_fua f data ns ne hty]
    exact fuaCore_le f hf _ _ _
  · rw [packetizeFuA_eq_core f data ns ne hty]
    exact fuaCore_le f hf _ _ _


/-- C4 (amended): for a `repacketize` call on a state with no pending
groups, whose input is not SPS/PPS (7/8, which buffer), not FU-A (28,
which may buffer), and, when a STAP-A, has at least one NAL surviving
the SEI filter, the net change to `extraPackets` equals the number of
emitted packets minus one.  (Buffering calls leave `extraPackets`
unchanged while emitting nothing — see the counterexample — and settle
the account at flush time.) -/
theorem c4_extra_packets_per_call (z : H264Repacketizer) (pkt : RtpPacket)
    (hfu : z.pendingFuA = none) (hst : z.pendingStapA = none)
    (hM : 3 ≤ z.maxPacketSize) (hfm : z.fuaMax = z.maxPacketSize - 2)
    (ht7 : nalTypeOf pkt.payload ≠ 7) (ht8 : nalTypeOf pkt.payload ≠ 8)
    (ht28 : nalTypeOf pkt.payload ≠ 28)
    (ht24 : nalTypeOf pkt.payload = 24 →
      (depacketizeStapA pkt.payload).filter
        (fun p => !decide (p.getD 0 0 &&& 0x1F = 6)) ≠ []) :
    (repacketize z pkt).1.extraPackets - z.extraPackets =
      ((repacketize z pkt).2.length : Int) - 1 := by
  obtain ⟨M, ci, e, fm, pst, pfu, ss⟩ := z
  simp only at hfu hst hM hfm
  subst hfu hst hfm
  simp only [nalTypeOf] at ht7 ht8 ht28 ht24
  by_cases ht24' : pkt.payload.getD 0 0 &&& 0x1F = 24
  · -- STAP-A input
    have hne := ht24 ht24'
    simp only [repacketize, repacketizeDispatch, flushFuAIfStale, flushStapAIfStale, ht24', flushPendingFuA, flushPendingStapA,
      if_neg ht28, if_pos rfl]
    norm_num
    obtain ⟨d0, rest, hfil⟩ : ∃ d0 rest,
        (depacketizeStapA pkt.payload).filter
          (fun p => !decide (p.getD 0 0 &&& 0x1F = 6)) = d0 :: rest := by
      rcases hl : (depacketizeStapA pkt.payload).filter
          (fun p => !decide (p.getD 0 0 &&& 0x1F = 6)) with _ | ⟨d0, rest⟩
      · exact absurd hl hne
      · exact ⟨d0, rest, hl⟩
    have hfil2 : (depacketizeStapA pkt.payload).filter
        (fun p => !decide ((p[0]?).getD 0 &&& 0x1F = 6)) = d0 :: rest := by
      rw [← hfil]
      congr 1
      funext p
      rw [← List.getD_eq_getElem?_getD]
    rw [hfil2]
    have hk : 1 ≤ (packetizeStapA M (d0 :: rest)).length := by
      rcases hl : packetizeStapA M (d0 :: rest) with _ | ⟨a, r2⟩
      · exact absurd hl (packetizeStapA_ne_nil M d0 rest)
      · simp
    set z4 : H264Repacketizer := ⟨M, ci, e, M - 2, none, none,
      ss || (depacketizeStapA pkt.payload).any fun p => decide ((p[0]?).getD 0 &&& 31 = 7)⟩
    have hstate := createRtpPackets_state z4 pkt (packetizeStapA M (d0 :: rest))
      pkt.header.marker
    have hlen : (createRtpPackets z4 pkt (packetizeStapA M (d0 :: rest))
        pkt.header.marker).2.length = (packetizeStapA M (d0 :: rest)).length := by
      have hp := congrArg List.length (createRtpPackets_payloads z4 pkt
        (packetizeStapA M (d0 :: rest)) pkt.header.marker)
      simpa using hp
    rw [hstate, hlen]
    simp only [z4]
    omega
  · -- single-NAL or unknown input
    by_cases hrange : 1 ≤ pkt.payload.getD 0 0 &&& 0x1F ∧ pkt.payload.getD 0 0 &&& 0x1F < 24
    · by_cases ht6 : pkt.payload.getD 0 0 &&& 0x1F = 6
      · -- SEI drop
        simp only [repacketize, repacketizeDispatch, flushFuAIfStale, flushStapAIfStale, flushPendingFuA, flushPendingStapA, if_neg ht28,
          if_neg ht24', if_pos hrange, ht6]
        norm_num
      · -- emitting single-NAL path
        by_cases hsynth : pkt.payload.getD 0 0 &&& 0x1F = 5 ∧ ¬(ss = true)
        · have hss : ss = false := by
            rcases hsynth with ⟨_, h2⟩
            cases ss
            · rfl
            · exact absurd rfl h2
          subst hss
          simp only [repacketize, repacketizeDispatch, flushFuAIfStale, flushStapAIfStale, flushPendingFuA, flushPendingStapA, if_neg ht28,
            if_neg ht24', if_pos hrange, if_neg ht6,
            if_neg (show ¬(pkt.payload.getD 0 0 &&& 0x1F = 7 ∨
              pkt.payload.getD 0 0 &&& 0x1F = 8) from by tauto)]
          have hsyn5 : (pkt.payload[0]?).getD 0 &&& 31 = 5 := by
            rw [← List.getD_eq_getElem?_getD]
            exact hsynth.1
          norm_num [hsyn5]
          obtain ⟨hw1, _, _⟩ := maybeSendSpsPps_spec
            (⟨M, ci, e, M - 2, none, none, false⟩ : H264Repacketizer) pkt
          simp only at hw1
          rw [hw1]
          by_cases hbig : M < pkt.payload.length
          · simp only [if_pos hbig]
            have hlen2 : 2 ≤ pkt.payload.length := by omega
            have hf : 1 ≤ M - 2 := by omega
            have hkn := packetizeFuA_length (M - 2) hf pkt.payload false false ht28 hlen2
            have hk : 1 ≤ (packetizeFuA (M - 2) pkt.payload false false).length := by
              rw [hkn]
              exact jsCeilDiv_pos _ _ (by omega) hf
            have hstate := createRtpPackets_state
              (⟨M, ci, e + ((maybeSendSpsPps
                  (⟨M, ci, e, M - 2, none, none, false⟩ : H264Repacketizer) pkt).2.length : Int),
                M - 2, none, none, false⟩ : H264Repacketizer) pkt
              (packetizeFuA (M - 2) pkt.payload false false) pkt.header.marker
            rw [hstate]
            have hlen3 := congrArg List.length (createRtpPackets_payloads
              (⟨M, ci, e + ((maybeSendSpsPps
                  (⟨M, ci, e, M - 2, none, none, false⟩ : H264Repacketizer) pkt).2.length : Int),
                M - 2, none, none, false⟩ : H264Repacketizer) pkt
              (packetizeFuA (M - 2) pkt.payload false false) pkt.header.marker)
            simp only [List.length_map] at hlen3
            simp only [List.length_append, hlen3]
            push_cast
            omega
          · simp only [if_neg hbig]
            simp only [List.length_append, List.length_cons, List.length_nil]
            push_cast
            omega
        · simp only [repacketize, repacketizeDispatch, flushFuAIfStale, flushStapAIfStale, flushPendingFuA, flushPendingStapA, if_neg ht28,
            if_neg ht24', if_pos hrange, if_neg ht6, if_neg hsynth,
            if_neg (show ¬(pkt.payload.getD 0 0 &&& 0x1F = 7 ∨
              pkt.payload.getD 0 0 &&& 0x1F = 8) from by tauto)]
          norm_num
          by_cases hbig : M < pkt.payload.length
          · simp only [if_pos hbig]
            have hlen2 : 2 ≤ pkt.payload.length := by omega
            have hf : 1 ≤ M - 2 := by omega
            have hkn := packetizeFuA_length (M - 2) hf pkt.payload false false ht28 hlen2
            have hk : 1 ≤ (packetizeFuA (M - 2) pkt.payload false false).length := by
              rw [hkn]
              exact jsCeilDiv_pos _ _ (by omega) hf
            have hstate := createRtpPackets_state
              (⟨M, ci, e, M - 2, none, none, ss⟩ : H264Repacketizer) pkt
              (packetizeFuA (M - 2) pkt.payload false false) pkt.header.marker
            rw [hstate]
            have hlen3 := congrArg List.length (createRtpPackets_payloads
              (⟨M, ci, e, M - 2, none, none, ss⟩ : H264Repacketizer) pkt
              (packetizeFuA (M - 2) pkt.payload false false) pkt.header.marker)
            simp only [List.length_map] at hlen3
            simp only [hlen3]
            omega
          · simp only [if_neg hbig]
            norm_num
    · -- unknown NAL type
      simp only [repacketize, repacketizeDispatch, flushFuAIfStale, flushStapAIfStale, flushPendingFuA, flushPendingStapA, if_neg ht28,
        if_neg ht24', if_neg hrange]
      norm_num

/-- C4 counterexample: a single SPS input on a fresh repacketizer is
buffered: nothing is emitted and `extraPackets` is unchanged (0), while
the claim demands a net change of `0 - 1 = -1`. -/
theorem c4_counterexample :
    (repacketize (H264Repacketizer.new 1200 ⟨none, none⟩)
      ⟨⟨100, 0, false⟩, [0x67, 1, 2]⟩).2 = [] ∧
    (repacketize (H264Repacketizer.new 1200 ⟨none, none⟩)
      ⟨⟨100, 0, false⟩, [0x67, 1, 2]⟩).1.extraPackets = 0 ∧
    ¬((0 : Int) = (([] : List SerializedPacket).length : Int) - 1) := by
  refine ⟨by decide, by decide, by decide⟩

/-- C3 (amended): marker placement per call, on a state with no pending
groups.  The input's marker lands on exactly the last emission; every
other emission has a cleared marker — except that when the single-NAL
IDR path synthesizes an SPS/PPS STAP-A, that first synthesized emission
also inherits the input's marker bit (the source passes the template
packet's marker through `createRtpPackets`). -/
theorem c3_marker_placement (z : H264Repacketizer) (pkt : RtpPacket)
    (hfu : z.pendingFuA = none) (hst : z.pendingStapA = none)
    (hM : 3 ≤ z.maxPacketSize) (hfm : z.fuaMax = z.maxPacketSize - 2)
    (ht7 : nalTypeOf pkt.payload ≠ 7) (ht8 : nalTypeOf pkt.payload ≠ 8)
    (ht28 : nalTypeOf pkt.payload ≠ 28) (ht6 : nalTypeOf pkt.payload ≠ 6)
    (hrange : 1 ≤ nalTypeOf pkt.payload ∧ nalTypeOf pkt.payload ≤ 24)
    (ht24 : nalTypeOf pkt.payload = 24 →
      (depacketizeStapA pkt.payload).filter
        (fun p => !decide (p.getD 0 0 &&& 0x1F = 6)) ≠ []) :
    1 ≤ (repacketize z pkt).2.length ∧
    (repacketize z pkt).2.map (fun s => s.marker) =
      (if spsSynthesisFires z (nalTypeOf pkt.payload) then [pkt.header.marker] else []) ++
        (List.replicate ((repacketize z pkt).2.length -
            (if spsSynthesisFires z (nalTypeOf pkt.payload) then 1 else 0) - 1) false ++
          [pkt.header.marker]) := by
  obtain ⟨M, ci, e, fm, pst, pfu, ss⟩ := z
  simp only at hfu hst hM hfm
  subst hfu hst hfm
  simp only [nalTypeOf] at ht7 ht8 ht28 ht6 hrange ht24 ⊢
  by_cases ht24' : pkt.payload.getD 0 0 &&& 0x1F = 24
  · -- STAP-A input
    have hne := ht24 ht24'
    have hfires : spsSynthesisFires ⟨M, ci, e, M - 2, none, none, ss⟩
        (pkt.payload.getD 0 0 &&& 0x1F) = false := by
      rw [ht24']
      rfl
    simp only [hfires, Bool.false_eq_true, if_false]
    simp only [repacketize, repacketizeDispatch, flushFuAIfStale, flushStapAIfStale, ht24', flushPendingFuA, flushPendingStapA,
      if_neg ht28, if_pos rfl]
    norm_num
    obtain ⟨d0, rest, hfil⟩ : ∃ d0 rest,
        (depacketizeStapA pkt.payload).filter
          (fun p => !decide (p.getD 0 0 &&& 0x1F = 6)) = d0 :: rest := by
      rcases hl : (depacketizeStapA pkt.payload).filter
          (fun p => !decide (p.getD 0 0 &&& 0x1F = 6)) with _ | ⟨d0, rest⟩
      · exact absurd hl hne
      · exact ⟨d0, rest, hl⟩
    have hfil2 : (depacketizeStapA pkt.payload).filter
        (fun p => !decide ((p[0]?).getD 0 &&& 0x1F = 6)) = d0 :: rest := by
      rw [← hfil]
      congr 1
      funext p
      rw [← List.getD_eq_getElem?_getD]
    rw [hfil2]
    set z4 : H264Repacketizer := ⟨M, ci, e, M - 2, none, none,
      ss || (depacketizeStapA pkt.payload).any fun p => decide ((p[0]?).getD 0 &&& 31 = 7)⟩
    have hk : 1 ≤ (packetizeStapA M (d0 :: rest)).length := by
      rcases hl : packetizeStapA M (d0 :: rest) with _ | ⟨a, r2⟩
      · exact absurd hl (packetizeStapA_ne_nil M d0 rest)
      · simp
    have hlen : (createRtpPackets z4 pkt (packetizeStapA M (d0 :: rest))
        pkt.header.marker).2.length = (packetizeStapA M (d0 :: rest)).length := by
      have hp := congrArg List.length (createRtpPackets_payloads z4 pkt
        (packetizeStapA M (d0 :: rest)) pkt.header.marker)
      simpa using hp
    have hmk := createRtpPackets_markers z4 pkt (packetizeStapA M (d0 :: rest))
      pkt.header.marker (by
        intro hcon
        rw [hcon] at hk
        simp at hk)
    rw [hmk, hlen]
    exact ⟨by omega, rfl⟩
  · -- single NAL
    have hrange2 : 1 ≤ pkt.payload.getD 0 0 &&& 0x1F ∧ pkt.payload.getD 0 0 &&& 0x1F < 24 := by
      rcases hrange with ⟨h1, h2⟩
      exact ⟨h1, by omega⟩
    by_cases hsynth : pkt.payload.getD 0 0 &&& 0x1F = 5 ∧ ¬(ss = true)
    · have hss : ss = false := by
        rcases hsynth with ⟨_, h2⟩
        cases ss
        · rfl
        · exact absurd rfl h2
      subst hss
      have hfires : spsSynthesisFires ⟨M, ci, e, M - 2, none, none, false⟩
          (pkt.payload.getD 0 0 &&& 0x1F) =
          spsPpsAggregatable ⟨M, ci, e, M - 2, none, none, false⟩ := by
        rw [hsynth.1]
        simp [spsSynthesisFires]
      simp only [hfires, Bool.false_eq_true, if_false]
      simp only [repacketize, repacketizeDispatch, flushFuAIfStale, flushStapAIfStale, flushPendingFuA, flushPendingStapA, if_neg ht28,
        if_neg ht24', if_pos hrange2, if_neg ht6,
        if_neg (show ¬(pkt.payload.getD 0 0 &&& 0x1F = 7 ∨
          pkt.payload.getD 0 0 &&& 0x1F = 8) from by tauto)]
      have hsyn5 : (pkt.payload[0]?).getD 0 &&& 31 = 5 := by
        rw [← List.getD_eq_getElem?_getD]
        exact hsynth.1
      norm_num [hsyn5]
      obtain ⟨hw1, hwm, hwl⟩ := maybeSendSpsPps_spec
        (⟨M, ci, e, M - 2, none, none, false⟩ : H264Repacketizer) pkt
      simp only at hw1
      rw [hw1]
      by_cases hbig : M < pkt.payload.length
      · simp only [if_pos hbig]
        have hlen2 : 2 ≤ pkt.payload.length := by omega
        have hf : 1 ≤ M - 2 := by omega
        have hkn := packetizeFuA_length (M - 2) hf pkt.payload false false ht28 hlen2
        have hk : 1 ≤ (packetizeFuA (M - 2) pkt.payload false false).length := by
          rw [hkn]
          exact jsCeilDiv_pos _ _ (by omega) hf
        have hfrne : packetizeFuA (M - 2) pkt.payload false false ≠ [] := by
          intro hcon
          rw [hcon] at hk
          simp at hk
        set z5 : H264Repacketizer := ⟨M, ci, e + ((maybeSendSpsPps
            (⟨M, ci, e, M - 2, none, none, false⟩ : H264Repacketizer) pkt).2.length : Int),
          M - 2, none, none, false⟩
        have hmk := createRtpPackets_markers z5 pkt
          (packetizeFuA (M - 2) pkt.payload false false) pkt.header.marker hfrne
        have hlen3 := congrArg List.length (createRtpPackets_payloads z5 pkt
          (packetizeFuA (M - 2) pkt.payload false false) pkt.header.marker)
        simp only [List.length_map] at hlen3
        simp only [List.length_append, List.map_append, hmk, hwm, hlen3, hwl]
        by_cases hagg : spsPpsAggregatable
            (⟨M, ci, e, M - 2, none, none, false⟩ : H264Repacketizer) = true
        · simp only [hagg, if_true]
          constructor
          · omega
          · rw [show List.replicate 1 pkt.header.marker = [pkt.header.marker] from rfl]
            rw [show (1 : Nat) + (packetizeFuA (M - 2) pkt.payload false false).length - 1 - 1 =
              (packetizeFuA (M - 2) pkt.payload false false).length - 1 from by omega]
        · simp only [hagg, Bool.false_eq_true, if_false]
          constructor
          · omega
          · simp only [List.replicate, List.nil_append]
            rw [show (0 : Nat) + (packetizeFuA (M - 2) pkt.payload false false).length - 0 - 1 =
              (packetizeFuA (M - 2) pkt.payload false false).length - 1 from by omega]
      · simp only [if_neg hbig]
        simp only [List.length_append, List.map_append, hwm, hwl]
        by_cases hagg : spsPpsAggregatable
            (⟨M, ci, e, M - 2, none, none, false⟩ : H264Repacketizer) = true
        · simp only [hagg, if_true]
          refine ⟨by simp, ?_⟩
          simp [createPacket_marker]
        · simp only [hagg, Bool.false_eq_true, if_false]
          refine ⟨by simp, ?_⟩
          simp [createPacket_marker]
    · have hfires : spsSynthesisFires ⟨M, ci, e, M - 2, none, none, ss⟩
          (pkt.payload.getD 0 0 &&& 0x1F) = false := by
        simp only [spsSynthesisFires, Bool.and_eq_false_iff]
        by_cases h5 : pkt.payload.getD 0 0 &&& 0x1F = 5
        · have hss : ss = true := by
            by_contra hss
            exact hsynth ⟨h5, hss⟩
          left
          right
          simp [hss]
        · left
          left
          simp only [beq_eq_false_iff_ne, ne_eq]
          exact h5
      simp only [hfires, Bool.false_eq_true, if_false]
      simp only [repacketize, repacketizeDispatch, flushFuAIfStale, flushStapAIfStale, flushPendingFuA, flushPendingStapA, if_neg ht28,
        if_neg ht24', if_pos hrange2, if_neg ht6, if_neg hsynth,
        if_neg (show ¬(pkt.payload.getD 0 0 &&& 0x1F = 7 ∨
          pkt.payload.getD 0 0 &&& 0x1F = 8) from by tauto)]
      norm_num
      by_cases hbig : M < pkt.payload.length
      · simp only [if_pos hbig]
        have hlen2 : 2 ≤ pkt.payload.length := by omega
        have hf : 1 ≤ M - 2 := by omega
        have hkn := packetizeFuA_length (M - 2) hf pkt.payload false false ht28 hlen2
        have hk : 1 ≤ (packetizeFuA (M - 2) pkt.payload false false).length := by
          rw [hkn]
          exact jsCeilDiv_pos _ _ (by omega) hf
        have hfrne : packetizeFuA (M - 2) pkt.payload false false ≠ [] := by
          intro hcon
          rw [hcon] at hk
          simp at hk
        have hmk := createRtpPackets_markers
          (⟨M, ci, e, M - 2, none, none, ss⟩ : H264Repacketizer) pkt
          (packetizeFuA (M - 2) pkt.payload false false) pkt.header.marker hfrne
        have hlen3 := congrArg List.length (createRtpPackets_payloads
          (⟨M, ci, e, M - 2, none, none, ss⟩ : H264Repacketizer) pkt
          (packetizeFuA (M - 2) pkt.payload false false) pkt.header.marker)
        simp only [List.length_map] at hlen3
        simp only [hmk, hlen3]
        exact ⟨by omega, by simp⟩
      · simp only [if_neg hbig]
        refine ⟨by simp, ?_⟩
        simp [createPacket_marker]

/-- C3 counterexample: a small IDR input with the marker bit set, on a
fresh repacketizer with codec info, triggers SPS/PPS synthesis; the
synthesized STAP-A (the first, non-final emission) carries the marker
bit too, contradicting "only the final emission carries the marker". -/
theorem c3_counterexample :
    ((repacketize (H264Repacketizer.new 1200 ⟨some [0x67, 0x11], some [0x68, 0x22]⟩)
        ⟨⟨100, 5000, true⟩, [0x65, 1, 2]⟩).2.map (fun s => s.marker)) = [true, true] ∧
    ((repacketize (H264Repacketizer.new 1200 ⟨some [0x67, 0x11], some [0x68, 0x22]⟩)
        ⟨⟨100, 5000, true⟩, [0x65, 1, 2]⟩).2.map (fun s => nalTypeOf s.payload)) = [24, 5] := by
  exact ⟨by decide, by decide⟩

/-! State-shape lemmas for the flush helpers. -/

theorem flushPendingFuA_state (z : H264Repacketizer) :
    ∃ E, (flushPendingFuA z).1 = { z with extraPackets := E, pendingFuA := none } := by
  rcases hp : z.pendingFuA with _ | ⟨_ | ⟨first, rest⟩⟩
  · refine ⟨z.extraPackets, ?_⟩
    simp only [flushPendingFuA, hp]
    cases z
    simp only at hp
    subst hp
    rfl
  · exact ⟨z.extraPackets, by simp only [flushPendingFuA, hp]⟩
  · simp only [flushPendingFuA, hp]
    by_cases hcond : ((first :: rest).all
        (fun p => p.payload.getD 1 0 &&& 0x1f = first.payload.getD 1 0 &&& 0x1f)
          && seqContiguous (first :: rest)) = true
    · rw [if_pos hcond, createRtpPackets_state]
      exact ⟨_, rfl⟩
    · rw [if_neg hcond]
      exact ⟨z.extraPackets, rfl⟩

theorem flushPendingStapA_state (z : H264Repacketizer) :
    ∃ E, (flushPendingStapA z).1 = { z with extraPackets := E, pendingStapA := none } := by
  rcases hp : z.pendingStapA with _ | ⟨_ | ⟨first, rest⟩⟩
  · refine ⟨z.extraPackets, ?_⟩
    simp only [flushPendingStapA, hp]
    cases z
    simp only at hp
    subst hp
    rfl
  · exact ⟨z.extraPackets, by simp only [flushPendingStapA, hp]⟩
  · simp only [flushPendingStapA, hp]
    by_cases hcond : (packetizeStapA z.maxPacketSize
        ((first :: rest).map (fun p => p.payload))).length = 1
    · rw [if_pos hcond]
      exact ⟨_, rfl⟩
    · rw [if_neg hcond]
      exact ⟨z.extraPackets, rfl⟩

theorem maybeSendSpsPps_state (z : H264Repacketizer) (pkt : RtpPacket) :
    ∃ E, (maybeSendSpsPps z pkt).1 = { z with extraPackets := E } :=
  ⟨_, (maybeSendSpsPps_spec z pkt).1⟩

/-! Emission bounds for the flush helpers (claim C1 building blocks). -/

theorem flushPendingFuA_c1 (z : H264Repacketizer) (hM : 3 ≤ z.maxPacketSize)
    (hfm : z.fuaMax = z.maxPacketSize - 2) :
    ∀ p ∈ (flushPendingFuA z).2, p.payload.length ≤ z.maxPacketSize := by
  intro p hp
  rcases hpend : z.pendingFuA with _ | ⟨_ | ⟨first, rest⟩⟩ <;>
    simp only [flushPendingFuA, hpend] at hp
  · simp at hp
  · simp at hp
  · by_cases hcond : ((first :: rest).all
        (fun q => q.payload.getD 1 0 &&& 0x1f = first.payload.getD 1 0 &&& 0x1f)
          && seqContiguous (first :: rest)) = true
    · rw [if_pos hcond] at hp
      simp only at hp
      have hmem : p.payload ∈ packetizeFuA z.fuaMax
          ((first.payload.getD 0 0 &&& 0xE0 ||| (first.payload.getD 1 0 &&& 0x1f)) ::
            (first :: rest).flatMap (fun q => q.payload.drop 2))
          (!(first.payload.getD 1 0 &&& 0x80 ≠ 0 : Bool))
          (!((rest.getLastD first).payload.getD 1 0 &&& 0x40 ≠ 0 : Bool)) := by
        rw [← createRtpPackets_payloads z first (packetizeFuA z.fuaMax
          ((first.payload.getD 0 0 &&& 0xE0 ||| (first.payload.getD 1 0 &&& 0x1f)) ::
            (first :: rest).flatMap (fun q => q.payload.drop 2))
          (!(first.payload.getD 1 0 &&& 0x80 ≠ 0 : Bool))
          (!((rest.getLastD first).payload.getD 1 0 &&& 0x40 ≠ 0 : Bool)))
          ((rest.getLastD first).header.marker)]
        exact List.mem_map_of_mem _ hp
      have := packetizeFuA_le z.fuaMax (by omega) _ _ _ _ hmem
      omega
    · rw [if_neg hcond] at hp
      simp at hp

theorem flushPendingStapA_c1 (z : H264Repacketizer) (hM : 3 ≤ z.maxPacketSize) :
    ∀ p ∈ (flushPendingStapA z).2,
      p.payload.length ≤ z.maxPacketSize ∨
      ((z.maxPacketSize : Int) - 3 < (p.payload.length : Int) + 2 ∧
        ∃ q, q ∈ z.pendingStapA.getD [] ∧ p.payload = q.payload) := by
  intro p hp
  rcases hpend : z.pendingStapA with _ | ⟨_ | ⟨first, rest⟩⟩ <;>
    simp only [flushPendingStapA, hpend] at hp
  · simp at hp
  · simp at hp
  · by_cases hcond : (packetizeStapA z.maxPacketSize
        ((first :: rest).map (fun q => q.payload))).length = 1
    · rw [if_pos hcond] at hp
      simp only [List.mem_singleton] at hp
      subst hp
      rw [createPacket_payload]
      have hmem : (packetizeStapA z.maxPacketSize
          ((first :: rest).map (fun q => q.payload))).headD [] ∈
          packetizeStapA z.maxPacketSize ((first :: rest).map (fun q => q.payload)) := by
        have hne : packetizeStapA z.maxPacketSize
            ((first :: rest).map (fun q => q.payload)) ≠ [] := by
          intro hc
          rw [hc] at hcond
          simp at hcond
        obtain ⟨a, t, hcons⟩ := List.exists_cons_of_ne_nil hne
        rw [hcons]
        simp
      rcases packetizeStapA_members z.maxPacketSize hM _ _ hmem with
        ⟨hdr, consumed, _, _, _, _, hle⟩ | ⟨hin, hov⟩
      · left
        omega
      · right
        refine ⟨hov, ?_⟩
        obtain ⟨q, hq, hqe⟩ := List.mem_map.mp hin
        exact ⟨q, by simpa using hq, hqe.symm⟩
    · rw [if_neg hcond] at hp
      simp at hp

theorem packetizeStapA_pair_single (M : Nat) (hM : 3 ≤ M) (s p : List Nat)
    (hlen : (packetizeStapA M [s, p]).length = 1) :
    ∀ a ∈ packetizeStapA M [s, p], (a.length : Int) ≤ (M : Int) - 2 := by
  intro a ha
  have hgo : packetizeStapA M [s, p] =
      (packetizeOneStapA M [s, p]).1 ::
        packetizeStapAGo M 1 (packetizeOneStapA M [s, p]).2 := by
    rfl
  have hrem : (packetizeOneStapA M [s, p]).2 = [] := by
    rcases hr : (packetizeOneStapA M [s, p]).2 with _ | ⟨x, xs⟩
    · rfl
    · rw [hgo, hr] at hlen
      simp only [List.length_cons] at hlen
      have : packetizeStapAGo M 1 (x :: xs) =
          (packetizeOneStapA M (x :: xs)).1 ::
            packetizeStapAGo M 0 (packetizeOneStapA M (x :: xs)).2 := rfl
      rw [this] at hlen
      simp at hlen
  rcases packetizeOneStapA_spec M hM s [p] with ⟨heq, _⟩ | ⟨hdr, m, hm1, hmle, heq, _, hle⟩
  · rw [heq] at hrem
    simp at hrem
  · rw [hgo, hrem] at ha
    simp only [packetizeStapAGo, List.mem_singleton] at ha
    rw [heq] at ha
    simp only at ha
    rw [ha]
    exact hle

theorem maybeSendSpsPps_c1 (z : H264Repacketizer) (pkt : RtpPacket)
    (hM : 3 ≤ z.maxPacketSize) :
    ∀ p ∈ (maybeSendSpsPps z pkt).2, p.payload.length ≤ z.maxPacketSize := by
  intro p hp
  rcases hsp : z.codecInfo.sps with _ | s
  · simp only [maybeSendSpsPps, hsp] at hp
    simp at hp
  rcases hpp : z.codecInfo.pps with _ | pp
  · simp only [maybeSendSpsPps, hsp, hpp] at hp
    simp at hp
  simp only [maybeSendSpsPps, hsp, hpp] at hp
  by_cases hagg : (packetizeStapA z.maxPacketSize [s, pp]).length = 1
  · rw [if_pos hagg] at hp
    simp only at hp
    have hmem : p.payload ∈ packetizeStapA z.maxPacketSize [s, pp] := by
      rw [← createRtpPackets_payloads z pkt (packetizeStapA z.maxPacketSize [s, pp])
        pkt.header.marker]
      exact List.mem_map_of_mem _ hp
    have := packetizeStapA_pair_single z.maxPacketSize hM s pp hagg p.payload hmem
    omega
  · rw [if_neg hagg] at hp
    simp at hp

theorem repacketizeFuATail_c1 (z4 : H264Repacketizer) (pkt : RtpPacket)
    (hM : 3 ≤ z4.maxPacketSize) (hfm : z4.fuaMax = z4.maxPacketSize - 2) :
    (∀ p ∈ (repacketizeFuATail z4 pkt).2, p.payload.length ≤ z4.maxPacketSize) ∧
    (∀ q ∈ pendingPackets (repacketizeFuATail z4 pkt).1,
      q ∈ pendingPackets z4 ∨ q = pkt) ∧
    (repacketizeFuATail z4 pkt).1.maxPacketSize = z4.maxPacketSize ∧
    (repacketizeFuATail z4 pkt).1.fuaMax = z4.fuaMax := by
  obtain ⟨M, ci, e, fm, pst, pfu, ss⟩ := z4
  simp only at hM hfm
  subst hfm
  rcases pfu with _ | pend0
  · -- no pending group
    by_cases hfat : 2 * M ≤ pkt.payload.length
    · -- fat fua packet, fragmented directly
      have hstate := createRtpPackets_state
        (⟨M, ci, e, M - 2, pst, none, ss⟩ : H264Repacketizer) pkt
        (packetizeFuA (M - 2) pkt.payload) pkt.header.marker
      simp only [repacketizeFuATail, if_pos hfat, hstate]
      refine ⟨?_, ?_, by trivial, by trivial⟩
      · intro p hp
        try simp only [List.mem_append, List.not_mem_nil, false_or, or_false] at hp
        have hmem : p.payload ∈ packetizeFuA (M - 2) pkt.payload := by
          rw [← createRtpPackets_payloads (⟨M, ci, e, M - 2, pst, none, ss⟩ :
            H264Repacketizer) pkt (packetizeFuA (M - 2) pkt.payload) pkt.header.marker]
          exact List.mem_map_of_mem _ hp
        have := packetizeFuA_le (M - 2) (by omega) pkt.payload false false p.payload hmem
        omega
      · intro q hq
        exact Or.inl hq
    · -- start a fresh pending group holding just this packet
      by_cases hend : pkt.payload.getD 1 0 &&& 0x40 ≠ 0
      · obtain ⟨E7, hE7⟩ := flushPendingFuA_state
          (⟨M, ci, e, M - 2, pst, some [pkt], ss⟩ : H264Repacketizer)
        simp only at hE7
        have hle7 := flushPendingFuA_c1
          (⟨M, ci, e, M - 2, pst, some [pkt], ss⟩ : H264Repacketizer) hM rfl
        simp only [repacketizeFuATail, if_neg hfat, if_pos hend, List.nil_append, hE7]
        refine ⟨?_, ?_, by trivial, by trivial⟩
        · intro p hp
          try simp only [List.mem_append, List.not_mem_nil, false_or, or_false] at hp
          exact hle7 p hp
        · intro q hq
          simp only [pendingPackets, Option.getD_none, Option.getD_some,
            List.nil_append, List.append_nil, List.mem_append, List.mem_singleton,
            List.mem_cons, List.not_mem_nil, false_or, or_false] at hq ⊢
          tauto
      · simp only [repacketizeFuATail, if_neg hfat, if_neg hend]
        refine ⟨?_, ?_, by trivial, by trivial⟩
        · intro p hp
          simp at hp
        · intro q hq
          simp only [pendingPackets, Option.getD_none, Option.getD_some,
            List.nil_append, List.append_nil, List.mem_append, List.mem_singleton,
            List.mem_cons, List.not_mem_nil, false_or, or_false] at hq ⊢
          tauto
  · -- existing pending group: append, flush on FU end
    by_cases hend : pkt.payload.getD 1 0 &&& 0x40 ≠ 0
    · obtain ⟨E7, hE7⟩ := flushPendingFuA_state
        (⟨M, ci, e, M - 2, pst, some (pend0 ++ [pkt]), ss⟩ : H264Repacketizer)
      simp only at hE7
      have hle7 := flushPendingFuA_c1
        (⟨M, ci, e, M - 2, pst, some (pend0 ++ [pkt]), ss⟩ : H264Repacketizer) hM rfl
      simp only [repacketizeFuATail, if_pos hend, List.nil_append, hE7]
      refine ⟨?_, ?_, by trivial, by trivial⟩
      · intro p hp
        try simp only [List.mem_append, List.not_mem_nil, false_or, or_false] at hp
        exact hle7 p hp
      · intro q hq
        simp only [pendingPackets, Option.getD_none, Option.getD_some,
          List.nil_append, List.append_nil, List.mem_append, List.mem_singleton,
          List.mem_cons, List.not_mem_nil, false_or, or_false] at hq ⊢
        tauto
    · simp only [repacketizeFuATail, if_neg hend]
      refine ⟨?_, ?_, by trivial, by trivial⟩
      · intro p hp
        simp at hp
      · intro q hq
        simp only [pendingPackets, Option.getD_none, Option.getD_some,
          List.nil_append, List.append_nil, List.mem_append, List.mem_singleton,
          List.mem_cons, List.not_mem_nil, false_or, or_false] at hq ⊢
        tauto

theorem createRtpPackets_mem_payload (z : H264Repacketizer) (pkt : RtpPacket)
    (nalus : List (List Nat)) (hm : Bool) (p : SerializedPacket)
    (hp : p ∈ (createRtpPackets z pkt nalus hm).2) : p.payload ∈ nalus := by
  rw [← createRtpPackets_payloads z pkt nalus hm]
  exact List.mem_map_of_mem _ hp

theorem repacketizeDispatch_c1 (z2 : H264Repacketizer) (pkt : RtpPacket)
    (hM : 3 ≤ z2.maxPacketSize) (hfm : z2.fuaMax = z2.maxPacketSize - 2) :
    (∀ p ∈ (repacketizeDispatch z2 pkt).2,
      p.payload.length ≤ z2.maxPacketSize ∨
      ((z2.maxPacketSize : Int) - 3 < (p.payload.length : Int) + 2 ∧
        ∃ q, (q ∈ pendingPackets z2 ∨ q = pkt) ∧
          (p.payload = q.payload ∨ p.payload ∈ depacketizeStapA q.payload))) ∧
    (∀ q ∈ pendingPackets (repacketizeDispatch z2 pkt).1,
      q ∈ pendingPackets z2 ∨ q = pkt) ∧
    (repacketizeDispatch z2 pkt).1.maxPacketSize = z2.maxPacketSize ∧
    (repacketizeDispatch z2 pkt).1.fuaMax = z2.fuaMax := by
  obtain ⟨M, ci, e, fm, pst, pfu, ss⟩ := z2
  simp only at hM hfm
  subst hfm
  by_cases ht28 : pkt.payload.getD 0 0 &&& 0x1F = 28
  · -- FU-A input branch
    obtain ⟨E3, hE3⟩ := flushPendingStapA_state
      (⟨M, ci, e, M - 2, pst, pfu, ss⟩ : H264Repacketizer)
    simp only at hE3
    have hs3 := flushPendingStapA_c1
      (⟨M, ci, e, M - 2, pst, pfu, ss⟩ : H264Repacketizer) hM
    simp only at hs3
    by_cases hc4 : pkt.payload.getD 1 0 &&& 0x1f = 5 ∧
        pkt.payload.getD 1 0 &&& 0x80 ≠ 0 ∧ ¬ss = true
    · obtain ⟨E4, hE4⟩ := maybeSendSpsPps_state
        (⟨M, ci, E3, M - 2, none, pfu, ss⟩ : H264Repacketizer) pkt
      simp only at hE4
      have hs4 := maybeSendSpsPps_c1
        (⟨M, ci, E3, M - 2, none, pfu, ss⟩ : H264Repacketizer) pkt hM
      have htail := repacketizeFuATail_c1
        (⟨M, ci, E4, M - 2, none, pfu, ss⟩ : H264Repacketizer) pkt hM rfl
      simp only [repacketizeDispatch, if_pos ht28, hE3, if_pos hc4, hE4]
      refine ⟨?_, ?_, ?_, ?_⟩
      · intro p hp
        simp only [List.mem_append, List.mem_singleton, or_assoc, List.not_mem_nil, false_or, or_false] at hp
        rcases hp with hp | hp | hp
        · rcases hs3 p hp with hle | ⟨hov, q, hq, hpq⟩
          · exact Or.inl hle
          · exact Or.inr ⟨hov, q, Or.inl (List.mem_append.mpr (Or.inr hq)),
              Or.inl hpq⟩
        · exact Or.inl (hs4 p hp)
        · exact Or.inl (htail.1 p hp)
      · intro q hq
        rcases htail.2.1 q hq with h | h
        · simp only [pendingPackets, Option.getD_none, List.append_nil] at h
          exact Or.inl (List.mem_append.mpr (Or.inl h))
        · exact Or.inr h
      · exact htail.2.2.1
      · exact htail.2.2.2
    · have htail := repacketizeFuATail_c1
        (⟨M, ci, E3, M - 2, none, pfu, ss⟩ : H264Repacketizer) pkt hM rfl
      simp only [repacketizeDispatch, if_pos ht28, hE3, if_neg hc4, List.nil_append]
      refine ⟨?_, ?_, ?_, ?_⟩
      · intro p hp
        simp only [List.mem_append, List.mem_singleton, or_assoc, List.not_mem_nil, false_or, or_false] at hp
        rcases hp with hp | hp
        · rcases hs3 p hp with hle | ⟨hov, q, hq, hpq⟩
          · exact Or.inl hle
          · exact Or.inr ⟨hov, q, Or.inl (List.mem_append.mpr (Or.inr hq)),
              Or.inl hpq⟩
        · exact Or.inl (htail.1 p hp)
      · intro q hq
        rcases htail.2.1 q hq with h | h
        · simp only [pendingPackets, Option.getD_none, List.append_nil] at h
          exact Or.inl (List.mem_append.mpr (Or.inl h))
        · exact Or.inr h
      · exact htail.2.2.1
      · exact htail.2.2.2
  by_cases ht24 : pkt.payload.getD 0 0 &&& 0x1F = 24
  · -- STAP-A input branch
    obtain ⟨E3, hE3⟩ := flushPendingFuA_state
      (⟨M, ci, e, M - 2, pst, pfu, ss⟩ : H264Repacketizer)
    simp only at hE3
    have hs3 := flushPendingFuA_c1
      (⟨M, ci, e, M - 2, pst, pfu, ss⟩ : H264Repacketizer) hM rfl
    simp only at hs3
    simp only [repacketizeDispatch, if_neg ht28, if_pos ht24, hE3,
      createRtpPackets_state]
    refine ⟨?_, ?_, by trivial, by trivial⟩
    · intro p hp
      simp only [List.mem_append, List.mem_singleton, or_assoc, List.not_mem_nil, false_or, or_false] at hp
      rcases hp with hp | hp
      · exact Or.inl (hs3 p hp)
      · have hmem := createRtpPackets_mem_payload _ _ _ _ p hp
        rcases packetizeStapA_members M hM _ _ hmem with
          ⟨hdr, consumed, _, _, _, _, hle⟩ | ⟨hin, hov⟩
        · left
          omega
        · exact Or.inr ⟨hov, pkt, Or.inr rfl, Or.inr (List.mem_of_mem_filter hin)⟩
    · intro q hq
      simp only [pendingPackets, Option.getD_none, List.nil_append] at hq
      exact Or.inl (List.mem_append.mpr (Or.inr hq))
  by_cases hrange : 1 ≤ pkt.payload.getD 0 0 &&& 0x1F ∧ pkt.payload.getD 0 0 &&& 0x1F < 24
  · -- single-NAL branch
    obtain ⟨E3, hE3⟩ := flushPendingFuA_state
      (⟨M, ci, e, M - 2, pst, pfu, ss⟩ : H264Repacketizer)
    simp only at hE3
    have hs3 := flushPendingFuA_c1
      (⟨M, ci, e, M - 2, pst, pfu, ss⟩ : H264Repacketizer) hM rfl
    simp only at hs3
    by_cases h78 : pkt.payload.getD 0 0 &&& 0x1F = 7 ∨ pkt.payload.getD 0 0 &&& 0x1F = 8
    · -- buffer SPS/PPS for aggregation
      simp only [repacketizeDispatch, if_neg ht28, if_neg ht24, if_pos hrange,
        hE3, if_pos h78]
      refine ⟨?_, ?_, by trivial, by trivial⟩
      · intro p hp
        exact Or.inl (hs3 p hp)
      · intro q hq
        simp only [pendingPackets, Option.getD_none, Option.getD_some,
          List.nil_append, List.mem_append, List.mem_singleton] at hq ⊢
        tauto
    · obtain ⟨E4, hE4⟩ := flushPendingStapA_state
        (⟨M, ci, E3, M - 2, pst, none, ss⟩ : H264Repacketizer)
      simp only at hE4
      have hs4 := flushPendingStapA_c1
        (⟨M, ci, E3, M - 2, pst, none, ss⟩ : H264Repacketizer) hM
      simp only at hs4
      by_cases ht6 : pkt.payload.getD 0 0 &&& 0x1F = 6
      · -- SEI drop
        simp only [repacketizeDispatch, if_neg ht28, if_neg ht24, if_pos hrange,
          hE3, if_neg h78, hE4, if_pos ht6]
        refine ⟨?_, ?_, by trivial, by trivial⟩
        · intro p hp
          simp only [List.mem_append, List.mem_singleton, or_assoc, List.not_mem_nil, false_or, or_false] at hp
          rcases hp with hp | hp
          · exact Or.inl (hs3 p hp)
          · rcases hs4 p hp with hle | ⟨hov, q, hq, hpq⟩
            · exact Or.inl hle
            · exact Or.inr ⟨hov, q, Or.inl (List.mem_append.mpr (Or.inr hq)),
                Or.inl hpq⟩
        · intro q hq
          simp only [pendingPackets, Option.getD_none, List.nil_append] at hq
          simp at hq
      · by_cases hsyn : pkt.payload.getD 0 0 &&& 0x1F = 5 ∧ ¬ss = true
        · obtain ⟨E5, hE5⟩ := maybeSendSpsPps_state
            (⟨M, ci, E4, M - 2, none, none, ss⟩ : H264Repacketizer) pkt
          simp only at hE5
          have hs5 := maybeSendSpsPps_c1
            (⟨M, ci, E4, M - 2, none, none, ss⟩ : H264Repacketizer) pkt hM
          by_cases hbig : M < pkt.payload.length
          · simp only [repacketizeDispatch, if_neg ht28, if_neg ht24, if_pos hrange,
              hE3, if_neg h78, hE4, if_neg ht6, if_pos hsyn, hE5, if_pos hbig,
              createRtpPackets_state]
            refine ⟨?_, ?_, by trivial, by trivial⟩
            · intro p hp
              simp only [List.mem_append, List.mem_singleton, or_assoc, List.not_mem_nil, false_or, or_false] at hp
              rcases hp with hp | hp | hp | hp
              · exact Or.inl (hs3 p hp)
              · rcases hs4 p hp with hle | ⟨hov, q, hq, hpq⟩
                · exact Or.inl hle
                · exact Or.inr ⟨hov, q, Or.inl (List.mem_append.mpr (Or.inr hq)),
                    Or.inl hpq⟩
              · exact Or.inl (hs5 p hp)
              · have hmem := createRtpPackets_mem_payload _ _ _ _ p hp
                have := packetizeFuA_le (M - 2) (by omega) pkt.payload false false
                  p.payload hmem
                left
                omega
            · intro q hq
              simp only [pendingPackets, Option.getD_none, List.nil_append] at hq
              simp at hq
          · simp only [repacketizeDispatch, if_neg ht28, if_neg ht24, if_pos hrange,
              hE3, if_neg h78, hE4, if_neg ht6, if_pos hsyn, hE5, if_neg hbig]
            refine ⟨?_, ?_, by trivial, by trivial⟩
            · intro p hp
              simp only [List.mem_append, List.mem_singleton, or_assoc, List.not_mem_nil, false_or, or_false] at hp
              rcases hp with hp | hp | hp | hp
              · exact Or.inl (hs3 p hp)
              · rcases hs4 p hp with hle | ⟨hov, q, hq, hpq⟩
                · exact Or.inl hle
                · exact Or.inr ⟨hov, q, Or.inl (List.mem_append.mpr (Or.inr hq)),
                    Or.inl hpq⟩
              · exact Or.inl (hs5 p hp)
              · subst hp
                rw [createPacket_payload]
                left
                omega
            · intro q hq
              simp only [pendingPackets, Option.getD_none, List.nil_append] at hq
              simp at hq
        · by_cases hbig : M < pkt.payload.length
          · simp only [repacketizeDispatch, if_neg ht28, if_neg ht24, if_pos hrange,
              hE3, if_neg h78, hE4, if_neg ht6, if_neg hsyn, if_pos hbig,
              createRtpPackets_state, List.nil_append]
            refine ⟨?_, ?_, by trivial, by trivial⟩
            · intro p hp
              simp only [List.mem_append, List.mem_singleton, or_assoc, List.not_mem_nil, false_or, or_false] at hp
              rcases hp with hp | hp | hp
              · exact Or.inl (hs3 p hp)
              · rcases hs4 p hp with hle | ⟨hov, q, hq, hpq⟩
                · exact Or.inl hle
                · exact Or.inr ⟨hov, q, Or.inl (List.mem_append.mpr (Or.inr hq)),
                    Or.inl hpq⟩
              · have hmem := createRtpPackets_mem_payload _ _ _ _ p hp
                have := packetizeFuA_le (M - 2) (by omega) pkt.payload false false
                  p.payload hmem
                left
                omega
            · intro q hq
              simp only [pendingPackets, Option.getD_none, List.nil_append] at hq
              simp at hq
          · simp only [repacketizeDispatch, if_neg ht28, if_neg ht24, if_pos hrange,
              hE3, if_neg h78, hE4, if_neg ht6, if_neg hsyn, if_neg hbig,
              List.nil_append]
            refine ⟨?_, ?_, by trivial, by trivial⟩
            · intro p hp
              simp only [List.mem_append, List.mem_singleton, or_assoc, List.not_mem_nil, false_or, or_false] at hp
              rcases hp with hp | hp | hp
              · exact Or.inl (hs3 p hp)
              · rcases hs4 p hp with hle | ⟨hov, q, hq, hpq⟩
                · exact Or.inl hle
                · exact Or.inr ⟨hov, q, Or.inl (List.mem_append.mpr (Or.inr hq)),
                    Or.inl hpq⟩
              · subst hp
                rw [createPacket_payload]
                left
                omega
            · intro q hq
              simp only [pendingPackets, Option.getD_none, List.nil_append] at hq
              simp at hq
  · -- unknown NAL type: drop
    simp only [repacketizeDispatch, if_neg ht28, if_neg ht24, if_neg hrange]
    refine ⟨?_, ?_, by trivial, by trivial⟩
    · intro p hp
      simp at hp
    · intro q hq
      exact Or.inl hq

theorem flushFuAIfStale_state (z0 : H264Repacketizer) (pkt : RtpPacket) :
    (flushFuAIfStale z0 pkt).1 = z0 ∨
      ∃ E, (flushFuAIfStale z0 pkt).1 = { z0 with extraPackets := E, pendingFuA := none } := by
  rcases hp : z0.pendingFuA with _ | ⟨_ | ⟨p0, pr⟩⟩
  · exact Or.inl (by simp only [flushFuAIfStale, hp])
  · exact Or.inl (by simp only [flushFuAIfStale, hp])
  · by_cases hts : p0.header.timestamp ≠ pkt.header.timestamp
    · right
      obtain ⟨E, hE⟩ := flushPendingFuA_state z0
      exact ⟨E, by simp only [flushFuAIfStale, hp, if_pos hts]; exact hE⟩
    · exact Or.inl (by simp only [flushFuAIfStale, hp, if_neg hts])

theorem flushStapAIfStale_state (z1 : H264Repacketizer) (pkt : RtpPacket) :
    (flushStapAIfStale z1 pkt).1 = z1 ∨
      ∃ E, (flushStapAIfStale z1 pkt).1 = { z1 with extraPackets := E, pendingStapA := none } := by
  rcases hp : z1.pendingStapA with _ | ⟨_ | ⟨p0, pr⟩⟩
  · exact Or.inl (by simp only [flushStapAIfStale, hp])
  · exact Or.inl (by simp only [flushStapAIfStale, hp])
  · by_cases hts : p0.header.timestamp ≠ pkt.header.timestamp
    · right
      obtain ⟨E, hE⟩ := flushPendingStapA_state z1
      exact ⟨E, by simp only [flushStapAIfStale, hp, if_pos hts]; exact hE⟩
    · exact Or.inl (by simp only [flushStapAIfStale, hp, if_neg hts])

theorem flushFuAIfStale_c1 (z0 : H264Repacketizer) (pkt : RtpPacket)
    (hM : 3 ≤ z0.maxPacketSize) (hfm : z0.fuaMax = z0.maxPacketSize - 2) :
    ∀ p ∈ (flushFuAIfStale z0 pkt).2, p.payload.length ≤ z0.maxPacketSize := by
  intro p hp
  rcases hpend : z0.pendingFuA with _ | ⟨_ | ⟨p0, pr⟩⟩ <;>
    simp only [flushFuAIfStale, hpend] at hp
  · simp at hp
  · simp at hp
  · by_cases hts : p0.header.timestamp ≠ pkt.header.timestamp
    · rw [if_pos hts] at hp
      exact flushPendingFuA_c1 z0 hM hfm p hp
    · rw [if_neg hts] at hp
      simp at hp

theorem flushStapAIfStale_c1 (z1 : H264Repacketizer) (pkt : RtpPacket)
    (hM : 3 ≤ z1.maxPacketSize) :
    ∀ p ∈ (flushStapAIfStale z1 pkt).2,
      p.payload.length ≤ z1.maxPacketSize ∨
      ((z1.maxPacketSize : Int) - 3 < (p.payload.length : Int) + 2 ∧
        ∃ q, q ∈ z1.pendingStapA.getD [] ∧ p.payload = q.payload) := by
  intro p hp
  rcases hpend : z1.pendingStapA with _ | ⟨_ | ⟨p0, pr⟩⟩ <;>
    simp only [flushStapAIfStale, hpend] at hp
  · simp at hp
  · simp at hp
  · by_cases hts : p0.header.timestamp ≠ pkt.header.timestamp
    · rw [if_pos hts] at hp
      have := flushPendingStapA_c1 z1 hM p hp
      rwa [hpend] at this
    · rw [if_neg hts] at hp
      simp at hp

theorem repacketize_c1 (z0 : H264Repacketizer) (pkt : RtpPacket)
    (hM : 3 ≤ z0.maxPacketSize) (hfm : z0.fuaMax = z0.maxPacketSize - 2) :
    (∀ p ∈ (repacketize z0 pkt).2,
      p.payload.length ≤ z0.maxPacketSize ∨
      ((z0.maxPacketSize : Int) - 3 < (p.payload.length : Int) + 2 ∧
        ∃ q, (q ∈ pendingPackets z0 ∨ q = pkt) ∧
          (p.payload = q.payload ∨ p.payload ∈ depacketizeStapA q.payload))) ∧
    (∀ q ∈ pendingPackets (repacketize z0 pkt).1,
      q ∈ pendingPackets z0 ∨ q = pkt) ∧
    (repacketize z0 pkt).1.maxPacketSize = z0.maxPacketSize ∧
    (repacketize z0 pkt).1.fuaMax = z0.fuaMax := by
  have h1c := flushFuAIfStale_c1 z0 pkt hM hfm
  rcases flushFuAIfStale_state z0 pkt with h1 | ⟨E1, h1⟩ <;>
  [skip; skip] <;>
  · -- in each case, name the intermediate state and push through
    rcases flushStapAIfStale_state (flushFuAIfStale z0 pkt).1 pkt with h2 | ⟨E2, h2⟩ <;>
    · have h2c := flushStapAIfStale_c1 (flushFuAIfStale z0 pkt).1 pkt
        (by rw [h1]; exact hM)
      have hD := repacketizeDispatch_c1 (flushStapAIfStale (flushFuAIfStale z0 pkt).1 pkt).1
        pkt (by rw [h2, h1]; exact hM)
        (by rw [h2, h1]; exact hfm)
      simp only [repacketize]
      refine ⟨?_, ?_, ?_, ?_⟩
      · intro p hp
        simp only [List.mem_append, or_assoc] at hp
        rcases hp with hp | hp | hp
        · exact Or.inl (h1c p hp)
        · rcases h2c p hp with hle | ⟨hov, q, hq, hpq⟩
          · rw [h1] at hle
            exact Or.inl hle
          · rw [h1] at hov
            refine Or.inr ⟨hov, q, Or.inl ?_, Or.inl hpq⟩
            rw [h1] at hq
            exact List.mem_append.mpr (Or.inr hq)
        · rcases hD.1 p hp with hle | ⟨hov, q, hq, hpq⟩
          · rw [h2, h1] at hle
            exact Or.inl hle
          · rw [h2, h1] at hov
            refine Or.inr ⟨hov, q, ?_, hpq⟩
            rcases hq with hq | hq
            · rw [h2, h1] at hq
              left
              simp only [pendingPackets, Option.getD_none, List.nil_append,
                List.append_nil, List.mem_append] at hq ⊢
              tauto
            · exact Or.inr hq
      · intro q hq
        rcases hD.2.1 q hq with h | h
        · rw [h2, h1] at h
          left
          simp only [pendingPackets, Option.getD_none, List.nil_append,
            List.append_nil, List.mem_append] at h ⊢
          tauto
        · exact Or.inr h
      · rw [hD.2.2.1, h2, h1]
      · rw [hD.2.2.2, h2, h1]

theorem repacketizeAll_c1 (inputs : List RtpPacket) :
    ∀ z : H264Repacketizer, 3 ≤ z.maxPacketSize → z.fuaMax = z.maxPacketSize - 2 →
    (∀ p ∈ (repacketizeAll z inputs).2,
      p.payload.length ≤ z.maxPacketSize ∨
      ((z.maxPacketSize : Int) - 3 < (p.payload.length : Int) + 2 ∧
        ∃ q, (q ∈ pendingPackets z ∨ q ∈ inputs) ∧
          (p.payload = q.payload ∨ p.payload ∈ depacketizeStapA q.payload))) ∧
    (∀ q ∈ pendingPackets (repacketizeAll z inputs).1,
      q ∈ pendingPackets z ∨ q ∈ inputs) ∧
    (repacketizeAll z inputs).1.maxPacketSize = z.maxPacketSize ∧
    (repacketizeAll z inputs).1.fuaMax = z.fuaMax := by
  induction inputs with
  | nil =>
    intro z hM hfm
    refine ⟨?_, ?_, rfl, rfl⟩
    · intro p hp
      simp [repacketizeAll] at hp
    · intro q hq
      exact Or.inl hq
  | cons pk rest ih =>
    intro z hM hfm
    have hc := repacketize_c1 z pk hM hfm
    have hM' : 3 ≤ (repacketize z pk).1.maxPacketSize := by
      rw [hc.2.2.1]
      exact hM
    have hfm' : (repacketize z pk).1.fuaMax = (repacketize z pk).1.maxPacketSize - 2 := by
      rw [hc.2.2.2, hc.2.2.1, hfm]
    have hr := ih (repacketize z pk).1 hM' hfm'
    simp only [repacketizeAll]
    refine ⟨?_, ?_, ?_, ?_⟩
    · intro p hp
      simp only [List.mem_append] at hp
      rcases hp with hp | hp
      · rcases hc.1 p hp with hle | ⟨hov, q, hq, hpq⟩
        · exact Or.inl hle
        · refine Or.inr ⟨hov, q, ?_, hpq⟩
          rcases hq with hq | hq
          · exact Or.inl hq
          · exact Or.inr (by rw [hq]; exact List.mem_cons_self pk rest)
      · rcases hr.1 p hp with hle | ⟨hov, q, hq, hpq⟩
        · rw [hc.2.2.1] at hle
          exact Or.inl hle
        · rw [hc.2.2.1] at hov
          refine Or.inr ⟨hov, q, ?_, hpq⟩
          rcases hq with hq | hq
          · rcases hc.2.1 q hq with h | h
            · exact Or.inl h
            · exact Or.inr (by rw [h]; exact List.mem_cons_self pk rest)
          · exact Or.inr (List.mem_cons_of_mem pk hq)
    · intro q hq
      rcases hr.2.1 q hq with h | h
      · rcases hc.2.1 q h with h2 | h2
        · exact Or.inl h2
        · exact Or.inr (by rw [h2]; exact List.mem_cons_self pk rest)
      · exact Or.inr (List.mem_cons_of_mem pk h)
    · rw [hr.2.2.1, hc.2.2.1]
    · rw [hr.2.2.2, hc.2.2.2]

/-- C1: on a repacketizer constructed with `max_packet_size ≥ 3`, every
serialized packet emitted while feeding any sequence of input RTP
packets has payload length at most `max_packet_size`, except for
packets produced through the degenerate `packetizeOneStapA` fallback:
those exceed the STAP-A budget (`max_packet_size - 3 <` NAL length
`+ 2`) and carry a raw NAL taken verbatim from an input payload or
from inside an input STAP-A aggregate. -/
theorem c1_size_bound (M : Nat) (ci : CodecInfo) (inputs : List RtpPacket)
    (hM : 3 ≤ M) :
    ∀ p ∈ (repacketizeAll (H264Repacketizer.new M ci) inputs).2,
      p.payload.length ≤ M ∨
      ((M : Int) - 3 < (p.payload.length : Int) + 2 ∧
        ∃ q, q ∈ inputs ∧
          (p.payload = q.payload ∨ p.payload ∈ depacketizeStapA q.payload)) := by
  intro p hp
  have h := (repacketizeAll_c1 inputs (H264Repacketizer.new M ci) hM rfl).1 p hp
  rcases h with hle | ⟨hov, q, hq, hpq⟩
  · exact Or.inl hle
  · rcases hq with hq | hq
    · simp [H264Repacketizer.new, pendingPackets] at hq
    · exact Or.inr ⟨hov, q, hq, hpq⟩

/-- C1 witness: concrete instantiation of the size bound. -/
theorem c1_size_bound_witness :
    3 ≤ 5 ∧
    ∀ p ∈ (repacketizeAll (H264Repacketizer.new 5 ⟨none, none⟩)
        [⟨⟨0, 0, true⟩, [1, 2, 3]⟩]).2,
      p.payload.length ≤ 5 ∨
      ((5 : Int) - 3 < (p.payload.length : Int) + 2 ∧
        ∃ q, q ∈ [(⟨⟨0, 0, true⟩, [1, 2, 3]⟩ : RtpPacket)] ∧
          (p.payload = q.payload ∨ p.payload ∈ depacketizeStapA q.payload)) :=
  ⟨by decide, c1_size_bound 5 ⟨none, none⟩ [⟨⟨0, 0, true⟩, [1, 2, 3]⟩] (by decide)⟩

theorem fuaHeadersSpec_mem (mid endH : List Nat) :
    ∀ c cur x, x ∈ fuaHeadersSpec mid endH c cur → x = cur ∨ x = mid ∨ x = endH := by
  intro c
  induction c using Nat.strong_induction_on with
  | _ c ih =>
    intro cur x hx
    match c with
    | 0 => simp [fuaHeadersSpec] at hx
    | 1 =>
      simp only [fuaHeadersSpec, List.mem_singleton] at hx
      exact Or.inr (Or.inr hx)
    | c + 2 =>
      simp only [fuaHeadersSpec, List.mem_cons] at hx
      rcases hx with hx | hx
      · exact Or.inl hx
      · rcases ih (c + 1) (by omega) mid x hx with h | h | h
        · exact Or.inr (Or.inl h)
        · exact Or.inr (Or.inl h)
        · exact Or.inr (Or.inr h)

theorem fuaCore_frag_type (f : Nat) (hf : 1 ≤ f) (data : List Nat)
    (hlen : 2 ≤ data.length) (ns ne : Bool) :
    ∀ frag ∈ fuaCore f data ns ne,
      frag.getD 0 0 &&& 31 = 28 ∧ frag.getD 1 0 &&& 31 = data.getD 0 0 &&& 31 := by
  intro frag hfrag
  have hspec := (fuaCore_spec f hf data hlen ns ne).1
  have htk : frag.take 2 ∈ (fuaCore f data ns ne).map (fun x => x.take 2) :=
    List.mem_map_of_mem _ hfrag
  rw [hspec] at htk
  have hg0 : frag.getD 0 0 = (frag.take 2).getD 0 0 := (getD_take_two frag 0 0 (by omega)).symm
  have hg1 : frag.getD 1 0 = (frag.take 2).getD 1 0 := (getD_take_two frag 1 0 (by omega)).symm
  rcases fuaHeadersSpec_mem _ _ _ _ _ htk with h | h | h <;>
    rw [hg0, hg1, h] <;>
    [cases ns; skip; cases ne] <;>
    simp only [if_pos, if_neg, ite_true, ite_false, Bool.false_eq_true, List.getD] <;>
    constructor <;>
    first
      | exact fu_indicator_type _
      | exact land_31_31 _
      | exact lor_hi_land31 _ 0x80 (by decide)
      | exact lor_hi_land31 _ 0x40 (by decide)


theorem packetizeFuA_frag_type (f : Nat) (hf : 1 ≤ f) (data : List Nat) (ns ne : Bool) :
    ∀ frag ∈ packetizeFuA f data ns ne,
      frag.getD 0 0 &&& 31 = 28 ∧ frag.getD 1 0 &&& 31 = fuaSourceType data := by
  by_cases hty : data.getD 0 0 &&& 0x1f = 28
  · rw [packetizeFuA_eq_core_fua f data ns ne hty]
    by_cases hlen : 2 ≤ ((data.getD 0 0 &&& 0xE0 ||| data.getD 1 0 &&& 0x1f) ::
        data.drop 2).length
    · intro frag hfrag
      have h := fuaCore_frag_type f hf _ hlen _ _ frag hfrag
      refine ⟨h.1, ?_⟩
      rw [h.2]
      show (data.getD 0 0 &&& 0xE0 ||| data.getD 1 0 &&& 0x1f) &&& 31 = _
      rw [land_lor_right, land_hi_31, Nat.zero_or, land_31_31]
      simp only [fuaSourceType, if_pos hty]
    · intro frag hfrag
      rw [fuaCore_short f _ _ _ (by omega)] at hfrag
      simp at hfrag
  · rw [packetizeFuA_eq_core f data ns ne hty]
    by_cases hlen : 2 ≤ data.length
    · intro frag hfrag
      have h := fuaCore_frag_type f hf data hlen _ _ frag hfrag
      refine ⟨h.1, ?_⟩
      rw [h.2]
      simp only [fuaSourceType, if_neg hty]
    · intro frag hfrag
      rw [fuaCore_short f _ _ _ (by omega)] at hfrag
      simp at hfrag




theorem okNal_spec (n : List Nat) (h : okNal n = true) :
    (1 ≤ nalTypeOf n ∧ nalTypeOf n < 24 ∧ nalTypeOf n ≠ 6) ∧ n.length < 65536 := by
  simp only [okNal, Bool.and_eq_true, decide_eq_true_eq, bne_iff_ne] at h
  tauto

theorem mentionsSei_of_type (p : List Nat) (h6 : nalTypeOf p ≠ 6)
    (h24 : nalTypeOf p ≠ 24) (h28 : nalTypeOf p ≠ 28) : mentionsSei p = false := by
  simp [mentionsSei, h6, h24, h28]

theorem mentionsSei_fua (p : List Nat) (h : nalTypeOf p = 28)
    (h2 : p.getD 1 0 &&& 0x1F ≠ 6) : mentionsSei p = false := by
  have h2' : ¬(p[1]?).getD 0 &&& 31 = 6 := by
    rw [← List.getD_eq_getElem?_getD]
    exact h2
  simp [mentionsSei, h, h2']

theorem packetizeStapA_sei_free (M : Nat) (hM : 3 ≤ M) (datas : List (List Nat))
    (hok : ∀ n ∈ datas,
      (1 ≤ nalTypeOf n ∧ nalTypeOf n < 24 ∧ nalTypeOf n ≠ 6) ∧ n.length < 65536) :
    ∀ a ∈ packetizeStapA M datas, mentionsSei a = false := by
  intro a ha
  rcases packetizeStapA_members M hM datas a ha with
    ⟨hdr, consumed, hae, hhdr, hne, hsub, _⟩ | ⟨hin, _⟩
  · obtain ⟨d0, ds, rfl⟩ := List.exists_cons_of_ne_nil hne
    have hdep : depacketizeStapA (hdr :: encodeStapA (d0 :: ds)) = d0 :: ds :=
      depacketize_encode hdr d0 ds (fun n hn => (hok n (hsub n hn)).2)
    rw [hae]
    have hty : nalTypeOf (hdr :: encodeStapA (d0 :: ds)) = 24 := by
      simp only [nalTypeOf, List.getD_cons_zero]
      exact hhdr
    have hany : ((d0 :: ds).any fun n => nalTypeOf n == 6) = false := by
      rw [List.any_eq_false]
      intro n hn
      simpa using (hok n (hsub n hn)).1.2.2
    simp [mentionsSei, hty, hdep, hany]
  · have h := (hok a hin).1
    exact mentionsSei_of_type a h.2.2 (by omega) (by omega)

theorem flushPendingStapA_sei (z : H264Repacketizer) (hM : 3 ≤ z.maxPacketSize)
    (hok : ∀ q ∈ z.pendingStapA.getD [], okNal q.payload = true) :
    ∀ p ∈ (flushPendingStapA z).2, mentionsSei p.payload = false := by
  intro p hp
  rcases hpend : z.pendingStapA with _ | ⟨_ | ⟨first, rest⟩⟩ <;>
    simp only [flushPendingStapA, hpend] at hp
  · simp at hp
  · simp at hp
  · by_cases hcond : (packetizeStapA z.maxPacketSize
        ((first :: rest).map (fun q => q.payload))).length = 1
    · rw [if_pos hcond] at hp
      simp only [List.mem_singleton] at hp
      subst hp
      rw [createPacket_payload]
      have hmem : (packetizeStapA z.maxPacketSize
          ((first :: rest).map (fun q => q.payload))).headD [] ∈
          packetizeStapA z.maxPacketSize ((first :: rest).map (fun q => q.payload)) := by
        have hne : packetizeStapA z.maxPacketSize
            ((first :: rest).map (fun q => q.payload)) ≠ [] := by
          intro hc
          rw [hc] at hcond
          simp at hcond
        obtain ⟨a, t, hcons⟩ := List.exists_cons_of_ne_nil hne
        rw [hcons]
        simp
      refine packetizeStapA_sei_free z.maxPacketSize hM _ ?_ _ hmem
      intro n hn
      obtain ⟨q, hq, rfl⟩ := List.mem_map.mp hn
      refine okNal_spec _ (hok q ?_)
      rw [hpend]
      simpa using hq
    · rw [if_neg hcond] at hp
      simp at hp

theorem flushPendingFuA_sei (z : H264Repacketizer) (hf : 1 ≤ z.fuaMax)
    (hok : ∀ q ∈ z.pendingFuA.getD [],
      q.payload.getD 1 0 &&& 31 ≠ 6 ∧ q.payload.getD 1 0 &&& 31 ≠ 28) :
    ∀ p ∈ (flushPendingFuA z).2, mentionsSei p.payload = false := by
  intro p hp
  rcases hpend : z.pendingFuA with _ | ⟨_ | ⟨first, rest⟩⟩ <;>
    simp only [flushPendingFuA, hpend] at hp
  · simp at hp
  · simp at hp
  · by_cases hcond : ((first :: rest).all
        (fun q => q.payload.getD 1 0 &&& 0x1f = first.payload.getD 1 0 &&& 0x1f)
          && seqContiguous (first :: rest)) = true
    · rw [if_pos hcond] at hp
      simp only at hp
      have hmem := createRtpPackets_mem_payload _ _ _ _ p hp
      obtain ⟨h6, h28⟩ := hok first (by rw [hpend]; simp)
      have hft := packetizeFuA_frag_type z.fuaMax hf _ _ _ p.payload hmem
      have horig : (first.payload.getD 0 0 &&& 0xE0 |||
          first.payload.getD 1 0 &&& 0x1f) &&& 0x1f =
          first.payload.getD 1 0 &&& 0x1f := by
        rw [land_lor_right, land_hi_31, Nat.zero_or, land_31_31]
      have hsrc : fuaSourceType ((first.payload.getD 0 0 &&& 0xE0 |||
          first.payload.getD 1 0 &&& 0x1f) ::
            (first :: rest).flatMap (fun q => q.payload.drop 2)) =
          first.payload.getD 1 0 &&& 0x1f := by
        simp only [fuaSourceType, List.getD_cons_zero, horig, if_neg h28]
      refine mentionsSei_fua _ hft.1 ?_
      rw [hft.2, hsrc]
      exact h6
    · rw [if_neg hcond] at hp
      simp at hp

theorem maybeSendSpsPps_sei (z : H264Repacketizer) (pkt : RtpPacket)
    (hM : 3 ≤ z.maxPacketSize) (hcodec : seiSafeCodec z.codecInfo = true) :
    ∀ p ∈ (maybeSendSpsPps z pkt).2, mentionsSei p.payload = false := by
  intro p hp
  rcases hsp : z.codecInfo.sps with _ | s
  · simp only [maybeSendSpsPps, hsp] at hp
    simp at hp
  rcases hpp : z.codecInfo.pps with _ | pp
  · simp only [maybeSendSpsPps, hsp, hpp] at hp
    simp at hp
  simp only [maybeSendSpsPps, hsp, hpp] at hp
  by_cases hagg : (packetizeStapA z.maxPacketSize [s, pp]).length = 1
  · rw [if_pos hagg] at hp
    simp only at hp
    have hmem := createRtpPackets_mem_payload _ _ _ _ p hp
    refine packetizeStapA_sei_free z.maxPacketSize hM _ ?_ _ hmem
    intro n hn
    simp only [seiSafeCodec, hsp, hpp, Option.all_some, Bool.and_eq_true] at hcodec
    simp only [List.mem_cons, List.mem_singleton, List.not_mem_nil, or_false] at hn
    rcases hn with rfl | rfl
    · exact okNal_spec _ hcodec.1
    · exact okNal_spec _ hcodec.2
  · rw [if_neg hagg] at hp
    simp at hp


theorem repacketizeFuATail_sei (z4 : H264Repacketizer) (pkt : RtpPacket)
    (hM : 3 ≤ z4.maxPacketSize) (hfm : z4.fuaMax = z4.maxPacketSize - 2)
    (hz : PendOk z4) (hpkt28 : pkt.payload.getD 0 0 &&& 0x1F = 28)
    (hp6 : pkt.payload.getD 1 0 &&& 31 ≠ 6)
    (hp28 : pkt.payload.getD 1 0 &&& 31 ≠ 28) :
    (∀ p ∈ (repacketizeFuATail z4 pkt).2, mentionsSei p.payload = false) ∧
    PendOk (repacketizeFuATail z4 pkt).1 ∧
    (repacketizeFuATail z4 pkt).1.codecInfo = z4.codecInfo := by
  obtain ⟨M, ci, e, fm, pst, pfu, ss⟩ := z4
  simp only at hM hfm
  subst hfm
  obtain ⟨hzs, hzf⟩ := hz
  simp only at hzs hzf
  have hsrc : fuaSourceType pkt.payload = pkt.payload.getD 1 0 &&& 31 := by
    simp only [fuaSourceType, if_pos hpkt28]
  rcases pfu with _ | pend0
  · by_cases hfat : 2 * M ≤ pkt.payload.length
    · have hstate := createRtpPackets_state
        (⟨M, ci, e, M - 2, pst, none, ss⟩ : H264Repacketizer) pkt
        (packetizeFuA (M - 2) pkt.payload) pkt.header.marker
      simp only [repacketizeFuATail, if_pos hfat, hstate]
      refine ⟨?_, ⟨hzs, by simp⟩, by trivial⟩
      intro p hp
      have hmem := createRtpPackets_mem_payload _ _ _ _ p hp
      have hft := packetizeFuA_frag_type (M - 2) (by omega) _ _ _ p.payload hmem
      refine mentionsSei_fua _ hft.1 ?_
      rw [hft.2, hsrc]
      exact hp6
    · by_cases hend : pkt.payload.getD 1 0 &&& 0x40 ≠ 0
      · obtain ⟨E7, hE7⟩ := flushPendingFuA_state
          (⟨M, ci, e, M - 2, pst, some [pkt], ss⟩ : H264Repacketizer)
        simp only at hE7
        have hflu := flushPendingFuA_sei
          (⟨M, ci, e, M - 2, pst, some [pkt], ss⟩ : H264Repacketizer) (by simp; omega)
          (by intro q hq; simp only [Option.getD_some, List.mem_singleton] at hq
              subst hq; exact ⟨hp6, hp28⟩)
        simp only [repacketizeFuATail, if_neg hfat, if_pos hend, List.nil_append, hE7]
        refine ⟨?_, ⟨hzs, by simp⟩, by trivial⟩
        intro p hp
        exact hflu p hp
      · simp only [repacketizeFuATail, if_neg hfat, if_neg hend]
        refine ⟨?_, ⟨hzs, ?_⟩, by trivial⟩
        · intro p hp
          simp at hp
        · intro q hq
          simp at hq
          subst hq
          exact ⟨hp6, hp28⟩
  · by_cases hend : pkt.payload.getD 1 0 &&& 0x40 ≠ 0
    · obtain ⟨E7, hE7⟩ := flushPendingFuA_state
        (⟨M, ci, e, M - 2, pst, some (pend0 ++ [pkt]), ss⟩ : H264Repacketizer)
      simp only at hE7
      have hflu := flushPendingFuA_sei
        (⟨M, ci, e, M - 2, pst, some (pend0 ++ [pkt]), ss⟩ : H264Repacketizer)
        (by simp; omega)
        (by intro q hq
            simp only [Option.getD_some, List.mem_append, List.mem_singleton] at hq
            rcases hq with hq | hq
            · exact hzf q hq
            · subst hq; exact ⟨hp6, hp28⟩)
      simp only [repacketizeFuATail, if_pos hend, List.nil_append, hE7]
      refine ⟨?_, ⟨hzs, by simp⟩, by trivial⟩
      intro p hp
      exact hflu p hp
    · simp only [repacketizeFuATail, if_neg hend]
      refine ⟨?_, ⟨hzs, ?_⟩, by trivial⟩
      · intro p hp
        simp at hp
      · intro q hq
        simp at hq
        rcases hq with hq | hq
        · exact hzf q hq
        · subst hq
          exact ⟨hp6, hp28⟩

theorem repacketizeDispatch_sei (z2 : H264Repacketizer) (pkt : RtpPacket)
    (hM : 3 ≤ z2.maxPacketSize) (hfm : z2.fuaMax = z2.maxPacketSize - 2)
    (hz : PendOk z2) (hcodec : seiSafeCodec z2.codecInfo = true)
    (hq : seiSafeInput pkt = true) :
    (∀ p ∈ (repacketizeDispatch z2 pkt).2, mentionsSei p.payload = false) ∧
    PendOk (repacketizeDispatch z2 pkt).1 ∧
    (repacketizeDispatch z2 pkt).1.codecInfo = z2.codecInfo := by
  obtain ⟨M, ci, e, fm, pst, pfu, ss⟩ := z2
  simp only at hM hfm hcodec
  subst hfm
  obtain ⟨hzs, hzf⟩ := hz
  simp only at hzs hzf
  by_cases ht28 : pkt.payload.getD 0 0 &&& 0x1F = 28
  · -- FU-A input branch
    have ht28n : nalTypeOf pkt.payload = 28 := ht28
    simp only [seiSafeInput, if_pos ht28n, Bool.and_eq_true, bne_iff_ne] at hq
    obtain ⟨hp6, hp28⟩ := hq
    obtain ⟨E3, hE3⟩ := flushPendingStapA_state
      (⟨M, ci, e, M - 2, pst, pfu, ss⟩ : H264Repacketizer)
    simp only at hE3
    have hs3 := flushPendingStapA_sei
      (⟨M, ci, e, M - 2, pst, pfu, ss⟩ : H264Repacketizer) hM hzs
    by_cases hc4 : pkt.payload.getD 1 0 &&& 0x1f = 5 ∧
        pkt.payload.getD 1 0 &&& 0x80 ≠ 0 ∧ ¬ss = true
    · obtain ⟨E4, hE4⟩ := maybeSendSpsPps_state
        (⟨M, ci, E3, M - 2, none, pfu, ss⟩ : H264Repacketizer) pkt
      simp only at hE4
      have hs4 := maybeSendSpsPps_sei
        (⟨M, ci, E3, M - 2, none, pfu, ss⟩ : H264Repacketizer) pkt hM hcodec
      have htail := repacketizeFuATail_sei
        (⟨M, ci, E4, M - 2, none, pfu, ss⟩ : H264Repacketizer) pkt hM rfl
        ⟨by simp, hzf⟩ ht28 hp6 hp28
      simp only [repacketizeDispatch, if_pos ht28, hE3, if_pos hc4, hE4]
      refine ⟨?_, htail.2.1, htail.2.2⟩
      intro p hp
      simp only [List.mem_append, or_assoc, List.not_mem_nil, false_or, or_false] at hp
      rcases hp with hp | hp | hp
      · exact hs3 p hp
      · exact hs4 p hp
      · exact htail.1 p hp
    · have htail := repacketizeFuATail_sei
        (⟨M, ci, E3, M - 2, none, pfu, ss⟩ : H264Repacketizer) pkt hM rfl
        ⟨by simp, hzf⟩ ht28 hp6 hp28
      simp only [repacketizeDispatch, if_pos ht28, hE3, if_neg hc4, List.nil_append]
      refine ⟨?_, htail.2.1, htail.2.2⟩
      intro p hp
      simp only [List.mem_append, or_assoc, List.not_mem_nil, false_or, or_false] at hp
      rcases hp with hp | hp
      · exact hs3 p hp
      · exact htail.1 p hp
  by_cases ht24 : pkt.payload.getD 0 0 &&& 0x1F = 24
  · -- STAP-A input branch
    have ht28n : ¬nalTypeOf pkt.payload = 28 := ht28
    have ht24n : nalTypeOf pkt.payload = 24 := ht24
    simp only [seiSafeInput, if_neg ht28n, if_pos ht24n, List.all_eq_true] at hq
    obtain ⟨E3, hE3⟩ := flushPendingFuA_state
      (⟨M, ci, e, M - 2, pst, pfu, ss⟩ : H264Repacketizer)
    simp only at hE3
    have hs3 := flushPendingFuA_sei
      (⟨M, ci, e, M - 2, pst, pfu, ss⟩ : H264Repacketizer) (by simp; omega) hzf
    simp only [repacketizeDispatch, if_neg ht28, if_pos ht24, hE3,
      createRtpPackets_state]
    refine ⟨?_, ⟨by exact hzs, by simp⟩, by trivial⟩
    intro p hp
    simp only [List.mem_append, or_assoc, List.not_mem_nil, false_or, or_false] at hp
    rcases hp with hp | hp
    · exact hs3 p hp
    · have hmem := createRtpPackets_mem_payload _ _ _ _ p hp
      refine packetizeStapA_sei_free M hM _ ?_ _ hmem
      intro n hn
      rw [List.mem_filter] at hn
      have hne6 : nalTypeOf n ≠ 6 := by
        have := hn.2
        simp only [decide_eq_true_eq] at this
        exact this
      have := hq n hn.1
      rcases Bool.or_eq_true_iff.mp this with h | h
      · exact absurd (by simpa using h) hne6
      · exact okNal_spec n h
  by_cases hrange : 1 ≤ pkt.payload.getD 0 0 &&& 0x1F ∧ pkt.payload.getD 0 0 &&& 0x1F < 24
  · -- single-NAL branch
    have ht28n : ¬nalTypeOf pkt.payload = 28 := ht28
    have ht24n : ¬nalTypeOf pkt.payload = 24 := ht24
    obtain ⟨E3, hE3⟩ := flushPendingFuA_state
      (⟨M, ci, e, M - 2, pst, pfu, ss⟩ : H264Repacketizer)
    simp only at hE3
    have hs3 := flushPendingFuA_sei
      (⟨M, ci, e, M - 2, pst, pfu, ss⟩ : H264Repacketizer) (by simp; omega) hzf
    by_cases h78 : pkt.payload.getD 0 0 &&& 0x1F = 7 ∨ pkt.payload.getD 0 0 &&& 0x1F = 8
    · -- buffer SPS/PPS
      have h78n : nalTypeOf pkt.payload = 7 ∨ nalTypeOf pkt.payload = 8 := h78
      simp only [seiSafeInput, if_neg ht28n, if_neg ht24n, if_pos h78n,
        decide_eq_true_eq] at hq
      have hok : okNal pkt.payload = true := by
        rcases h78n with h7 | h8
        · simp [okNal, h7, hq]
        · simp [okNal, h8, hq]
      simp only [repacketizeDispatch, if_neg ht28, if_neg ht24, if_pos hrange,
        hE3, if_pos h78]
      refine ⟨?_, ⟨?_, by simp⟩, by trivial⟩
      · intro p hp
        exact hs3 p hp
      · intro q hq2
        simp only [Option.getD_some, List.mem_append, List.mem_singleton] at hq2
        rcases hq2 with hq2 | hq2
        · exact hzs q hq2
        · subst hq2
          exact hok
    · obtain ⟨E4, hE4⟩ := flushPendingStapA_state
        (⟨M, ci, E3, M - 2, pst, none, ss⟩ : H264Repacketizer)
      simp only at hE4
      have hs4 := flushPendingStapA_sei
        (⟨M, ci, E3, M - 2, pst, none, ss⟩ : H264Repacketizer) hM hzs
      by_cases ht6 : pkt.payload.getD 0 0 &&& 0x1F = 6
      · simp only [repacketizeDispatch, if_neg ht28, if_neg ht24, if_pos hrange,
          hE3, if_neg h78, hE4, if_pos ht6]
        refine ⟨?_, ⟨by simp, by simp⟩, by trivial⟩
        intro p hp
        simp only [List.mem_append, or_assoc, List.not_mem_nil, false_or, or_false] at hp
        rcases hp with hp | hp
        · exact hs3 p hp
        · exact hs4 p hp
      · have hsrc : fuaSourceType pkt.payload = pkt.payload.getD 0 0 &&& 31 := by
          simp only [fuaSourceType, if_neg ht28]
        by_cases hsyn : pkt.payload.getD 0 0 &&& 0x1F = 5 ∧ ¬ss = true
        · obtain ⟨E5, hE5⟩ := maybeSendSpsPps_state
            (⟨M, ci, E4, M - 2, none, none, ss⟩ : H264Repacketizer) pkt
          simp only at hE5
          have hs5 := maybeSendSpsPps_sei
            (⟨M, ci, E4, M - 2, none, none, ss⟩ : H264Repacketizer) pkt hM hcodec
          by_cases hbig : M < pkt.payload.length
          · simp only [repacketizeDispatch, if_neg ht28, if_neg ht24, if_pos hrange,
              hE3, if_neg h78, hE4, if_neg ht6, if_pos hsyn, hE5, if_pos hbig,
              createRtpPackets_state]
            refine ⟨?_, ⟨by simp, by simp⟩, by trivial⟩
            intro p hp
            simp only [List.mem_append, or_assoc, List.not_mem_nil, false_or,
              or_false] at hp
            rcases hp with hp | hp | hp
            · exact hs3 p hp
            · exact hs4 p hp
            · rcases hp with hp | hp
              · exact hs5 p hp
              · have hmem := createRtpPackets_mem_payload _ _ _ _ p hp
                have hft := packetizeFuA_frag_type (M - 2) (by omega) _ _ _
                  p.payload hmem
                refine mentionsSei_fua _ hft.1 ?_
                rw [hft.2, hsrc]
                exact ht6
          · simp only [repacketizeDispatch, if_neg ht28, if_neg ht24, if_pos hrange,
              hE3, if_neg h78, hE4, if_neg ht6, if_pos hsyn, hE5, if_neg hbig]
            refine ⟨?_, ⟨by simp, by simp⟩, by trivial⟩
            intro p hp
            simp only [List.mem_append, List.mem_singleton, or_assoc,
              List.not_mem_nil, false_or, or_false] at hp
            rcases hp with hp | hp | hp
            · exact hs3 p hp
            · exact hs4 p hp
            · rcases hp with hp | hp
              · exact hs5 p hp
              · subst hp
                rw [createPacket_payload]
                exact mentionsSei_of_type _ ht6 (by omega) ht28
        · by_cases hbig : M < pkt.payload.length
          · simp only [repacketizeDispatch, if_neg ht28, if_neg ht24, if_pos hrange,
              hE3, if_neg h78, hE4, if_neg ht6, if_neg hsyn, if_pos hbig,
              createRtpPackets_state, List.nil_append]
            refine ⟨?_, ⟨by simp, by simp⟩, by trivial⟩
            intro p hp
            simp only [List.mem_append, or_assoc, List.not_mem_nil, false_or,
              or_false] at hp
            rcases hp with hp | hp | hp
            · exact hs3 p hp
            · exact hs4 p hp
            · have hmem := createRtpPackets_mem_payload _ _ _ _ p hp
              have hft := packetizeFuA_frag_type (M - 2) (by omega) _ _ _
                p.payload hmem
              refine mentionsSei_fua _ hft.1 ?_
              rw [hft.2, hsrc]
              exact ht6
          · simp only [repacketizeDispatch, if_neg ht28, if_neg ht24, if_pos hrange,
              hE3, if_neg h78, hE4, if_neg ht6, if_neg hsyn, if_neg hbig,
              List.nil_append]
            refine ⟨?_, ⟨by simp, by simp⟩, by trivial⟩
            intro p hp
            simp only [List.mem_append, List.mem_singleton, or_assoc,
              List.not_mem_nil, false_or, or_false] at hp
            rcases hp with hp | hp | hp
            · exact hs3 p hp
            · exact hs4 p hp
            · subst hp
              rw [createPacket_payload]
              exact mentionsSei_of_type _ ht6 (by omega) ht28
  · -- unknown NAL type: drop
    simp only [repacketizeDispatch, if_neg ht28, if_neg ht24, if_neg hrange]
    refine ⟨?_, ⟨by exact hzs, by exact hzf⟩, by trivial⟩
    intro p hp
    simp at hp

theorem flushFuAIfStale_sei (z0 : H264Repacketizer) (pkt : RtpPacket)
    (hf : 1 ≤ z0.fuaMax)
    (hok : ∀ q ∈ z0.pendingFuA.getD [],
      q.payload.getD 1 0 &&& 31 ≠ 6 ∧ q.payload.getD 1 0 &&& 31 ≠ 28) :
    ∀ p ∈ (flushFuAIfStale z0 pkt).2, mentionsSei p.payload = false := by
  intro p hp
  rcases hpend : z0.pendingFuA with _ | ⟨_ | ⟨p0, pr⟩⟩ <;>
    simp only [flushFuAIfStale, hpend] at hp
  · simp at hp
  · simp at hp
  · by_cases hts : p0.header.timestamp ≠ pkt.header.timestamp
    · rw [if_pos hts] at hp
      exact flushPendingFuA_sei z0 hf hok p hp
    · rw [if_neg hts] at hp
      simp at hp

theorem flushStapAIfStale_sei (z1 : H264Repacketizer) (pkt : RtpPacket)
    (hM : 3 ≤ z1.maxPacketSize)
    (hok : ∀ q ∈ z1.pendingStapA.getD [], okNal q.payload = true) :
    ∀ p ∈ (flushStapAIfStale z1 pkt).2, mentionsSei p.payload = false := by
  intro p hp
  rcases hpend : z1.pendingStapA with _ | ⟨_ | ⟨p0, pr⟩⟩ <;>
    simp only [flushStapAIfStale, hpend] at hp
  · simp at hp
  · simp at hp
  · by_cases hts : p0.header.timestamp ≠ pkt.header.timestamp
    · rw [if_pos hts] at hp
      exact flushPendingStapA_sei z1 hM hok p hp
    · rw [if_neg hts] at hp
      simp at hp

theorem repacketize_sei (z0 : H264Repacketizer) (pkt : RtpPacket)
    (hM : 3 ≤ z0.maxPacketSize) (hfm : z0.fuaMax = z0.maxPacketSize - 2)
    (hz : PendOk z0) (hcodec : seiSafeCodec z0.codecInfo = true)
    (hq : seiSafeInput pkt = true) :
    (∀ p ∈ (repacketize z0 pkt).2, mentionsSei p.payload = false) ∧
    PendOk (repacketize z0 pkt).1 ∧
    (repacketize z0 pkt).1.codecInfo = z0.codecInfo := by
  have h1s := flushFuAIfStale_sei z0 pkt (by omega) hz.2
  rcases flushFuAIfStale_state z0 pkt with h1 | ⟨E1, h1⟩ <;>
  [skip; skip] <;>
  · have hz1 : PendOk (flushFuAIfStale z0 pkt).1 := by
      rw [h1]
      first
      | exact hz
      | exact ⟨hz.1, by intro q hq2; simp at hq2⟩
    have h2s := flushStapAIfStale_sei (flushFuAIfStale z0 pkt).1 pkt
      (by rw [h1]; exact hM) hz1.1
    rcases flushStapAIfStale_state (flushFuAIfStale z0 pkt).1 pkt with h2 | ⟨E2, h2⟩ <;>
    · have hz2 : PendOk (flushStapAIfStale (flushFuAIfStale z0 pkt).1 pkt).1 := by
        rw [h2]
        first
        | exact hz1
        | exact ⟨by intro q hq2; simp at hq2, hz1.2⟩
      have hD := repacketizeDispatch_sei
        (flushStapAIfStale (flushFuAIfStale z0 pkt).1 pkt).1 pkt
        (by rw [h2, h1]; exact hM) (by rw [h2, h1]; exact hfm) hz2
        (by rw [h2, h1]; exact hcodec) hq
      simp only [repacketize]
      refine ⟨?_, hD.2.1, by rw [hD.2.2, h2, h1]⟩
      intro p hp
      simp only [List.mem_append, or_assoc] at hp
      rcases hp with hp | hp | hp
      · exact h1s p hp
      · exact h2s p hp
      · exact hD.1 p hp

theorem repacketizeAll_sei (inputs : List RtpPacket) :
    ∀ z : H264Repacketizer, 3 ≤ z.maxPacketSize → z.fuaMax = z.maxPacketSize - 2 →
    PendOk z → seiSafeCodec z.codecInfo = true →
    (∀ q ∈ inputs, seiSafeInput q = true) →
    (∀ p ∈ (repacketizeAll z inputs).2, mentionsSei p.payload = false) ∧
    PendOk (repacketizeAll z inputs).1 ∧
    (repacketizeAll z inputs).1.codecInfo = z.codecInfo := by
  induction inputs with
  | nil =>
    intro z hM hfm hz hcodec hin
    refine ⟨?_, hz, rfl⟩
    intro p hp
    simp [repacketizeAll] at hp
  | cons pk rest ih =>
    intro z hM hfm hz hcodec hin
    have hc := repacketize_sei z pk hM hfm hz hcodec (hin pk (by simp))
    have hfields := repacketize_c1 z pk hM hfm
    have hM' : 3 ≤ (repacketize z pk).1.maxPacketSize := by
      rw [hfields.2.2.1]
      exact hM
    have hfm' : (repacketize z pk).1.fuaMax = (repacketize z pk).1.maxPacketSize - 2 := by
      rw [hfields.2.2.2, hfields.2.2.1, hfm]
    have hcodec' : seiSafeCodec (repacketize z pk).1.codecInfo = true := by
      rw [hc.2.2]
      exact hcodec
    have hr := ih (repacketize z pk).1 hM' hfm' hc.2.1 hcodec'
      (fun q hq => hin q (List.mem_cons_of_mem pk hq))
    simp only [repacketizeAll]
    refine ⟨?_, hr.2.1, by rw [hr.2.2, hc.2.2]⟩
    intro p hp
    simp only [List.mem_append] at hp
    rcases hp with hp | hp
    · exact hc.1 p hp
    · exact hr.1 p hp

/-- C8 (amended): starting from a fresh repacketizer whose codec
buffers hold only safe NALs, a stream of inputs that never carries an
SEI inside an FU-A (type 28 with original type 6 or nested 28) and
whose STAP-A aggregates contain only SEI or plain safe NALs produces no
emission mentioning an SEI NAL — not as a single NAL, not inside a
STAP-A, not as an FU-A original type.  The FU-A paths themselves never
filter SEI, so the restriction on type-28 inputs is necessary — see the
counterexample. -/
theorem c8_sei_elision (M : Nat) (ci : CodecInfo) (inputs : List RtpPacket)
    (hM : 3 ≤ M) (hci : seiSafeCodec ci = true)
    (hin : ∀ q ∈ inputs, seiSafeInput q = true) :
    ∀ p ∈ (repacketizeAll (H264Repacketizer.new M ci) inputs).2,
      mentionsSei p.payload = false := by
  intro p hp
  refine (repacketizeAll_sei inputs (H264Repacketizer.new M ci) hM rfl
    ⟨?_, ?_⟩ hci hin).1 p hp
  · intro q hq
    simp [H264Repacketizer.new] at hq
  · intro q hq
    simp [H264Repacketizer.new] at hq

/-- C8 witness: concrete instantiation of the amended SEI elision. -/
theorem c8_sei_elision_witness :
    (3 ≤ 5 ∧ seiSafeCodec ⟨none, none⟩ = true ∧
      (∀ q ∈ [(⟨⟨0, 0, true⟩, [6, 9]⟩ : RtpPacket)], seiSafeInput q = true)) ∧
    ∀ p ∈ (repacketizeAll (H264Repacketizer.new 5 ⟨none, none⟩)
        [⟨⟨0, 0, true⟩, [6, 9]⟩]).2,
      mentionsSei p.payload = false :=
  ⟨⟨by decide, by decide, by decide⟩,
    c8_sei_elision 5 ⟨none, none⟩ [⟨⟨0, 0, true⟩, [6, 9]⟩] (by decide) (by decide)
      (by decide)⟩

/-- C8 counterexample: the claim as stated is false.  A fat FU-A input
whose original NAL type is 6 (SEI) is refragmented and emitted with the
SEI type intact in every FU header: no path filters SEI out of FU-A
traffic. -/
theorem c8_counterexample :
    ∃ p ∈ (repacketizeAll (H264Repacketizer.new 3 ⟨none, none⟩)
        [⟨⟨0, 0, true⟩, [28, 0x46, 1, 2, 3, 4]⟩]).2,
      mentionsSei p.payload = true := by
  decide

/-- C5 counterexample: a NAL that fits in a single fragment gets the FU
end bit but not the FU start bit, so the start bit is not set on the
first fragment of every fragmentation. -/
theorem c5_counterexample :
    (packetizeFuA 4 [1, 2] false false).length = 1 ∧
    (packetizeFuA 4 [1, 2] false false).map fuStart = [false] ∧
    (packetizeFuA 4 [1, 2] false false).map fuEnd = [true] := by
  decide

/-- C2 witness: concrete instantiation of the sequence-number rewrite. -/
theorem c2_sequence_rewrite_witness :
    (createPacket (H264Repacketizer.new 1200 ⟨none, none⟩)
        ⟨⟨100, 0, false⟩, [1]⟩ [1] true).sequenceNumber =
      (100 + (H264Repacketizer.new 1200 ⟨none, none⟩).extraPackets) % 0x10000 ∧
    0 ≤ (createPacket (H264Repacketizer.new 1200 ⟨none, none⟩)
        ⟨⟨100, 0, false⟩, [1]⟩ [1] true).sequenceNumber ∧
    (createPacket (H264Repacketizer.new 1200 ⟨none, none⟩)
        ⟨⟨100, 0, false⟩, [1]⟩ [1] true).sequenceNumber < 0x10000 :=
  c2_sequence_rewrite (H264Repacketizer.new 1200 ⟨none, none⟩)
    ⟨⟨100, 0, false⟩, [1]⟩ [1] true (by decide)

/-- C3 witness: concrete instantiation of the marker-placement law. -/
theorem c3_marker_placement_witness :
    1 ≤ (repacketize (H264Repacketizer.new 1200 ⟨none, none⟩)
        ⟨⟨0, 0, true⟩, [1, 2]⟩).2.length ∧
    (repacketize (H264Repacketizer.new 1200 ⟨none, none⟩)
        ⟨⟨0, 0, true⟩, [1, 2]⟩).2.map (fun s => s.marker) =
      (if spsSynthesisFires (H264Repacketizer.new 1200 ⟨none, none⟩)
          (nalTypeOf ((⟨⟨0, 0, true⟩, [1, 2]⟩ : RtpPacket)).payload)
        then [((⟨⟨0, 0, true⟩, [1, 2]⟩ : RtpPacket)).header.marker] else []) ++
        (List.replicate ((repacketize (H264Repacketizer.new 1200 ⟨none, none⟩)
              ⟨⟨0, 0, true⟩, [1, 2]⟩).2.length -
            (if spsSynthesisFires (H264Repacketizer.new 1200 ⟨none, none⟩)
                (nalTypeOf ((⟨⟨0, 0, true⟩, [1, 2]⟩ : RtpPacket)).payload)
              then 1 else 0) - 1) false ++
          [((⟨⟨0, 0, true⟩, [1, 2]⟩ : RtpPacket)).header.marker]) :=
  c3_marker_placement (H264Repacketizer.new 1200 ⟨none, none⟩)
    ⟨⟨0, 0, true⟩, [1, 2]⟩ (by decide) (by decide) (by decide) (by decide)
    (by decide) (by decide) (by decide) (by decide) (by decide) (by decide)

/-- C4 witness: concrete instantiation of the per-call accounting law. -/
theorem c4_extra_packets_per_call_witness :
    (repacketize (H264Repacketizer.new 1200 ⟨none, none⟩)
        ⟨⟨0, 0, true⟩, [1, 2]⟩).1.extraPackets -
      (H264Repacketizer.new 1200 ⟨none, none⟩).extraPackets =
      ((repacketize (H264Repacketizer.new 1200 ⟨none, none⟩)
          ⟨⟨0, 0, true⟩, [1, 2]⟩).2.length : Int) - 1 :=
  c4_extra_packets_per_call (H264Repacketizer.new 1200 ⟨none, none⟩)
    ⟨⟨0, 0, true⟩, [1, 2]⟩ (by decide) (by decide) (by decide) (by decide)
    (by decide) (by decide) (by decide) (by decide)

/-- C5 witness: concrete instantiation of the FU-A round trip. -/
theorem c5_fua_round_trip_witness :
    packetizeFuA 1 [1, 2, 3] false false ≠ [] ∧
    defragmentFuA (packetizeFuA 1 [1, 2, 3] false false) = [1, 2, 3] ∧
    (packetizeFuA 1 [1, 2, 3] false false).map fuStart =
      (if (packetizeFuA 1 [1, 2, 3] false false).length = 1 then [false]
        else true ::
          List.replicate ((packetizeFuA 1 [1, 2, 3] false false).length - 1) false) ∧
    (packetizeFuA 1 [1, 2, 3] false false).map fuEnd =
      List.replicate ((packetizeFuA 1 [1, 2, 3] false false).length - 1) false ++
        [true] :=
  c5_fua_round_trip 1 (by decide) [1, 2, 3] (by decide) (by decide) (by decide)

/-- C6 witness: concrete instantiation of the chunk-size law. -/
theorem c6_fua_chunk_sizes_witness :
    (packetizeFuA 2 [1, 2, 3, 4] false false).length = jsCeilDiv (4 - 1) 2 ∧
    (packetizeFuA 2 [1, 2, 3, 4] false false).map (fun x => (x.drop 2).length) =
      List.replicate ((4 - 1) % jsCeilDiv (4 - 1) 2)
          ((4 - 1) / jsCeilDiv (4 - 1) 2 + 1) ++
        List.replicate
          (jsCeilDiv (4 - 1) 2 - (4 - 1) % jsCeilDiv (4 - 1) 2)
          ((4 - 1) / jsCeilDiv (4 - 1) 2) :=
  c6_fua_chunk_sizes 2 (by decide) [1, 2, 3, 4] false false (by decide) (by decide)

/-- C7 witness: concrete instantiation of the STAP-A round trip. -/
theorem c7_stapa_round_trip_witness :
    depacketizeStapA (packetizeOneStapA 20 [[7, 1], [8, 2]]).1 = [[7, 1], [8, 2]] :=
  c7_stapa_round_trip 20 [7, 1] [[8, 2]] (by decide) (by decide) (by decide)

/-- C10 witness: concrete instantiation of the zero-payload FU-A law. -/
theorem c10_zero_payload_fua_witness :
    packetizeFuA 1 [5] false false = [] ∧
    flushPendingFuA
        (⟨12, ⟨none, none⟩, 0, 10, none, some [⟨⟨0, 0, false⟩, [28, 5]⟩],
          false⟩ : H264Repacketizer) =
      ({ (⟨12, ⟨none, none⟩, 0, 10, none, some [⟨⟨0, 0, false⟩, [28, 5]⟩],
            false⟩ : H264Repacketizer) with
          extraPackets := (⟨12, ⟨none, none⟩, 0, 10, none,
              some [⟨⟨0, 0, false⟩, [28, 5]⟩], false⟩ : H264Repacketizer).extraPackets -
            ((([(⟨⟨0, 0, false⟩, [28, 5]⟩ : RtpPacket)] : List RtpPacket).length : Int) - 1)
          pendingFuA := none }, []) :=
  c10_zero_payload_fua 1 5 false false
    (⟨12, ⟨none, none⟩, 0, 10, none, some [⟨⟨0, 0, false⟩, [28, 5]⟩], false⟩ :
      H264Repacketizer)
    ⟨⟨0, 0, false⟩, [28, 5]⟩ [] (by decide) (by decide) (by decide) (by decide)

end H264
